import Mathlib

/-!
# ViennaCL kernel generator: embedding of the generator and of the emitted kernels

The development follows the sources

* `viennacl/device_specific/templates/vector_axpy_template.hpp`
* `viennacl/generator/get_kernels_infos.hpp`
* `viennacl/generator/make_code.hpp`

Conventions of the embedding.

* Values of the C and OpenCL C type `unsigned int` (and `cl_uint`) are natural numbers
  reduced modulo `2^32` wherever the source stores into such a variable.  Values of type
  `size_t` (work sizes, vector sizes) are natural numbers; the loop over the reduction
  dimension of the matrix-matrix kernel reduces its `size_t` variables to the range of
  that type.
* A loop of an emitted kernel whose counter can wrap around is run with a fuel argument;
  its result carries a flag telling whether the loop was left before the fuel ran out.
* The lanes of a work-group are run in step between two barriers when the cells they
  write there are read by no other lane; where a statement is not separated by a barrier
  from a write of another lane, the execution is an argument of the embedding.
* Floating point data is replaced by exact integers.
-/

namespace viennacl

/-! ## Emitted kernels, run conceptually -/

/-- Number of values of the type `unsigned int` (32 bits in OpenCL C). -/
def uint_range : Nat := 4294967296

/-- The loop `for(unsigned int i = start ; i < bound ; i += step)` emitted by
`vector_axpy_template::core` (with `start = get_global_id(0)`, `bound = N`,
`step = get_global_size(0)`) and by `make_code<InProdToken<T,0>>` (with
`start = get_local_id(0)`, `bound = get_num_groups(0)`, `step = get_local_size(0)`).
The counter `i` is an `unsigned int`: the increment wraps modulo `2^32`.
Returns the values of `i` at which the body ran, in order, and whether the loop was left
within `fuel` tests of its condition. -/
def stride_loop (bound step : Nat) : Nat → Nat → List Nat × Bool
  | 0, _ => ([], false)
  | fuel + 1, i =>
    if i < bound then
      ((i :: (stride_loop bound step fuel ((i + step) % uint_range)).1),
        (stride_loop bound step fuel ((i + step) % uint_range)).2)
    else ([], true)

/-- Work-item `gid` of the AXPY kernel: the loop
`for(unsigned int i = get_global_id(0) ; i < N ; i += get_global_size(0))` of
`vector_axpy_template::core`, started at `i = get_global_id(0)` converted to `unsigned int`. -/
def axpy_work_item (N gsize gid fuel : Nat) : List Nat × Bool :=
  stride_loop N gsize fuel (gid % uint_range)

/-- The body of the reduction loop of `make_code<InProdToken<T,1>>::reduction` and of
`make_code<InProdToken<T,0>>::value`, run by the `L` lanes of one work-group after the
barrier: `if (get_local_id(0) < stride) shared_memory_ptr[get_local_id(0)] +=
shared_memory_ptr[get_local_id(0)+stride];`.  The cells written (below `stride`) and the
cells of other lanes that are read (from `stride` on) do not overlap, so the lanes are run
as one simultaneous update of the local memory `sh`. -/
def reduction_step (L stride : Nat) (sh : Nat → Int) : Nat → Int :=
  fun lid => if lid < L ∧ lid < stride then sh lid + sh (lid + stride) else sh lid

/-- The emitted loop `for (unsigned int stride = ...; stride > 0; stride /= 2)` with the
body `reduction_step`; the flag tells whether the loop was left within `fuel` tests. -/
def reduction_loop (L : Nat) : Nat → Nat → (Nat → Int) → (Nat → Int) × Bool
  | 0, _, sh => (sh, false)
  | fuel + 1, stride, sh =>
    if 0 < stride then reduction_loop L fuel (stride / 2) (reduction_step L stride sh)
    else (sh, true)

/-- What an execution of a work-group decides about the statement
`name[get_group_id(0)] = shared_memory_ptr[0];`, which every lane runs behind the loop of
`make_code<InProdToken<T,1>>::reduction` and which no barrier separates from the last run
of the loop body: `lane` is the lane whose store to the buffer comes last, and
`reads_early` tells whether that lane has read cell 0 before lane 0 has written it behind
the last barrier. -/
structure final_store where
  lane : Nat
  reads_early : Bool
deriving DecidableEq

/-- The value that the store which comes last leaves in `name[get_group_id(0)]`, for a
work-group of `L` lanes: `before` is the local memory at the last barrier and `after` the
local memory once the lanes have run the statements behind it.  Lane 0 reads cell 0 after
its own write, in program order; another lane that reads early reads the cell as it was at
the barrier. -/
def last_stored_value (L : Nat) (s : final_store) (before after : Nat → Int) : Int :=
  if s.lane ≠ 0 ∧ s.lane < L ∧ s.reads_early = true then before 0 else after 0

/-- The loop `for (unsigned int stride = ...; stride > 0; stride /= 2)` of
`make_code<InProdToken<T,1>>::reduction` (lines 264-269) from a run of its body at
`stride` on, with the statement `name[get_group_id(0)] = shared_memory_ptr[0];` behind it
(line 270).  The body starts with the barrier, so that the lanes are in step
(`reduction_step`) up to the barrier of the last run; the run after which `stride /= 2`
gives 0 is the last one, and no barrier lies between its body and the statement behind the
loop.  The result is the value left in `name[get_group_id(0)]`, `none` when the loop is
not left within `fuel` runs. -/
def group_reduction_loop (L : Nat) (s : final_store) : Nat → Nat → (Nat → Int) → Option Int
  | 0, _, _ => none
  | fuel + 1, stride, sh =>
    if 0 < stride / 2 then
      group_reduction_loop L s fuel (stride / 2) (reduction_step L stride sh)
    else some (last_stored_value L s sh (reduction_step L stride sh))

/-- The code emitted by `make_code<InProdToken<T,1>>::reduction` for one inner product
(lines 263-270), run by a work-group of `L` lanes: every lane stores its private value into
`shared_memory_ptr[get_local_id(0)]`, the loop starts at `stride = get_local_size(0)/2`
(stored into an `unsigned int`, halved to zero within 33 tests), and every lane stores
`shared_memory_ptr[0]` into `name[get_group_id(0)]`.  The result is the value that the
execution `s` leaves there.  `sh0` is the content of the local memory before the kernel
runs; when the body of the loop does not run, no barrier lies between the first store and
the last statement. -/
def group_reduction (L : Nat) (private_value : Nat → Int) (sh0 : Nat → Int)
    (s : final_store) : Option Int :=
  if 0 < (L / 2) % uint_range then
    group_reduction_loop L s 33 ((L / 2) % uint_range)
      (fun lid => if lid < L then private_value lid else sh0 lid)
  else
    some (last_stored_value L s sh0
      (fun lid => if lid < L then private_value lid else sh0 lid))

/-- The first loop emitted by `make_code<InProdToken<T,0>>::value`, run by one lane:
`for (unsigned int i = get_local_id(0) ; i<get_num_groups(0) ; i+=get_local_size(0))
sum+= name[i];` with `G = get_num_groups(0)` and `L = get_local_size(0)`. -/
def final_sum_loop (group_results : Nat → Int) (G L : Nat) : Nat → Nat → Int → Int × Bool
  | 0, _, sum => (sum, false)
  | fuel + 1, i, sum =>
    if i < G then
      final_sum_loop group_results G L fuel ((i + L) % uint_range) (sum + group_results i)
    else (sum, true)

/-- The code emitted by `make_code<InProdToken<T,0>>::value` for one inner product, run by
one work-group of `L` lanes: `sum = 0`, the loop `final_sum_loop`,
`shared_memory_ptr[get_local_id(0)]=sum`, the reduction loop, and lane 0 writes
`shared_memory_ptr[0]` to the local value of the inner product.  The result is that written
value, or `none` when a loop was not left within its fuel. -/
def final_reduction (G L fuel : Nat) (group_results : Nat → Int) (sh0 : Nat → Int) :
    Option Int :=
  if (∀ lid, lid < L →
        (final_sum_loop group_results G L fuel (lid % uint_range) 0).2 = true) ∧
      (reduction_loop L 33 ((L / 2) % uint_range)
        (fun lid => if lid < L then
            (final_sum_loop group_results G L fuel (lid % uint_range) 0).1
          else sh0 lid)).2 = true then
    some ((reduction_loop L 33 ((L / 2) % uint_range)
      (fun lid => if lid < L then
          (final_sum_loop group_results G L fuel (lid % uint_range) 0).1
        else sh0 lid)).1 0)
  else none

/-- Modelled from the spec: the loop in which a lane accumulates its private value is
emitted by `body_code`, which is not among the sources.  Following the spec ("each lane
accumulates a private partial dot-product", over a grid-stride loop), the private value of
the lane with global id `gid` is the sum of `x[i]*y[i]` over the indices `i < N` that are
congruent to `gid` modulo the global size `gsize`. -/
def private_value (N gsize gid : Nat) (x y : Nat → Int) : Int :=
  (((List.range N).filter (fun i => i % gsize = gid)).map (fun i => x i * y i)).sum

/-- The two kernels of an inner product of vectors of length `N`.  The first kernel is
launched with `G` groups of `L` lanes: every group `g` runs `group_reduction` on the
private values of its lanes (the lane `lid` of group `g` has global id `g * L + lid`), and
the execution `store g` decides what it leaves in the cell `g` of the group-indexed buffer,
whose other cells hold `buffer0`.  The final kernel is a launch of its own, with `G2`
groups of `L2` lanes: `get_num_groups(0)` and `get_local_size(0)` in its text are `G2` and
`L2`, and every group of it runs `final_reduction` on the buffer. -/
def inner_prod_two_phase (N G L : Nat) (store : Nat → final_store) (buffer0 : Nat → Int)
    (G2 L2 fuel : Nat) (x y : Nat → Int) (sh0 : Nat → Int) : Option Int :=
  if ∀ g, g < G →
      (group_reduction L (fun lid => private_value N (G * L) (g * L + lid) x y) sh0
        (store g)).isSome = true then
    final_reduction G2 L2 fuel
      (fun g =>
        if g < G then
          (group_reduction L (fun lid => private_value N (G * L) (g * L + lid) x y) sh0
            (store g)).getD 0
        else buffer0 g)
      sh0
  else none

/-- The sequential dot product `x[0]*y[0] + ... + x[N-1]*y[N-1]`. -/
def sequential_dot (x y : Nat → Int) : Nat → Int
  | 0 => 0
  | n + 1 => sequential_dot x y n + x n * y n

/-! ## `vector_axpy_template` (device_specific/templates/vector_axpy_template.hpp) -/

namespace device_specific

/-- The ordering mode of a statement container, `statements_container::order_type`. -/
inductive order_type
  | SEQUENTIAL
  | INDEPENDENT
deriving DecidableEq

/-- The traversal mode `tree_parsing::read_write_traversal::mode_t`. -/
inductive mode_t
  | FETCH
  | WRITE_BACK
deriving DecidableEq

/-- The node selector passed to the traversals (`tree_parsing::LHS_NODE_TYPE`, ...). -/
inductive node_type
  | LHS_NODE_TYPE
  | PARENT_NODE_TYPE
  | RHS_NODE_TYPE
deriving DecidableEq

/-- The pair `index_tuple(i, bound)` of the iteration variable and the loop bound. -/
structure index_tuple where
  i : String
  bound : String
deriving DecidableEq

/-- Modelled from the spec: a vector operand ("a reference to a named memory region", with
its logical size and its padded internal size); `handle` is the identity of the memory
object.  The class of the vector is not among the sources; its sizes are of type `size_t`. -/
structure vector_base where
  handle : Nat
  size : Nat
  internal_size : Nat
deriving DecidableEq

/-- Modelled from the spec: a child of an operator node is a sub-expression (the index of
another node of the statement's array), a vector operand or another operand (scalar). -/
inductive lhs_rhs_element
  | composite (node_index : Nat)
  | vector (v : vector_base)
  | scalar (handle : Nat)
deriving DecidableEq

/-- Modelled from the spec: an operator node with its two children
(`scheduler::statement_node`, of which the source uses the field `lhs`). -/
structure statement_node where
  lhs : lhs_rhs_element
  op : String
  rhs : lhs_rhs_element
deriving DecidableEq

/-- Modelled from the spec: a statement, of which the source uses `array()` and `root()`. -/
structure statement where
  array : List statement_node
  root : Nat
deriving DecidableEq

/-- The statement container, of which the source uses `data()` and `order()`. -/
structure statements_container where
  data : List statement
  order : order_type
deriving DecidableEq

/-- Modelled from the spec: an entry of the mapping table, "generated name, generated
argument-declaration text". -/
structure mapped_object where
  name : String
  declaration : String
deriving DecidableEq

/-- Modelled from the spec: the mapping table of one statement, "a table from operand
identity to generated name and declaration"; the key is the handle of the operand. -/
abbrev mapping_type := List (Nat × mapped_object)

/-- A line of generated code.  What the traversals write is not given by the sources; a
load of an operand into a register and a store back are kept apart from other text. -/
inductive code_line
  | text (s : String)
  | load (name suffix : String) (index : index_tuple)
  | store (name suffix : String) (index : index_tuple)
deriving DecidableEq

/-- Modelled from the spec: `utils::kernel_generation_stream`, "an explicit text-builder
value with an explicit indent-level counter"; every line is kept with the indent level at
which it was written. -/
structure kernel_generation_stream where
  tab_count : Nat
  lines : List (Nat × code_line)
deriving DecidableEq

/-- Writes lines at the current indent level (`stream << ... << std::endl`). -/
def kernel_generation_stream.put (s : kernel_generation_stream) (ls : List code_line) :
    kernel_generation_stream :=
  { s with lines := s.lines ++ ls.map (fun l => (s.tab_count, l)) }

/-- The call `stream.inc_tab()`. -/
def kernel_generation_stream.inc_tab (s : kernel_generation_stream) :
    kernel_generation_stream :=
  { s with tab_count := s.tab_count + 1 }

/-- The call `stream.dec_tab()`. -/
def kernel_generation_stream.dec_tab (s : kernel_generation_stream) :
    kernel_generation_stream :=
  { s with tab_count := s.tab_count - 1 }

/-- The two functions of `tree_parsing` that `core` calls; their files are not among the
sources, so `core` is embedded over any pair of them.  `read_write` is given the mode, the
register suffix, the cache, the statement, its root, the index tuple, the mapping and the
node selector, and returns the lines it writes to the stream and the cache it leaves;
`evaluate_expression` returns the text of the expression. -/
structure tree_parsing where
  read_write : mode_t → String → List String → statement → Nat → index_tuple →
    mapping_type → node_type → List code_line × List String
  evaluate_expression : statement → Nat → index_tuple → Int → mapping_type → node_type →
    String

/-- One effect of `core` on the stream, in the order of the source text.  The calls of the
traversals carry their arguments: `statement_index` is the position of the iterator `it`
in `statements.data()` and `mapping_index` the index at which `mapping` is read. -/
inductive action
  | put (text : String)
  | inc_tab
  | dec_tab
  | read_write (mode : mode_t) (suffix : String) (statement_index : Nat)
      (index : index_tuple) (mapping_index : Nat) (leaf : node_type)
  | evaluate_expression (statement_index : Nat) (index : index_tuple) (temporary : Int)
      (mapping_index : Nat) (leaf : node_type)
deriving DecidableEq

/-- The register suffix of right-hand sides: `std::string rhs_suffix = "reg";`. -/
def rhs_suffix : String := "reg"

/-- The register suffix of left-hand sides:
`statements.order()==statements_container::INDEPENDENT?"tmp":rhs_suffix`. -/
def lhs_suffix (statements : statements_container) : String :=
  if statements.order = order_type.INDEPENDENT then "tmp" else rhs_suffix

/-- The first loop of `core` ("Fetch"), from the iterator position `k` on: for every
statement the left-hand side is read with `lhs`, then the right-hand side with `rhs`;
the mapping is read at `std::distance(statements.data().begin(),it)`. -/
def fetch_loop (lhs rhs : String) : Nat → List statement → List action
  | _, [] => []
  | k, _ :: rest =>
    action.read_write mode_t.FETCH lhs k ⟨"i", "N"⟩ k node_type.LHS_NODE_TYPE ::
    action.read_write mode_t.FETCH rhs k ⟨"i", "N"⟩ k node_type.RHS_NODE_TYPE ::
    fetch_loop lhs rhs (k + 1) rest

/-- The second loop of `core` ("Generates all the expression, in order"), from the iterator
position `k` and the counter `i` on: the mapping is read at `i++`.  The counter is declared
`unsigned int i = 0;`, so that its increment wraps at `uint_range`. -/
def evaluate_loop : Nat → Nat → List statement → List action
  | _, _, [] => []
  | k, i, _ :: rest =>
    action.evaluate_expression k ⟨"i", "N"⟩ (-1) i node_type.PARENT_NODE_TYPE ::
    evaluate_loop (k + 1) ((i + 1) % uint_range) rest

/-- The third loop of `core` ("Write back"), from the iterator position `k` on. -/
def write_back_loop (lhs : String) : Nat → List statement → List action
  | _, [] => []
  | k, _ :: rest =>
    action.read_write mode_t.WRITE_BACK lhs k ⟨"i", "N"⟩ k node_type.LHS_NODE_TYPE ::
    write_back_loop lhs (k + 1) rest

/-- The effects of `vector_axpy_template::core`, in the order of its source text. -/
def core_actions (statements : statements_container) : List action :=
  [action.put "for(unsigned int i = get_global_id(0) ; i < N ; i += get_global_size(0))",
   action.put "\x7b",
   action.inc_tab] ++
  fetch_loop (lhs_suffix statements) rhs_suffix 0 statements.data ++
  evaluate_loop 0 0 statements.data ++
  write_back_loop (lhs_suffix statements) 0 statements.data ++
  [action.dec_tab, action.put "\x7d"]

/-- The stream and the register cache while `core` runs. -/
structure gen_state where
  stream : kernel_generation_stream
  cache : List String

/-- Runs one effect.  A traversal is called on the statement at `statement_index`, its
root and the mapping `mapping[mapping_index]`; reading a vector out of its range has no
defined behaviour and gives `none`.  An evaluated expression is written followed by ';'
and a line break. -/
def exec_action (tp : tree_parsing) (statements : statements_container)
    (mapping : List mapping_type) (st : gen_state) : action → Option gen_state
  | action.put t => some ⟨kernel_generation_stream.put st.stream [code_line.text t], st.cache⟩
  | action.inc_tab => some ⟨st.stream.inc_tab, st.cache⟩
  | action.dec_tab => some ⟨st.stream.dec_tab, st.cache⟩
  | action.read_write mode suffix k index mi leaf =>
    match statements.data[k]?, mapping[mi]? with
    | some s, some m =>
      some ⟨kernel_generation_stream.put st.stream
              (tp.read_write mode suffix st.cache s s.root index m leaf).1,
            (tp.read_write mode suffix st.cache s s.root index m leaf).2⟩
    | _, _ => none
  | action.evaluate_expression k index temporary mi leaf =>
    match statements.data[k]?, mapping[mi]? with
    | some s, some m =>
      some ⟨kernel_generation_stream.put st.stream
              [code_line.text (tp.evaluate_expression s s.root index temporary m leaf ++ ";")],
            st.cache⟩
    | _, _ => none

/-- Runs a sequence of effects from left to right. -/
def exec (tp : tree_parsing) (statements : statements_container)
    (mapping : List mapping_type) : List action → gen_state → Option gen_state
  | [], st => some st
  | a :: rest, st =>
    match exec_action tp statements mapping st a with
    | some st1 => exec tp statements mapping rest st1
    | none => none

/-- The function `vector_axpy_template::core`: its effects are run on the given stream,
with the register cache `std::set<std::string> cache;` created empty. -/
def core (tp : tree_parsing) (stream : kernel_generation_stream)
    (statements : statements_container) (mapping : List mapping_type) :
    Option kernel_generation_stream :=
  (exec tp statements mapping (core_actions statements) ⟨stream, []⟩).map
    (fun st => st.stream)

/-- The lines of the fetch phase as the spec words it: for every statement of the container,
in order and each with its own mapping, the fetch of the left-hand side and then the fetch
of the right-hand side, all on one register cache handed on from call to call. -/
def fetch_output (tp : tree_parsing) (lhs rhs : String) :
    List (statement × mapping_type) → List String → List code_line × List String
  | [], cache => ([], cache)
  | sm :: rest, cache =>
    ((tp.read_write mode_t.FETCH lhs cache sm.1 sm.1.root ⟨"i", "N"⟩ sm.2
        node_type.LHS_NODE_TYPE).1 ++
      (tp.read_write mode_t.FETCH rhs
        (tp.read_write mode_t.FETCH lhs cache sm.1 sm.1.root ⟨"i", "N"⟩ sm.2
          node_type.LHS_NODE_TYPE).2
        sm.1 sm.1.root ⟨"i", "N"⟩ sm.2 node_type.RHS_NODE_TYPE).1 ++
      (fetch_output tp lhs rhs rest
        (tp.read_write mode_t.FETCH rhs
          (tp.read_write mode_t.FETCH lhs cache sm.1 sm.1.root ⟨"i", "N"⟩ sm.2
            node_type.LHS_NODE_TYPE).2
          sm.1 sm.1.root ⟨"i", "N"⟩ sm.2 node_type.RHS_NODE_TYPE).2).1,
     (fetch_output tp lhs rhs rest
        (tp.read_write mode_t.FETCH rhs
          (tp.read_write mode_t.FETCH lhs cache sm.1 sm.1.root ⟨"i", "N"⟩ sm.2
            node_type.LHS_NODE_TYPE).2
          sm.1 sm.1.root ⟨"i", "N"⟩ sm.2 node_type.RHS_NODE_TYPE).2).2)

/-- The lines of the evaluation phase as the spec words it: the evaluated expression of
every statement, in order, each followed by ';' on a line of its own. -/
def evaluate_output (tp : tree_parsing) (l : List (statement × mapping_type)) :
    List code_line :=
  l.map (fun sm => code_line.text
    (tp.evaluate_expression sm.1 sm.1.root ⟨"i", "N"⟩ (-1) sm.2 node_type.PARENT_NODE_TYPE
      ++ ";"))

/-- The statements of the evaluation phase, each with the mapping that the loop reads for
it, from the counter `i` on; the list ends where the mapping vector would be read out of
its range. -/
def evaluate_pairs (mapping : List mapping_type) :
    Nat → List statement → List (statement × mapping_type)
  | _, [] => []
  | i, s :: rest =>
    match mapping[i]? with
    | some m => (s, m) :: evaluate_pairs mapping ((i + 1) % uint_range) rest
    | none => []

/-- The lines of the write-back phase as the spec words it: the write-back of the left-hand
side of every statement, in order. -/
def write_back_output (tp : tree_parsing) (lhs : String) :
    List (statement × mapping_type) → List String → List code_line × List String
  | [], cache => ([], cache)
  | sm :: rest, cache =>
    ((tp.read_write mode_t.WRITE_BACK lhs cache sm.1 sm.1.root ⟨"i", "N"⟩ sm.2
        node_type.LHS_NODE_TYPE).1 ++
      (write_back_output tp lhs rest
        (tp.read_write mode_t.WRITE_BACK lhs cache sm.1 sm.1.root ⟨"i", "N"⟩ sm.2
          node_type.LHS_NODE_TYPE).2).1,
     (write_back_output tp lhs rest
        (tp.read_write mode_t.WRITE_BACK lhs cache sm.1 sm.1.root ⟨"i", "N"⟩ sm.2
          node_type.LHS_NODE_TYPE).2).2)

/-- Modelled from the spec: the leaf operands of a sub-expression, from left to right
("visit LHS and RHS subtrees"); a child that is a sub-expression is looked up in the array
of the statement.  `fuel` bounds the depth of the descent. -/
def leaves (array : List statement_node) : Nat → lhs_rhs_element → List Nat
  | _, lhs_rhs_element.vector v => [v.handle]
  | _, lhs_rhs_element.scalar h => [h]
  | 0, lhs_rhs_element.composite _ => []
  | fuel + 1, lhs_rhs_element.composite idx =>
    match array[idx]? with
    | none => []
    | some nd => leaves array fuel nd.lhs ++ leaves array fuel nd.rhs

/-- Modelled from the spec: the leaf operands a traversal started at the node `root` with
the selector `leaf` visits: those of the left child, of the right child, or of both. -/
def visited_leaves (s : statement) (root : Nat) (leaf : node_type) : List Nat :=
  match s.array[root]? with
  | none => []
  | some nd =>
    match leaf with
    | node_type.LHS_NODE_TYPE => leaves s.array s.array.length nd.lhs
    | node_type.RHS_NODE_TYPE => leaves s.array s.array.length nd.rhs
    | node_type.PARENT_NODE_TYPE =>
      leaves s.array s.array.length nd.lhs ++ leaves s.array s.array.length nd.rhs

/-- Modelled from the spec: the fetch phase of `tree_parsing::read_write`, which is not
among the sources: "for each leaf operand not already in the register cache, emit a load
instruction into a named register and mark it cached".  An operand is known to the cache
by the name the mapping gives it. -/
def fetch (suffix : String) (index : index_tuple) (m : mapping_type) :
    List Nat → List String → List code_line × List String
  | [], cache => ([], cache)
  | h :: rest, cache =>
    match m.lookup h with
    | none => fetch suffix index m rest cache
    | some o =>
      if o.name ∈ cache then fetch suffix index m rest cache
      else (code_line.load o.name suffix index ::
              (fetch suffix index m rest (o.name :: cache)).1,
            (fetch suffix index m rest (o.name :: cache)).2)

/-- Modelled from the spec: the write-back phase of `tree_parsing::read_write`: "emit a
store from its register/tmp back to the underlying memory location". -/
def write_back (suffix : String) (index : index_tuple) (m : mapping_type) :
    List Nat → List code_line
  | [] => []
  | h :: rest =>
    match m.lookup h with
    | none => write_back suffix index m rest
    | some o => code_line.store o.name suffix index :: write_back suffix index m rest

/-- Modelled from the spec: `tree_parsing::read_write`, which is not among the sources, as
section 4.3 of the spec describes its two modes. -/
def spec_read_write (mode : mode_t) (suffix : String) (cache : List String) (s : statement)
    (root : Nat) (index : index_tuple) (m : mapping_type) (leaf : node_type) :
    List code_line × List String :=
  match mode with
  | mode_t.FETCH => fetch suffix index m (visited_leaves s root leaf) cache
  | mode_t.WRITE_BACK => (write_back suffix index m (visited_leaves s root leaf), cache)

/-- Modelled from the spec: the traversals with `read_write` as the spec describes it and
any `evaluate_expression`. -/
def spec_tree_parsing
    (evaluate_expression : statement → Nat → index_tuple → Int → mapping_type → node_type →
      String) : tree_parsing :=
  ⟨spec_read_write, evaluate_expression⟩

/-- Whether a line of generated code is a load of the operand called `name`. -/
def is_load (name : String) : code_line → Bool
  | code_line.load n _ _ => decide (n = name)
  | _ => false

/-- The loads of the operand called `name` among the lines of a stream. -/
def loads_of (name : String) (ls : List (Nat × code_line)) : List (Nat × code_line) :=
  ls.filter (fun l => is_load name l.2)

/-- The tuning parameters `vector_axpy_template::parameters`, all of type `unsigned int`
but the scalar type.  `local_size_0` and `simd_width` are kept by the base class
`template_base::parameters`, which is not among the sources. -/
structure parameters where
  scalartype : String
  simd_width : Nat
  local_size_0 : Nat
  num_groups : Nat
  decomposition : Nat
deriving DecidableEq

/-- The constructor `parameters(scalartype, simd_width, group_size, num_groups,
decomposition)`: the group size is handed to the base class as its local size 0. -/
def parameters.make (scalartype : String)
    (simd_width group_size num_groups decomposition : Nat) : parameters :=
  ⟨scalartype, simd_width, group_size, num_groups, decomposition⟩

/-- Modelled from the spec: of `viennacl::ocl::kernel`, which is not among the sources, the
global work size of every dimension and the calls `arg(position, value)` in their order. -/
structure kernel where
  global_work_size : Nat → Nat
  args : List (Nat × Nat)

/-- The call `k.global_work_size(dim, value)`. -/
def kernel.set_global_work_size (k : kernel) (dim value : Nat) : kernel :=
  ⟨fun d => if d = dim then value else k.global_work_size d, k.args⟩

/-- The call `k.arg(position, value)`. -/
def kernel.arg (k : kernel) (position value : Nat) : kernel :=
  ⟨k.global_work_size, k.args ++ [(position, value)]⟩

/-- Modelled from the spec: `utils::call_on_vector`, which is not among the sources,
applies a function to the vector an element refers to; on another element it fails. -/
def call_on_vector (e : lhs_rhs_element) (f : vector_base → Nat) : Option Nat :=
  match e with
  | lhs_rhs_element.vector v => some (f v)
  | _ => none

/-- The members of `vector_axpy_template` that `configure_impl` reads: the tuning
parameters `parameters_` and the flag `up_to_internal_size_`. -/
structure vector_axpy_template where
  parameters_ : parameters
  up_to_internal_size_ : Bool
deriving DecidableEq

/-- The function `vector_axpy_template::enqueue` up to its call of `template_base::enqueue`,
which is not among the sources and from which `configure_impl` is called:
`up_to_internal_size_ = up_to_internal_size;`. -/
def vector_axpy_template.enqueue (t : vector_axpy_template) (up_to_internal_size : Bool) :
    vector_axpy_template :=
  ⟨t.parameters_, up_to_internal_size⟩

/-- The function `vector_axpy_template::configure_impl`.  The product of the two
`unsigned int` parameters wraps modulo `2^32`; `cl_uint size` keeps the size modulo `2^32`;
the argument counter `n_arg` counts the arguments of one kernel and stays far below `2^32`.
The result is the kernel and the value of `n_arg` left behind, or `none` where the source
has no defined behaviour: `front()` of an empty container, a root outside the array, a
left-hand side that is not a vector, a division by zero. -/
def configure_impl (t : vector_axpy_template) (statements : statements_container)
    (k : kernel) (n_arg : Nat) : Option (kernel × Nat) :=
  match statements.data.head? with
  | none => none
  | some front =>
    match front.array[front.root]? with
    | none => none
    | some root =>
      match (if t.up_to_internal_size_ then
               call_on_vector root.lhs vector_base.internal_size
             else call_on_vector root.lhs vector_base.size) with
      | none => none
      | some size =>
        if t.parameters_.simd_width = 0 then none
        else
          some ((((k.set_global_work_size 0
                    ((t.parameters_.local_size_0 * t.parameters_.num_groups) %
                      uint_range)).set_global_work_size
                    1 1).arg n_arg ((size % uint_range) / t.parameters_.simd_width)),
                n_arg + 1)

/-- The statement `y = a*x + y` of the scenario of the spec: the vector `y` has handle 0,
the scalar `a` handle 1 and the vector `x` handle 2; all vectors have 1000 elements and a
padded size of 1024. -/
def axpy_statement : statement :=
  ⟨[⟨lhs_rhs_element.vector ⟨0, 1000, 1024⟩, "=", lhs_rhs_element.composite 1⟩,
    ⟨lhs_rhs_element.composite 2, "+", lhs_rhs_element.vector ⟨0, 1000, 1024⟩⟩,
    ⟨lhs_rhs_element.scalar 1, "*", lhs_rhs_element.vector ⟨2, 1000, 1024⟩⟩], 0⟩

/-- A mapping table for `axpy_statement`. -/
def axpy_mapping : mapping_type :=
  [(0, ⟨"obj0", "__global float* obj0"⟩), (1, ⟨"obj1", "float obj1"⟩),
   (2, ⟨"obj2", "__global float* obj2"⟩)]

end device_specific

/-! ## `program_infos` (generator/get_kernels_infos.hpp) -/

namespace generator

/-- A leaf type of an operation tree that is a kernel argument (a symbolic vector, matrix
or scalar).  The symbolic types are not among the sources; what the source reads of them
is the declaration text `kernel_arguments()` and the number `n_args()` of argument
positions, a small constant of the type. -/
structure symbolic_type where
  name : String
  kernel_arguments : String
  n_args : Nat
deriving DecidableEq

/-- The runtime value a binding points to: the `runtime_descriptor()` of an expression
type or a `result_of::shared_memory_wrapper`. -/
inductive runtime_wrapper
  | runtime_descriptor (t : symbolic_type)
  | shared_memory_wrapper
deriving DecidableEq

/-- The multimap `runtime_wrappers_t` from the kernel name to the pair of the argument
position and the runtime value, as the list of its entries in the order of their insertion;
every entry carries its argument position. -/
abbrev runtime_wrappers_t := List (String × (Nat × runtime_wrapper))

/-- The metaprogramming utilities `program_infos` uses and that are not among the sources,
for the type `Operations` of the operation lists of kernels: `tree_utils::extract_if` with
`is_kernel_argument`, `tree_utils::count_if` with `is_inner_product_leaf`,
`result_of::expression_type`, `typelist_utils::index_of`, `to_string` and `body_code`. -/
structure meta_tools (Operations : Type) where
  extract_if_is_kernel_argument : Operations → List symbolic_type
  count_if_is_inner_product_leaf : Operations → Nat
  expression_type : symbolic_type → symbolic_type
  index_of : List Operations → Operations → Int
  to_string : Int → String
  body_code : Operations → String

/-- Modelled from the spec: `typelist_utils::no_duplicates`, which is not among the
sources, as the algorithm of section 4.2: "for each leaf operand, look up by identity; on
miss, assign the next unused name slot and record the declaration text; on hit, reuse the
existing name".  `table` holds the operands recorded so far. -/
def no_duplicates_from (table : List symbolic_type) : List symbolic_type → List symbolic_type
  | [] => table
  | a :: rest =>
    if a ∈ table then no_duplicates_from table rest
    else no_duplicates_from (table ++ [a]) rest

/-- Modelled from the spec: `typelist_utils::no_duplicates`, started on an empty table. -/
def no_duplicates (l : List symbolic_type) : List symbolic_type :=
  no_duplicates_from [] l

/-- The type `Arguments` of `fill_args` and of `fill_sources`:
`no_duplicates<extract_if<Operations,is_kernel_argument>>`. -/
def Arguments {Operations : Type} (mt : meta_tools Operations) (ops : Operations) :
    List symbolic_type :=
  no_duplicates (mt.extract_if_is_kernel_argument ops)

/-- The argument position of the `k`-th argument as the claim words it: positions start at
0 and each argument occupies `n_args` consecutive positions. -/
def arg_offset {Operations : Type} (mt : meta_tools Operations) (args : List symbolic_type)
    (k : Nat) : Nat :=
  ((args.take k).map (fun U => (mt.expression_type U).n_args)).sum

/-- The function `fill_args::functor<U>::execute`: inserts the binding of `U` at `arg_pos`
under `name` and advances `arg_pos` by `n_args()`.  An argument position is a natural
number: a kernel has a handful of arguments and never comes near `2^32`. -/
def fill_args_functor {Operations : Type} (mt : meta_tools Operations) (U : symbolic_type)
    (arg_pos : Nat) (runtime_wrappers : runtime_wrappers_t) (name : String) :
    Nat × runtime_wrappers_t :=
  (arg_pos + (mt.expression_type U).n_args,
   runtime_wrappers ++
     [(name, (arg_pos, runtime_wrapper.runtime_descriptor (mt.expression_type U)))])

/-- The loop `typelist_utils::ForEach<Arguments,functor>::execute` of `fill_args`. -/
def fill_args_for_each {Operations : Type} (mt : meta_tools Operations) :
    List symbolic_type → Nat → runtime_wrappers_t → String → Nat × runtime_wrappers_t
  | [], arg_pos, runtime_wrappers, _ => (arg_pos, runtime_wrappers)
  | U :: rest, arg_pos, runtime_wrappers, name =>
    fill_args_for_each mt rest (fill_args_functor mt U arg_pos runtime_wrappers name).1
      (fill_args_functor mt U arg_pos runtime_wrappers name).2 name

/-- The function `fill_args<Operations>::execute`. -/
def fill_args_execute {Operations : Type} (mt : meta_tools Operations)
    (KernelsList : List Operations) (ops : Operations)
    (runtime_wrappers : runtime_wrappers_t) (operation_name : String) : runtime_wrappers_t :=
  if mt.count_if_is_inner_product_leaf ops ≠ 0 then
    (fill_args_for_each mt (Arguments mt ops) 0 runtime_wrappers
      ("__" ++ operation_name ++ "_k" ++ mt.to_string (mt.index_of KernelsList ops))).2 ++
    [("__" ++ operation_name ++ "_k" ++ mt.to_string (mt.index_of KernelsList ops),
      ((fill_args_for_each mt (Arguments mt ops) 0 runtime_wrappers
        ("__" ++ operation_name ++ "_k" ++ mt.to_string (mt.index_of KernelsList ops))).1,
       runtime_wrapper.shared_memory_wrapper))]
  else
    (fill_args_for_each mt (Arguments mt ops) 0 runtime_wrappers
      ("__" ++ operation_name ++ "_k" ++ mt.to_string (mt.index_of KernelsList ops))).2

/-- The function `header_code::functor<T>::execute`. -/
def header_functor (T : symbolic_type) (res : String) (is_first : Bool) : String × Bool :=
  if is_first then (res ++ T.kernel_arguments, false)
  else (res ++ (", " ++ T.kernel_arguments), is_first)

/-- The loop `typelist_utils::ForEach<Arguments,functor>::execute` of `header_code`. -/
def header_for_each : List symbolic_type → String → Bool → String × Bool
  | [], res, state => (res, state)
  | T :: rest, res, state =>
    header_for_each rest (header_functor T res state).1 (header_functor T res state).2

/-- The function `fill_sources<Operations>::header_code<TList>::value(name)`. -/
def header_code_value {Operations : Type} (mt : meta_tools Operations)
    (ops TList : Operations) (name : String) : String :=
  if mt.count_if_is_inner_product_leaf TList ≠ 0 then
    (header_for_each (Arguments mt ops) ("" ++ ("__kernel void " ++ name ++ "(\n")) true).1 ++
      ",__local float* shared_memory_ptr\n" ++ ")\n"
  else
    (header_for_each (Arguments mt ops) ("" ++ ("__kernel void " ++ name ++ "(\n")) true).1 ++
      ")\n"

/-- The call `sources.insert(std::make_pair(key, value))` on the `std::map` of sources: an
entry whose key is present is left as it is. -/
def map_insert (sources : List (String × String)) (key value : String) :
    List (String × String) :=
  match sources.lookup key with
  | some _ => sources
  | none => sources ++ [(key, value)]

/-- The function `fill_sources<Operations>::execute`. -/
def fill_sources_execute {Operations : Type} (mt : meta_tools Operations)
    (KernelsList : List Operations) (ops : Operations)
    (sources : List (String × String)) (operation_name : String) : List (String × String) :=
  map_insert sources
    ("__" ++ operation_name ++ "_k" ++ mt.to_string (mt.index_of KernelsList ops))
    (header_code_value mt ops ops
        ("__" ++ operation_name ++ "_k" ++ mt.to_string (mt.index_of KernelsList ops)) ++
      mt.body_code ops)

/-- The function `program_infos::fill`: `fill_sources` for every kernel of the list, then
`fill_args` for every kernel of the list. -/
def fill {Operations : Type} (mt : meta_tools Operations) (KernelsList : List Operations)
    (operation_name : String) (sources : List (String × String))
    (runtime_wrappers : runtime_wrappers_t) :
    List (String × String) × runtime_wrappers_t :=
  (KernelsList.foldl
      (fun s ops => fill_sources_execute mt KernelsList ops s operation_name) sources,
   KernelsList.foldl
      (fun r ops => fill_args_execute mt KernelsList ops r operation_name) runtime_wrappers)

/-- An operation list for examples: the list of its kernel-argument leaves, in the order of
the traversal, and the number of its inner-product leaves. -/
structure example_operations where
  leaves : List symbolic_type
  inner_products : Nat
deriving DecidableEq

/-- The utilities for `example_operations`: `index_of` is the position of the first
occurrence, `to_string` the decimal notation. -/
def example_tools : meta_tools example_operations :=
  ⟨fun ops => ops.leaves, fun ops => ops.inner_products, fun U => U,
   fun l ops => (l.indexOf ops : Nat), fun i => toString i, fun _ => "\x7b\x7d"⟩

/-- The symbolic vector `x` of the examples: a pointer and a size, two argument positions. -/
def example_x : symbolic_type := ⟨"x", "__global float* x, unsigned int x_size", 2⟩

/-- The symbolic vector `y` of the examples. -/
def example_y : symbolic_type := ⟨"y", "__global float* y, unsigned int y_size", 2⟩

/-- The symbolic scalar `a` of the examples: one argument position. -/
def example_a : symbolic_type := ⟨"a", "float a", 1⟩

end generator

end viennacl

/-! ## Further definitions of `vector_axpy_template` -/

namespace viennacl.device_specific

/-- The function `vector_axpy_template::add_kernel_arguments`.  The function
`generate_value_kernel_argument` is not among the sources and is a parameter: it is given
the type and the name of a value parameter and returns its declaration. -/
def add_kernel_arguments (generate_value_kernel_argument : String → String → String)
    (_statements : statements_container) (arguments_string : String) : String :=
  arguments_string ++ generate_value_kernel_argument "unsigned int" "N"

end viennacl.device_specific
/-! ## `make_code.hpp`: the addresses of the matrix-matrix kernel

The kernel text returned by `make_code<MatMatToken<T,OP,Assigned> >::value()` computes
addresses from the kernel arguments of the three matrices.  This section holds the
arithmetic expressions of that text, read as functions of the values of the identifiers
they name.  The identifiers declared `size_t` in the text and the metadata arguments of the
matrices (whose declarations are written by code that is not among the sources) are natural
numbers in these expressions; the variable `c`, which the text declares `int`, has 32 bits,
and the loop over the reduction dimension (`gemm_reduction_loop`) holds its variables
within the range of `size_t`. -/

namespace viennacl.generator

/-- The values of the eight metadata kernel arguments of a matrix operand, which the
emitted text names `row_start_name()`, `col_start_name()`, `row_inc_name()`,
`col_inc_name()`, `size1_name()`, `size2_name()`, `internal_size1_name()` and
`internal_size2_name()`. -/
structure matrix_view where
  row_start : Nat
  col_start : Nat
  row_inc : Nat
  col_inc : Nat
  size1 : Nat
  size2 : Nat
  internal_size1 : Nat
  internal_size2 : Nat
deriving DecidableEq

/-- The constant `block_size` of `make_code<MatMatToken>::value`. -/
def block_size : Nat := 16

/-- The constant `vector_size` of `make_code<MatMatToken>::value`. -/
def vector_size : Nat := 4

/-- The initialiser of `aBegin` (lines 462-485), for the four cases of the left operand. -/
def aBegin (is_row_major is_transposed : Bool) (LHS : matrix_view) (row_block_id : Nat) : Nat :=
  if is_row_major && is_transposed then
    (row_block_id * block_size * LHS.col_inc + LHS.col_start)
      + LHS.row_start * LHS.internal_size2
  else if is_row_major && !is_transposed then
    (row_block_id * block_size * LHS.row_inc + LHS.row_start) * LHS.internal_size2
      + LHS.col_start
  else if !is_row_major && is_transposed then
    (row_block_id * block_size * LHS.col_inc + LHS.col_start) * LHS.internal_size1
      + LHS.row_start
  else if !is_row_major && !is_transposed then
    (row_block_id * block_size * LHS.row_inc + LHS.row_start)
      + LHS.col_start * LHS.internal_size1
  else 0

/-- The initialiser of `aStep` (lines 462-485). -/
def aStep (is_row_major is_transposed : Bool) (LHS : matrix_view) : Nat :=
  if is_row_major && is_transposed then block_size * LHS.internal_size2 * LHS.row_inc
  else if is_row_major && !is_transposed then block_size * LHS.col_inc
  else if !is_row_major && is_transposed then block_size * LHS.row_inc
  else if !is_row_major && !is_transposed then block_size * LHS.internal_size1 * LHS.col_inc
  else 0

/-- The initialiser of `bBegin` (lines 488-507), for the four cases of the right operand. -/
def bBegin (is_row_major is_transposed : Bool) (RHS : matrix_view) (col_block_id : Nat) : Nat :=
  if is_row_major && is_transposed then
    (col_block_id * (block_size * vector_size) * RHS.row_inc + RHS.row_start)
      * RHS.internal_size2 + RHS.col_start
  else if is_row_major && !is_transposed then
    (col_block_id * (block_size * vector_size) * RHS.col_inc + RHS.col_start)
      + RHS.row_start * RHS.internal_size2
  else if !is_row_major && is_transposed then
    (col_block_id * (block_size * vector_size) * RHS.row_inc + RHS.row_start)
      + RHS.col_start * RHS.internal_size1
  else if !is_row_major && !is_transposed then
    (col_block_id * (block_size * vector_size) * RHS.col_inc + RHS.col_start)
      * RHS.internal_size1 + RHS.row_start
  else 0

/-- The initialiser of `bStep` (lines 488-507). -/
def bStep (is_row_major is_transposed : Bool) (RHS : matrix_view) : Nat :=
  if is_row_major && is_transposed then block_size * RHS.col_inc
  else if is_row_major && !is_transposed then block_size * RHS.row_inc * RHS.internal_size2
  else if !is_row_major && is_transposed then block_size * RHS.col_inc * RHS.internal_size1
  else if !is_row_major && !is_transposed then block_size * RHS.row_inc
  else 0

/-- The values of `a` and `b` in iteration `s` of the loop
`for(size_t a = aBegin, b = bBegin; a < aEnd; a += aStep, b += bStep)` (line 509), as long as
the loop runs: each iteration adds `aStep` to `a` and `bStep` to `b`. -/
def loop_counters (aBegin aStep bBegin bStep : Nat) : Nat → Nat × Nat
  | 0 => (aBegin, bBegin)
  | s + 1 =>
    ((loop_counters aBegin aStep bBegin bStep s).1 + aStep,
     (loop_counters aBegin aStep bBegin bStep s).2 + bStep)

/-- The index of the cell of `As` written by the staging statement (lines 513-520):
`(i*4 + row_thread_id) + 16 * col_thread_id`. -/
def As_index (i row_thread_id col_thread_id : Nat) : Nat :=
  (i * vector_size + row_thread_id) + block_size * col_thread_id

/-- The accessor of the left operand in the staging statement (lines 513-520): the address
the value stored into `As` is read from, `a` being the value of the loop variable. -/
def staging_address (is_row_major is_transposed : Bool) (LHS : matrix_view)
    (a i row_thread_id col_thread_id : Nat) : Nat :=
  if is_row_major && is_transposed then
    a + LHS.col_inc * (i * vector_size + row_thread_id)
      + LHS.internal_size2 * LHS.row_inc * col_thread_id
  else if is_row_major && !is_transposed then
    a + LHS.internal_size2 * LHS.row_inc * (i * vector_size + row_thread_id)
      + LHS.col_inc * col_thread_id
  else if !is_row_major && is_transposed then
    a + LHS.internal_size1 * LHS.col_inc * (i * vector_size + row_thread_id)
      + LHS.row_inc * col_thread_id
  else if !is_row_major && !is_transposed then
    a + LHS.row_inc * (i * vector_size + row_thread_id)
      + LHS.internal_size1 * LHS.col_inc * col_thread_id
  else 0

/-- The offset of the pointer `bp` from the start of the right operand (lines 527-534):
`bp = <RHS> + (b + (16 * row_thread_id + col_thread_id) * ...)`. -/
def bp_offset (is_row_major is_transposed : Bool) (RHS : matrix_view)
    (b row_thread_id col_thread_id : Nat) : Nat :=
  if is_row_major && is_transposed then
    b + (block_size * row_thread_id + col_thread_id) * RHS.row_inc * RHS.internal_size2
  else if is_row_major && !is_transposed then
    b + (block_size * row_thread_id + col_thread_id) * RHS.col_inc
  else if !is_row_major && is_transposed then
    b + (block_size * row_thread_id + col_thread_id) * RHS.row_inc
  else if !is_row_major && !is_transposed then
    b + (block_size * row_thread_id + col_thread_id) * RHS.col_inc * RHS.internal_size1
  else 0

/-- The accessor handed to `make_expression_code<RHS>` for `rhs_expr` (lines 539-546), the
index at which `bp` is read: `i`, `i * internal_size2`, `i * internal_size1`, `i`. -/
def rhs_index (is_row_major is_transposed : Bool) (RHS : matrix_view) (i : Nat) : Nat :=
  if is_row_major && is_transposed then i
  else if is_row_major && !is_transposed then i * RHS.internal_size2
  else if !is_row_major && is_transposed then i * RHS.internal_size1
  else if !is_row_major && !is_transposed then i
  else 0

/-- The address, from the start of the right operand, of the element read into `bv`
(line 554, `float bv = <rhs_expr>`, where `rhs_expr` is `bp[<accessor>]` for a right operand
that is a symbolic matrix) by thread `(row_thread_id, col_thread_id)` of column block
`col_block_id` in iteration `s` of the outer loop and iteration `i` of the inner loop. -/
def bv_address (is_row_major is_transposed : Bool) (RHS : matrix_view)
    (col_block_id row_thread_id col_thread_id s i : Nat) : Nat :=
  bp_offset is_row_major is_transposed RHS
      (loop_counters 0 0 (bBegin is_row_major is_transposed RHS col_block_id)
        (bStep is_row_major is_transposed RHS) s).2 row_thread_id col_thread_id
    + rhs_index is_row_major is_transposed RHS i

/-- The address, from the start of the left operand, of the element stored into
`As[As_index i row_thread_id col_thread_id]` by thread `(row_thread_id, col_thread_id)` of
row block `row_block_id` in iteration `s` of the outer loop. -/
def staged_address (is_row_major is_transposed : Bool) (LHS : matrix_view)
    (row_block_id row_thread_id col_thread_id s i : Nat) : Nat :=
  staging_address is_row_major is_transposed LHS
    (loop_counters (aBegin is_row_major is_transposed LHS row_block_id)
      (aStep is_row_major is_transposed LHS) 0 0 s).1 i row_thread_id col_thread_id

/-- Conversion to the 32-bit type `int` of OpenCL C (two's complement). -/
def to_int32 (z : Int) : Int := (z + 2147483648) % 4294967296 - 2147483648

/-- The initialiser of `int c` (lines 566-577), for the two layouts of the assigned
matrix, converted to `int`. -/
def c_begin (is_row_major : Bool) (Assigned : matrix_view)
    (row_block_id col_block_id row_thread_id col_thread_id : Nat) : Int :=
  if is_row_major then
    to_int32 ((Assigned.internal_size2
        * (Assigned.row_inc * block_size * row_block_id + Assigned.row_start)
      + (vector_size * block_size) * Assigned.col_inc * col_block_id + Assigned.col_start
      + Assigned.col_inc * (block_size * row_thread_id + col_thread_id) : Nat) : Int)
  else
    to_int32 ((Assigned.row_inc * block_size * row_block_id + Assigned.row_start
      + ((vector_size * block_size) * Assigned.col_inc * col_block_id + Assigned.col_start)
        * Assigned.internal_size1
      + Assigned.internal_size1 * Assigned.col_inc
        * (block_size * row_thread_id + col_thread_id) : Nat) : Int)

/-- The statement `c += ...` of the store loop (lines 582-603): `c` is an `int`. -/
def c_next (is_row_major : Bool) (Assigned : matrix_view) (c : Int) : Int :=
  if is_row_major then to_int32 (c + ((Assigned.internal_size2 * Assigned.row_inc : Nat) : Int))
  else to_int32 (c + ((Assigned.row_inc : Nat) : Int))

/-- The value of `c` at the store `<Assigned>[c] <OP> cv[i]` of iteration `i` of the store
loop `for(size_t i = 0; i < 16; i++)` (lines 579-605). -/
def store_address (is_row_major : Bool) (Assigned : matrix_view)
    (row_block_id col_block_id row_thread_id col_thread_id : Nat) : Nat → Int
  | 0 => c_begin is_row_major Assigned row_block_id col_block_id row_thread_id col_thread_id
  | i + 1 =>
    c_next is_row_major Assigned
      (store_address is_row_major Assigned row_block_id col_block_id row_thread_id
        col_thread_id i)

/-- The linear address of the element in row `r` and column `c` of a strided matrix view,
in the words of the specification: `internal_size2*(row_start + row_inc*r) + col_start +
col_inc*c` for a row-major matrix and `(row_start + row_inc*r) + internal_size1*(col_start
+ col_inc*c)` for a column-major one. -/
def spec_element_address (is_row_major : Bool) (M : matrix_view) (r c : Nat) : Nat :=
  if is_row_major then M.internal_size2 * (M.row_start + M.row_inc * r) + M.col_start + M.col_inc * c
  else (M.row_start + M.row_inc * r) + M.internal_size1 * (M.col_start + M.col_inc * c)

/-- The linear address of the element in row `r` and column `c` of `op(M)`, in the words
of the specification: `r` and `c` are exchanged when the operand is transposed. -/
def spec_op_element_address (is_row_major is_transposed : Bool) (M : matrix_view)
    (r c : Nat) : Nat :=
  if is_transposed then spec_element_address is_row_major M c r
  else spec_element_address is_row_major M r c

/-- The output cell, in the words of the specification, that the store of iteration `i` by
thread `(row_thread_id, col_thread_id)` of block `(row_block_id, col_block_id)` writes:
row `16*row_block_id + i`, column `64*col_block_id + 16*row_thread_id + col_thread_id`. -/
def spec_write_back_cell (row_block_id col_block_id row_thread_id col_thread_id i : Nat) :
    Nat × Nat :=
  (block_size * row_block_id + i,
   block_size * vector_size * col_block_id + block_size * row_thread_id + col_thread_id)

/-- A matrix view for the examples: every second row and every third column of a matrix
with the internal sizes 16 and 4, from row 0 and column 0 on. -/
def example_view : matrix_view := ⟨0, 0, 2, 3, 8, 2, 16, 4⟩

/-- A matrix view for the examples: a dense row-major matrix with 65536 rows of length
65536, viewed from row 32768 on. -/
def example_large_view : matrix_view := ⟨32768, 0, 1, 1, 32768, 65536, 65536, 65536⟩

end viennacl.generator
/-! ## `make_code.hpp`: the text emitters

The emitters of `make_code.hpp` are class templates over the types of an expression tree;
a type is a value here, a static member function is a function of that value.  The symbolic
types (`symbolic_vector`, `symbolic_matrix`, `compound_node`, ...), `to_string`,
`typelist_utils::ForEach` and `VIENNACL_STATIC_ASSERT` are not among the sources: the
members of the symbolic types that `make_code.hpp` reads are fields, `to_string` is a
parameter, `ForEach` runs its functor over a list from left to right. -/

namespace viennacl.generator

/-- A symbolic vector or matrix type, for which `make_expression_code` is the primary
template: the static members that `make_code.hpp` reads. -/
structure symbolic_operand where
  name : String
  gid_val_name : String
  ScalarType : String
  Alignment : Nat
  is_row_major : Bool
  is_transposed : Bool
  row_start_name : String
  col_start_name : String
  row_inc_name : String
  col_inc_name : String
  size1_name : String
  size2_name : String
  internal_size1_name : String
  internal_size2_name : String
deriving DecidableEq

/-- The operator type `OP` of a `compound_node<LHS,OP,RHS>`: `inner_prod_type`,
`prod_type`, or another operator with its `expression_string()`. -/
inductive operator_type
  | inner_prod_type
  | prod_type
  | other (expression_string : String)
deriving DecidableEq

/-- The static members `name()`, `local_value()` and `ScalarType` of a `compound_node`. -/
structure compound_names where
  name : String
  local_value : String
  ScalarType : String
deriving DecidableEq

/-- The types `make_expression_code` is instantiated with. -/
inductive expression
  | NullType
  | symbolic (T : symbolic_operand)
  | cpu_symbolic_scalar (name : String)
  | gpu_symbolic_scalar (val_name : String)
  | inner_prod_impl_t (T : expression)
  | elementwise_modifier_impl (T : expression) (modify : String → String)
  | compound_node (LHS : expression) (OP : operator_type) (RHS : expression)
      (names : compound_names)

/-- The function `make_expression_code<T>::value(loop_accessor)`: the primary template and
its specialisations (lines 65-152). -/
def make_expression_code : expression → String → String
  | .NullType, _ => ""
  | .symbolic T, loop_accessor =>
    if loop_accessor = "gid" then T.gid_val_name
    else T.name ++ "[" ++ loop_accessor ++ "]"
  | .cpu_symbolic_scalar name, _ => name
  | .gpu_symbolic_scalar val_name, _ => val_name
  | .inner_prod_impl_t _, _ => ""
  | .elementwise_modifier_impl T modify, loop_accessor =>
    modify (make_expression_code T loop_accessor)
  | .compound_node _ .inner_prod_type _ names, _ => names.local_value
  | .compound_node _ .prod_type _ names, _ => "dp" ++ names.name
  | .compound_node LHS (.other expression_string) RHS _, loop_accessor =>
    " ( " ++ make_expression_code LHS loop_accessor ++ expression_string
      ++ make_expression_code RHS loop_accessor ++ " ) "

/-- The function `dot_product_impl<LHS,RHS,Alignment>::value` (lines 154-193): the
specialisations for the alignments 8 and 16 and the general template. -/
def dot_product_impl (Alignment : Nat) (LHS RHS : expression)
    (lhs_loop_id rhs_loop_id : String) : String :=
  if Alignment = 8 then
    "dot(" ++ make_expression_code LHS lhs_loop_id ++ ".s0123" ++ ","
      ++ make_expression_code RHS rhs_loop_id ++ ".s0123 )"
      ++ " + dot(" ++ make_expression_code LHS lhs_loop_id ++ ".s4567" ++ ","
      ++ make_expression_code RHS rhs_loop_id ++ ".s4567 );"
  else if Alignment = 16 then
    "dot(" ++ make_expression_code LHS lhs_loop_id ++ ".s0123" ++ ","
      ++ make_expression_code RHS rhs_loop_id ++ ".s0123)"
      ++ "\n\t+ dot(" ++ make_expression_code LHS lhs_loop_id ++ ".s4567" ++ ","
      ++ make_expression_code RHS rhs_loop_id ++ ".s4567) "
      ++ "\n\t+ dot(" ++ make_expression_code LHS lhs_loop_id ++ ".s89ab" ++ ","
      ++ make_expression_code RHS rhs_loop_id ++ ".s89ab) "
      ++ "\n\t+ dot(" ++ make_expression_code LHS lhs_loop_id ++ ".scdef" ++ ","
      ++ make_expression_code RHS rhs_loop_id ++ ".scdef)"
  else
    "dot(" ++ make_expression_code LHS lhs_loop_id ++ ","
      ++ make_expression_code RHS rhs_loop_id ++ ")"

/-- The function `dot_product<LHS,RHS>::value` (lines 195-202); `LHS_Alignment` is the
static member `LHS::Alignment`. -/
def dot_product (LHS RHS : expression) (LHS_Alignment : Nat)
    (lhs_loop_id rhs_loop_id : String) : String :=
  dot_product_impl LHS_Alignment LHS RHS lhs_loop_id rhs_loop_id

/-- An inner product `compound_node<LHS,inner_prod_type,RHS>` with the static members that
the inner-product tokens read; `LHS_Alignment` is `LHS::Alignment`. -/
structure inner_prod_node where
  LHS : expression
  RHS : expression
  LHS_Alignment : Nat
  name : String
  local_value : String
  ScalarType : String

/-- The inner product as a type `make_expression_code` is instantiated with. -/
def inner_prod_node.node (T : inner_prod_node) : expression :=
  .compound_node T.LHS .inner_prod_type T.RHS ⟨T.name, T.local_value, T.ScalarType⟩

/-- The function `inner_prod_impl_t<T>::name`. -/
def inner_prod_impl_t.name (T : inner_prod_node) : String := T.name

/-- The function `inner_prod_impl_t<T>::private_value`. -/
def inner_prod_impl_t.private_value (T : inner_prod_node) : String :=
  "private_" ++ inner_prod_impl_t.name T

/-- The function `make_code<ArithmeticToken<EXPR> >::value`. -/
def make_code.ArithmeticToken.value (EXPR : expression) : String :=
  "" ++ "\n//Arithmetic Token\n" ++ (make_expression_code EXPR "gid" ++ ";\n")

/-- The function `make_code<InProdToken<T,1> >::generate_code_sum<U>::execute`, for
`U = inner_prod_impl_t<ARG>`. -/
def make_code.InProdToken_1.generate_code_sum (ARG : inner_prod_node)
    (generated_code : String) : String :=
  generated_code ++ (inner_prod_impl_t.private_value ARG ++ " += "
    ++ dot_product ARG.LHS ARG.RHS ARG.LHS_Alignment "gid" "gid" ++ ";\n")

/-- The function `make_code<InProdToken<T,1> >::generate_code_reduction<U>::execute`, for
`U = inner_prod_impl_t<ARG>` (lines 260-271). -/
def make_code.InProdToken_1.generate_code_reduction (ARG : inner_prod_node)
    (generated_code : String) : String :=
  generated_code ++ ("shared_memory_ptr[get_local_id(0)] = "
    ++ inner_prod_impl_t.private_value ARG
    ++ ";\nfor (unsigned int stride = get_local_size(0)/2; stride > 0; stride /= 2)\n\x7b\n  barrier(CLK_LOCAL_MEM_FENCE);\n  if (get_local_id(0) < stride)\n  shared_memory_ptr[get_local_id(0)] += shared_memory_ptr[get_local_id(0)+stride];\n\x7d\n"
    ++ ARG.name ++ "[get_group_id(0)] = shared_memory_ptr[0];")

/-- The function `make_code<InProdToken<T,1> >::sum`. -/
def make_code.InProdToken_1.sum (T : List inner_prod_node) : String :=
  T.foldl (fun res U => make_code.InProdToken_1.generate_code_sum U res) ""

/-- The function `make_code<InProdToken<T,1> >::reduction`. -/
def make_code.InProdToken_1.reduction (T : List inner_prod_node) : String :=
  T.foldl (fun res U => make_code.InProdToken_1.generate_code_reduction U res) ""

/-- The function `make_code<InProdToken<T,0> >::generate_code<U>::execute` (lines
299-319). -/
def make_code.InProdToken_0.generate_code (U : inner_prod_node) (generated_code : String) :
    String :=
  generated_code ++ ("\x7b\n   float sum = 0;\n   for (unsigned int i = get_local_id(0) ; i<get_num_groups(0) ; i+=get_local_size(0))\n   \x7b\n      sum+= "
    ++ U.name
    ++ "[i];\n   \x7d;\n   shared_memory_ptr[get_local_id(0)]=sum;\n   for (unsigned int stride = get_local_size(0)/2; stride > 0; stride /= 2)\n   \x7b\n      barrier(CLK_LOCAL_MEM_FENCE);\n      if (get_local_id(0) < stride)\n      shared_memory_ptr[get_local_id(0)] += shared_memory_ptr[get_local_id(0)+stride];\n   \x7d\n   if(get_local_id(0)==0)\n       "
    ++ U.local_value
    ++ " = shared_memory_ptr[0];\n   barrier(CLK_LOCAL_MEM_FENCE);\n\x7d\n")

/-- The function `make_code<InProdToken<T,0> >::value`. -/
def make_code.InProdToken_0.value (T : List inner_prod_node) : String :=
  T.foldl (fun res U => make_code.InProdToken_0.generate_code U res) ""

/-- The failure of a `VIENNACL_STATIC_ASSERT`, named by the second argument of the
assertion. -/
inductive generation_error
  | AlignmentNotSupported
deriving DecidableEq

/-- Modelled from the spec: `VIENNACL_STATIC_ASSERT(condition, AlignmentNotSupported)`,
whose definition is not among the sources.  By section 6 of the specification an
unsupported alignment "fails fast with a configuration error identifying the unsupported
combination; no partial kernel text is returned": when the condition does not hold the
function that holds the assertion returns the error and no text. -/
def VIENNACL_STATIC_ASSERT (condition : Bool) (text : String) :
    Except generation_error String :=
  if condition then .ok text else .error .AlignmentNotSupported

/-- A matrix-vector product `compound_node<LHS,prod_type,RHS>` with the static members
that `fill_dot_prod` reads: `LHS_Alignment` is `LHS::Alignment`, `Alignment` is
`result_of::expression_type<LHS>::Result::Alignment`, the two expressions are
`MatExpr::internal_size1_expression()` and `MatExpr::internal_size2_expression()`. -/
structure prod_node where
  LHS : expression
  RHS : expression
  LHS_Alignment : Nat
  name : String
  ScalarType : String
  Alignment : Nat
  internal_size1_expression : String
  internal_size2_expression : String

/-- The product as a type `make_expression_code` is instantiated with. -/
def prod_node.node (U : prod_node) : expression :=
  .compound_node U.LHS .prod_type U.RHS ⟨U.name, "", U.ScalarType⟩

/-- The function `fill_dot_prod<U>::evaluate(dot_prod_name, viennacl::row_major)` (lines
348-372). -/
def make_code.MatVecToken.fill_dot_prod.evaluate_row_major (U : prod_node)
    (dot_prod_name : String) : Except generation_error String :=
  VIENNACL_STATIC_ASSERT (U.Alignment == 1 || U.Alignment == 16)
    (if U.Alignment = 1 then
      dot_prod_name ++ " +=  " ++ dot_product U.LHS U.RHS U.LHS_Alignment
        ("gid *" ++ U.internal_size2_expression ++ " + col") "col" ++ ";\n"
    else
      dot_prod_name ++ ".s0 +=  " ++ dot_product U.LHS U.RHS U.LHS_Alignment
        ("scaled_row *" ++ U.internal_size2_expression ++ " + col") "col" ++ ";\n"
      ++ dot_prod_name ++ ".s1 +=  " ++ dot_product U.LHS U.RHS U.LHS_Alignment
        ("(scaled_row+1)*" ++ U.internal_size2_expression ++ " + col") "col" ++ ";\n"
      ++ dot_prod_name ++ ".s2 +=  " ++ dot_product U.LHS U.RHS U.LHS_Alignment
        ("(scaled_row+2)*" ++ U.internal_size2_expression ++ " + col") "col" ++ ";\n"
      ++ dot_prod_name ++ ".s3 +=  " ++ dot_product U.LHS U.RHS U.LHS_Alignment
        ("(scaled_row+3)*" ++ U.internal_size2_expression ++ " + col") "col" ++ ";\n"
      ++ dot_prod_name ++ ".s4 +=  " ++ dot_product U.LHS U.RHS U.LHS_Alignment
        ("(scaled_row+4)*" ++ U.internal_size2_expression ++ " + col") "col" ++ ";\n"
      ++ dot_prod_name ++ ".s5 +=  " ++ dot_product U.LHS U.RHS U.LHS_Alignment
        ("(scaled_row+5)*" ++ U.internal_size2_expression ++ " + col") "col" ++ ";\n"
      ++ dot_prod_name ++ ".s6 +=  " ++ dot_product U.LHS U.RHS U.LHS_Alignment
        ("(scaled_row+6)*" ++ U.internal_size2_expression ++ " + col") "col" ++ ";\n"
      ++ dot_prod_name ++ ".s7 +=  " ++ dot_product U.LHS U.RHS U.LHS_Alignment
        ("(scaled_row+7)*" ++ U.internal_size2_expression ++ " + col") "col" ++ ";\n"
      ++ dot_prod_name ++ ".s8 +=  " ++ dot_product U.LHS U.RHS U.LHS_Alignment
        ("(scaled_row+8)*" ++ U.internal_size2_expression ++ " + col") "col" ++ ";\n"
      ++ dot_prod_name ++ ".s9 +=  " ++ dot_product U.LHS U.RHS U.LHS_Alignment
        ("(scaled_row+9)*" ++ U.internal_size2_expression ++ " + col") "col" ++ ";\n"
      ++ dot_prod_name ++ ".sa +=  " ++ dot_product U.LHS U.RHS U.LHS_Alignment
        ("(scaled_row+10)*" ++ U.internal_size2_expression ++ " + col") "col" ++ ";\n"
      ++ dot_prod_name ++ ".sb +=  " ++ dot_product U.LHS U.RHS U.LHS_Alignment
        ("(scaled_row+11)*" ++ U.internal_size2_expression ++ " + col") "col" ++ ";\n"
      ++ dot_prod_name ++ ".sc +=  " ++ dot_product U.LHS U.RHS U.LHS_Alignment
        ("(scaled_row+12)*" ++ U.internal_size2_expression ++ " + col") "col" ++ ";\n"
      ++ dot_prod_name ++ ".sd +=  " ++ dot_product U.LHS U.RHS U.LHS_Alignment
        ("(scaled_row+13)*" ++ U.internal_size2_expression ++ " + col") "col" ++ ";\n"
      ++ dot_prod_name ++ ".se +=  " ++ dot_product U.LHS U.RHS U.LHS_Alignment
        ("(scaled_row+14)*" ++ U.internal_size2_expression ++ " + col") "col" ++ ";\n"
      ++ dot_prod_name ++ ".sf +=  " ++ dot_product U.LHS U.RHS U.LHS_Alignment
        ("(scaled_row+15)*" ++ U.internal_size2_expression ++ " + col") "col" ++ ";\n")

/-- The function `fill_dot_prod<U>::evaluate(dot_prod_name, viennacl::column_major)`
(lines 374-379). -/
def make_code.MatVecToken.fill_dot_prod.evaluate_column_major (U : prod_node)
    (dot_prod_name : String) : Except generation_error String :=
  VIENNACL_STATIC_ASSERT (U.Alignment == 1)
    (dot_prod_name ++ "+=  " ++ dot_product U.LHS U.RHS U.LHS_Alignment
      ("gid  + col * " ++ U.internal_size1_expression) "col" ++ ";\n")

/-- The function `fill_dot_prod<U>::execute` (lines 381-402): every line of its body is a
comment, `res` is left as it is. -/
def make_code.MatVecToken.fill_dot_prod.execute (_U : prod_node) (res : String) : String :=
  res

/-- A token `MatVecToken<T>`: the list `T` of its products and
`result_of::expression_type<typename T::Head>::Result::Alignment`. -/
structure MatVecToken where
  T : List prod_node
  Alignment : Nat

/-- The function `make_code<MatVecToken<T> >::value` (lines 409-415). -/
def make_code.MatVecToken.value (to_string : Nat → String) (token : MatVecToken) : String :=
  token.T.foldl (fun res U => make_code.MatVecToken.fill_dot_prod.execute U res)
    (if token.Alignment ≠ 1 then
      "" ++ (" unsigned int scaled_row = gid * " ++ to_string token.Alignment ++ ";\n")
    else "")

/-- Whether the second list starts with the first one. -/
def starts_with : List Char → List Char → Bool
  | [], _ => true
  | _ :: _, [] => false
  | a :: as, b :: bs => a == b && starts_with as bs

/-- The calls `str.find(from)` and `str.replace(start_pos, from.length(), to)` of
`replace` on the characters of `str`: the first occurrence of `from`, searched from the
left, is exchanged for `to`; `none` when there is no occurrence. -/
def replace_first (from_ to_ : List Char) : List Char → Option (List Char)
  | [] => if starts_with from_ [] then some to_ else none
  | c :: cs =>
    if starts_with from_ (c :: cs) then some (to_ ++ (c :: cs).drop from_.length)
    else (replace_first from_ to_ cs).map (fun r => c :: r)

/-- The function `make_code<MatMatToken>::replace` (lines 427-433): the returned flag and
the string `str` after the call. -/
def make_code.MatMatToken.replace (str from_ to_ : String) : Bool × String :=
  match replace_first from_.toList to_.toList str.toList with
  | none => (false, str)
  | some r => (true, String.mk r)

/-- A token `MatMatToken<T,OP,Assigned>`: the operands `LHS` and `RHS` of the product leaf
`ARG` of `T`, the rest `SCALAR_EXPR` of `T` (`NullType` when there is none),
`OP::expression_string()`, the assigned matrix and
`result_of::expression_type<LHS>::Result::Alignment`. -/
structure MatMatToken where
  LHS : symbolic_operand
  RHS : symbolic_operand
  SCALAR_EXPR : expression
  OP_expression_string : String
  Assigned : symbolic_operand
  Alignment : Nat

/-- The test `is_null_type<T>::value`. -/
def is_null_type : expression → Bool
  | .NullType => true
  | _ => false

/-- Lines 451-460 of `make_code<MatMatToken>::value`: the text up to the initialiser of
`cv`; the loop appends `"0,"` `block_size - 1` times. -/
def make_code.MatMatToken.declarations (to_string : Nat → String) : String :=
  (List.range (block_size - 1)).foldl (fun res _ => res ++ "0,")
    ("" ++ "\x7b\n"
      ++ "  size_t row_block_id = get_group_id(1);\n"
      ++ "  size_t col_block_id = get_group_id(0);\n"
      ++ "  size_t row_thread_id = get_local_id(1);\n"
      ++ "  size_t col_thread_id = get_local_id(0);\n"
      ++ ("  __local float As[" ++ to_string (block_size * block_size) ++ "];\n")
      ++ ("  float cv[" ++ to_string block_size ++ "] = \x7b"))
    ++ "0\x7d;\n"

/-- Lines 462-485 of `make_code<MatMatToken>::value`: the declarations of `aBegin`, `aStep`
and `aEnd`. -/
def make_code.MatMatToken.a_bounds (to_string : Nat → String) (LHS : symbolic_operand) :
    String :=
  if LHS.is_row_major && LHS.is_transposed then
    ("  size_t aBegin = (row_block_id * " ++ to_string block_size ++ " * " ++ LHS.col_inc_name
        ++ " + " ++ LHS.col_start_name ++ ") + " ++ LHS.row_start_name ++ " * "
        ++ LHS.internal_size2_name ++ ";\n")
      ++ ("  size_t aStep = " ++ to_string block_size ++ " * " ++ LHS.internal_size2_name
        ++ " * " ++ LHS.row_inc_name ++ ";\n")
      ++ ("  size_t aEnd = aBegin + " ++ LHS.internal_size2_name ++ " * " ++ LHS.row_inc_name
        ++ " * " ++ LHS.size1_name ++ ";\n")
  else if LHS.is_row_major && !LHS.is_transposed then
    ("  size_t aBegin = (row_block_id * " ++ to_string block_size ++ " * " ++ LHS.row_inc_name
        ++ " + " ++ LHS.row_start_name ++ ") * " ++ LHS.internal_size2_name ++ " + "
        ++ LHS.col_start_name ++ ";\n")
      ++ ("  size_t aStep = " ++ to_string block_size ++ " * " ++ LHS.col_inc_name ++ ";\n")
      ++ ("  size_t aEnd = aBegin + " ++ LHS.col_inc_name ++ " * " ++ LHS.size2_name ++ ";\n")
  else if !LHS.is_row_major && LHS.is_transposed then
    ("  size_t aBegin = (row_block_id * " ++ to_string block_size ++ " * " ++ LHS.col_inc_name
        ++ " + " ++ LHS.col_start_name ++ ") * " ++ LHS.internal_size1_name ++ " + "
        ++ LHS.row_start_name ++ ";\n")
      ++ ("  size_t aStep = " ++ to_string block_size ++ " * " ++ LHS.row_inc_name ++ ";\n")
      ++ ("  size_t aEnd = aBegin + " ++ LHS.row_inc_name ++ " * " ++ LHS.size1_name ++ ";\n")
  else if !LHS.is_row_major && !LHS.is_transposed then
    ("  size_t aBegin = (row_block_id * " ++ to_string block_size ++ " * " ++ LHS.row_inc_name
        ++ " + " ++ LHS.row_start_name ++ ") + " ++ LHS.col_start_name ++ " * "
        ++ LHS.internal_size1_name ++ ";\n")
      ++ ("  size_t aStep = " ++ to_string block_size ++ " * " ++ LHS.internal_size1_name
        ++ " * " ++ LHS.col_inc_name ++ ";\n")
      ++ ("  size_t aEnd = aBegin + " ++ LHS.internal_size1_name ++ " * " ++ LHS.col_inc_name
        ++ " * " ++ LHS.size2_name ++ ";\n")
  else ""

/-- Lines 488-507 of `make_code<MatMatToken>::value`: the declarations of `bBegin` and
`bStep`. -/
def make_code.MatMatToken.b_bounds (to_string : Nat → String) (RHS : symbolic_operand) :
    String :=
  if RHS.is_row_major && RHS.is_transposed then
    ("  size_t bBegin = (col_block_id * " ++ to_string (block_size * vector_size) ++ " * "
        ++ RHS.row_inc_name ++ " + " ++ RHS.row_start_name ++ ") * "
        ++ RHS.internal_size2_name ++ " + " ++ RHS.col_start_name ++ ";\n")
      ++ ("  size_t bStep = " ++ to_string block_size ++ " * " ++ RHS.col_inc_name ++ ";\n")
  else if RHS.is_row_major && !RHS.is_transposed then
    ("  size_t bBegin = (col_block_id * " ++ to_string (block_size * vector_size) ++ " * "
        ++ RHS.col_inc_name ++ " + " ++ RHS.col_start_name ++ ") + " ++ RHS.row_start_name
        ++ " * " ++ RHS.internal_size2_name ++ ";\n")
      ++ ("  size_t bStep = " ++ to_string block_size ++ " * " ++ RHS.row_inc_name ++ " * "
        ++ RHS.internal_size2_name ++ ";\n")
  else if !RHS.is_row_major && RHS.is_transposed then
    ("  size_t bBegin = (col_block_id * " ++ to_string (block_size * vector_size) ++ " * "
        ++ RHS.row_inc_name ++ " + " ++ RHS.row_start_name ++ ") + " ++ RHS.col_start_name
        ++ " * " ++ RHS.internal_size1_name ++ ";\n")
      ++ ("  size_t bStep = " ++ to_string block_size ++ " * " ++ RHS.col_inc_name ++ " * "
        ++ RHS.internal_size1_name ++ ";\n")
  else if !RHS.is_row_major && !RHS.is_transposed then
    ("  size_t bBegin = (col_block_id * " ++ to_string (block_size * vector_size) ++ " * "
        ++ RHS.col_inc_name ++ " + " ++ RHS.col_start_name ++ ") * "
        ++ RHS.internal_size1_name ++ " + " ++ RHS.row_start_name ++ ";\n")
      ++ ("  size_t bStep = " ++ to_string block_size ++ " * " ++ RHS.row_inc_name ++ ";\n")
  else ""

/-- Lines 513-520 of `make_code<MatMatToken>::value`: the statement that copies an element
of the left operand into `As`, the body of the loop of line 512. -/
def make_code.MatMatToken.staging (to_string : Nat → String) (LHS : symbolic_operand) :
    String :=
  if LHS.is_row_major && LHS.is_transposed then
    "      As[ (i*" ++ to_string vector_size ++ " + row_thread_id) + " ++ to_string block_size
      ++ " * col_thread_id] = ("
      ++ make_expression_code (.symbolic LHS)
          ("a + " ++ LHS.col_inc_name ++ " * (i * " ++ to_string vector_size
            ++ " + row_thread_id) + " ++ LHS.internal_size2_name ++ " * " ++ LHS.row_inc_name
            ++ " * col_thread_id")
      ++ ");\n"
  else if LHS.is_row_major && !LHS.is_transposed then
    "      As[ (i*" ++ to_string vector_size ++ " + row_thread_id) + " ++ to_string block_size
      ++ " * col_thread_id] = ("
      ++ make_expression_code (.symbolic LHS)
          ("a + " ++ LHS.internal_size2_name ++ " * " ++ LHS.row_inc_name ++ " * (i * "
            ++ to_string vector_size ++ " + row_thread_id) + " ++ LHS.col_inc_name
            ++ " * col_thread_id")
      ++ ");\n"
  else if !LHS.is_row_major && LHS.is_transposed then
    "      As[ (i*" ++ to_string vector_size ++ " + row_thread_id) + " ++ to_string block_size
      ++ " * col_thread_id] = ("
      ++ make_expression_code (.symbolic LHS)
          ("a + " ++ LHS.internal_size1_name ++ " * " ++ LHS.col_inc_name ++ " * (i * "
            ++ to_string vector_size ++ " + row_thread_id) + " ++ LHS.row_inc_name
            ++ " * col_thread_id")
      ++ ");\n"
  else if !LHS.is_row_major && !LHS.is_transposed then
    "      As[ (i*" ++ to_string vector_size ++ " + row_thread_id) + " ++ to_string block_size
      ++ " * col_thread_id] = ("
      ++ make_expression_code (.symbolic LHS)
          ("a + " ++ LHS.row_inc_name ++ " * (i * " ++ to_string vector_size
            ++ " + row_thread_id) + " ++ LHS.internal_size1_name ++ " * " ++ LHS.col_inc_name
            ++ " * col_thread_id")
      ++ ");\n"
  else ""

/-- Lines 527-534 of `make_code<MatMatToken>::value`: the declaration of `bp`. -/
def make_code.MatMatToken.bp_declaration (to_string : Nat → String) (RHS : symbolic_operand) :
    String :=
  if RHS.is_row_major && RHS.is_transposed then
    "    __global float *bp = " ++ RHS.name ++ " + (b + (" ++ to_string block_size
      ++ " * row_thread_id + col_thread_id) * " ++ RHS.row_inc_name ++ " * "
      ++ RHS.internal_size2_name ++ "); \n"
  else if RHS.is_row_major && !RHS.is_transposed then
    "    __global float *bp = " ++ RHS.name ++ " + (b + (" ++ to_string block_size
      ++ " * row_thread_id + col_thread_id) * " ++ RHS.col_inc_name ++ "); \n"
  else if !RHS.is_row_major && RHS.is_transposed then
    "    __global float *bp = " ++ RHS.name ++ " + (b + (" ++ to_string block_size
      ++ " * row_thread_id + col_thread_id) * " ++ RHS.row_inc_name ++ "); \n"
  else if !RHS.is_row_major && !RHS.is_transposed then
    "    __global float *bp = " ++ RHS.name ++ " + (b + (" ++ to_string block_size
      ++ " * row_thread_id + col_thread_id) * " ++ RHS.col_inc_name ++ " * "
      ++ RHS.internal_size1_name ++ "); \n"
  else ""

/-- Lines 537-550 of `make_code<MatMatToken>::value`: the string `rhs_expr` after the call
of `replace`. -/
def make_code.MatMatToken.rhs_expr (RHS : symbolic_operand) : String :=
  (make_code.MatMatToken.replace
    (if RHS.is_row_major && RHS.is_transposed then
      make_expression_code (.symbolic RHS) "i"
    else if RHS.is_row_major && !RHS.is_transposed then
      make_expression_code (.symbolic RHS) ("i * " ++ RHS.internal_size2_name)
    else if !RHS.is_row_major && RHS.is_transposed then
      make_expression_code (.symbolic RHS) ("i * " ++ RHS.internal_size1_name)
    else if !RHS.is_row_major && !RHS.is_transposed then
      make_expression_code (.symbolic RHS) "i"
    else "")
    RHS.name "bp").2

/-- Lines 566-577 of `make_code<MatMatToken>::value`: the declaration of `c`. -/
def make_code.MatMatToken.c_declaration (to_string : Nat → String)
    (Assigned : symbolic_operand) : String :=
  if Assigned.is_row_major then
    ("  int c = " ++ Assigned.internal_size2_name ++ " * (" ++ Assigned.row_inc_name ++ " * "
        ++ to_string block_size ++ " * row_block_id + " ++ Assigned.row_start_name ++ ") + "
        ++ to_string (vector_size * block_size) ++ " * " ++ Assigned.col_inc_name
        ++ " * col_block_id + " ++ Assigned.col_start_name ++ " \n")
      ++ ("          + " ++ Assigned.col_inc_name ++ " * (" ++ to_string block_size
        ++ " * row_thread_id + col_thread_id); \n")
  else
    ("  int c = " ++ Assigned.row_inc_name ++ " * " ++ to_string block_size
        ++ " * row_block_id + " ++ Assigned.row_start_name ++ " + ("
        ++ to_string (vector_size * block_size) ++ " * " ++ Assigned.col_inc_name
        ++ " * col_block_id + " ++ Assigned.col_start_name ++ ") * "
        ++ Assigned.internal_size1_name ++ " \n")
      ++ ("          + " ++ Assigned.internal_size1_name ++ " * " ++ Assigned.col_inc_name
        ++ " * (" ++ to_string block_size ++ " * row_thread_id + col_thread_id); \n")

/-- Lines 582-603 of `make_code<MatMatToken>::value`: the two statements of the body of the
store loop. -/
def make_code.MatMatToken.store (token : MatMatToken) : String :=
  if token.Assigned.is_row_major then
    if is_null_type token.SCALAR_EXPR then
      ("    " ++ token.Assigned.name ++ "[c]" ++ token.OP_expression_string ++ "cv[i]; \n")
        ++ ("      c += " ++ token.Assigned.internal_size2_name ++ " * "
          ++ token.Assigned.row_inc_name ++ "; \n")
    else
      ("    " ++ token.Assigned.name ++ "[c]" ++ token.OP_expression_string
          ++ make_expression_code token.SCALAR_EXPR "" ++ "* cv[i]; \n")
        ++ ("      c += " ++ token.Assigned.internal_size2_name ++ " * "
          ++ token.Assigned.row_inc_name ++ "; \n")
  else
    if is_null_type token.SCALAR_EXPR then
      ("    " ++ token.Assigned.name ++ "[c]" ++ token.OP_expression_string ++ "cv[i]; \n")
        ++ ("      c += " ++ token.Assigned.row_inc_name ++ "; \n")
    else
      ("    " ++ token.Assigned.name ++ "[c]" ++ token.OP_expression_string
          ++ make_expression_code token.SCALAR_EXPR "" ++ "* cv[i]; \n")
        ++ ("      c += " ++ token.Assigned.row_inc_name ++ "; \n")

/-- The function `make_code<MatMatToken<T,OP,Assigned> >::value` (lines 446-609). -/
def make_code.MatMatToken.value (to_string : Nat → String) (token : MatMatToken) :
    Except generation_error String :=
  VIENNACL_STATIC_ASSERT (token.Alignment == 1)
    (make_code.MatMatToken.declarations to_string
      ++ make_code.MatMatToken.a_bounds to_string token.LHS
      ++ make_code.MatMatToken.b_bounds to_string token.RHS
      ++ "  for(size_t a = aBegin, b = bBegin; a < aEnd; a += aStep, b += bStep) \x7b \n"
      ++ ("    for(size_t i = 0; i < " ++ to_string vector_size ++ "; i++)  \n")
      ++ make_code.MatMatToken.staging to_string token.LHS
      ++ "\n"
      ++ "    barrier(CLK_LOCAL_MEM_FENCE); \n"
      ++ "\n"
      ++ "    __local  float *ap = As; \n"
      ++ make_code.MatMatToken.bp_declaration to_string token.RHS
      ++ "\n"
      ++ ("    for(size_t i = 0; i < " ++ to_string block_size ++ "; i++) \x7b \n")
      ++ ("      float bv = " ++ make_code.MatMatToken.rhs_expr token.RHS ++ "; \n")
      ++ "\n"
      ++ ("      for(size_t k = 0; k < " ++ to_string block_size ++ "; k++)  \n")
      ++ "\t    cv[k] += ap[k] * bv; \n"
      ++ "\n"
      ++ ("      ap += " ++ to_string block_size ++ "; \n")
      ++ "    \x7d \n"
      ++ "\n"
      ++ "    barrier(CLK_LOCAL_MEM_FENCE); \n"
      ++ "  \x7d \n"
      ++ make_code.MatMatToken.c_declaration to_string token.Assigned
      ++ ("  for(size_t i = 0; i < " ++ to_string block_size ++ "; i++) \x7b \n")
      ++ make_code.MatMatToken.store token
      ++ "  \x7d \n"
      ++ "\x7d \n")

end viennacl.generator
/-! ## `make_code.hpp`: readings of the emitted text

The definitions of this section do not translate functions of the sources.  They state, in
the words of the specification, what the emitted text is to be: the lanes of a wide dot
product, the statements of the lanes of a wide accumulator, and the control structure of
the emitted kernels.  The theorems compare them with the emitters. -/

namespace viennacl.generator

/-- One call of `dot` on the component group `group` of both operands, without the closing
parenthesis: `dot(<L><group>,<R><group>`. -/
def spec_dot_call (L R group : String) : String :=
  "dot(" ++ L ++ group ++ "," ++ R ++ group

/-- The component groups the specification gives a dot product of the alignment: two
halves for 8, four quarters for 16, the whole operand otherwise. -/
def spec_lane_groups (Alignment : Nat) : List String :=
  if Alignment = 8 then [".s0123", ".s4567"]
  else if Alignment = 16 then [".s0123", ".s4567", ".s89ab", ".scdef"]
  else [""]

/-- The sum of the calls of `dot` on the given component groups, each call followed by the
text that closes it (the closing parenthesis and, behind all but the last, the `+`). -/
def spec_wide_dot (L R : String) (groups closings : List String) : String :=
  String.join (List.zipWith (fun group closing => spec_dot_call L R group ++ closing)
    groups closings)

/-- The value of a hexadecimal digit of a component selector of OpenCL C. -/
def hex_value (c : Char) : Nat :=
  if c.toNat < 58 then c.toNat - 48 else c.toNat - 87

/-- The lanes a component selector `.s<digits>` of OpenCL C selects, in order. -/
def swizzle_lanes (group : String) : List Nat :=
  (group.toList.drop 2).map hex_value

/-- The value of `dot` on the given lanes of two vectors, over exact arithmetic. -/
def lane_dot (x y : Nat → Int) (lanes : List Nat) : Int :=
  (lanes.map (fun l => x l * y l)).sum

/-- The selector of lane `k` of a wide accumulator: `.s0`, ..., `.s9`, `.sa`, ..., `.sf`. -/
def spec_lane_suffix (k : Nat) : String :=
  ".s" ++ String.singleton (Nat.digitChar k)

/-- The row factor of lane `k` at alignment 16: `scaled_row + k`, written without the sum
for lane 0. -/
def spec_row_expression (k : Nat) : String :=
  if k = 0 then "scaled_row *" else "(scaled_row+" ++ toString k ++ ")*"

/-- The statement of lane `k` of the wide accumulator of a row-major matrix-vector
product: the lane accumulates the dot product of matrix row `scaled_row + k`, indexed at
`(scaled_row + k) * internal_size2 + col`, with the vector, indexed at `col`. -/
def spec_lane_statement (U : prod_node) (dot_prod_name : String) (k : Nat) : String :=
  dot_prod_name ++ spec_lane_suffix k ++ " +=  "
    ++ dot_product U.LHS U.RHS U.LHS_Alignment
        (spec_row_expression k ++ U.internal_size2_expression ++ " + col") "col"
    ++ ";\n"

/-- Whether the characters `pattern` occur in the characters `s`. -/
def has_substring (pattern : List Char) : List Char → Bool
  | [] => starts_with pattern []
  | c :: cs => starts_with pattern (c :: cs) || has_substring pattern cs

/-- The number of positions of `s` at which the characters `pattern` occur. -/
def count_occurrences (pattern : List Char) : List Char → Nat
  | [] => 0
  | c :: cs =>
    (if starts_with pattern (c :: cs) then 1 else 0) + count_occurrences pattern cs

/-- Whether a text names the lane of a work-group: `get_local_id`, or one of the variables
`row_thread_id` and `col_thread_id` that the matrix-matrix kernel initialises with it. -/
def lane_dependent (s : String) : Bool :=
  has_substring "get_local_id".toList s.toList
    || has_substring "row_thread_id".toList s.toList
    || has_substring "col_thread_id".toList s.toList

/-- The control structure of a piece of OpenCL C text: text without control structure
(declarations, expression statements, white space), a barrier, a sequence, a block in
braces, a `for` loop and an `if` statement; the body of a loop or of an `if` is the one
statement or block that follows the header. -/
inductive code
  | text (s : String)
  | barrier
  | seq (first second : code)
  | block (body : code)
  | for_loop (header : String) (body : code)
  | if_then (condition : String) (body : code)

/-- The text of a piece of code. -/
def code.render : code → String
  | .text s => s
  | .barrier => "barrier(CLK_LOCAL_MEM_FENCE);"
  | .seq first second => first.render ++ second.render
  | .block body => "\x7b" ++ body.render ++ "\x7d"
  | .for_loop header body => "for" ++ header ++ body.render
  | .if_then condition body => "if" ++ condition ++ body.render

/-- Whether a piece of code is one statement: everything but a sequence. -/
def code.single_statement : code → Bool
  | .seq _ _ => false
  | _ => true

/-- Whether the body of every loop and of every `if` is one statement or block. -/
def code.well_formed : code → Bool
  | .text _ => true
  | .barrier => true
  | .seq first second => first.well_formed && second.well_formed
  | .block body => body.well_formed
  | .for_loop _ body => body.single_statement && body.well_formed
  | .if_then _ body => body.single_statement && body.well_formed

/-- For every barrier of a piece of code, in the order of the text, the headers of the
loops and `if` statements around it, the outermost first, each with its keyword. -/
def code.barrier_contexts : code → List (List String)
  | .text _ => []
  | .barrier => [[]]
  | .seq first second => first.barrier_contexts ++ second.barrier_contexts
  | .block body => body.barrier_contexts
  | .for_loop header body => body.barrier_contexts.map (fun ctx => ("for" ++ header) :: ctx)
  | .if_then condition body =>
    body.barrier_contexts.map (fun ctx => ("if" ++ condition) :: ctx)

/-- Whether every barrier is a direct statement of a block or of `for` loops whose headers
do not name the lane: no barrier is in the body of an `if`. -/
def code.barriers_uniform (c : code) : Bool :=
  c.barrier_contexts.all (fun ctx =>
    ctx.all (fun h => starts_with "for".toList h.toList && !lane_dependent h))

/-- The pieces of code of a list, one after the other. -/
def code.sequence : List code → code
  | [] => .text ""
  | [c] => c
  | c :: d :: rest => .seq c (code.sequence (d :: rest))

/-- The control structure of the text of `generate_code_reduction` (lines 263-270). -/
def make_code.InProdToken_1.reduction_control_structure (ARG : inner_prod_node) : code :=
  code.sequence [
    .text ("shared_memory_ptr[get_local_id(0)] = "
      ++ inner_prod_impl_t.private_value ARG ++ ";\n"),
    .for_loop " (unsigned int stride = get_local_size(0)/2; stride > 0; stride /= 2)\n"
      (.block (code.sequence [
        .text "\n  ",
        .barrier,
        .text "\n  ",
        .if_then " (get_local_id(0) < stride)\n  "
          (.text "shared_memory_ptr[get_local_id(0)] += shared_memory_ptr[get_local_id(0)+stride];"),
        .text "\n"])),
    .text ("\n" ++ ARG.name ++ "[get_group_id(0)] = shared_memory_ptr[0];")]

/-- The control structure of the text of `make_code<InProdToken<T,0> >::generate_code`
(lines 302-318). -/
def make_code.InProdToken_0.control_structure (U : inner_prod_node) : code :=
  code.sequence [
    .block (code.sequence [
      .text "\n   float sum = 0;\n   ",
      .for_loop
        " (unsigned int i = get_local_id(0) ; i<get_num_groups(0) ; i+=get_local_size(0))\n   "
        (.block (.text ("\n      sum+= " ++ U.name ++ "[i];\n   "))),
      .text ";\n   shared_memory_ptr[get_local_id(0)]=sum;\n   ",
      .for_loop " (unsigned int stride = get_local_size(0)/2; stride > 0; stride /= 2)\n   "
        (.block (code.sequence [
          .text "\n      ",
          .barrier,
          .text "\n      ",
          .if_then " (get_local_id(0) < stride)\n      "
            (.text "shared_memory_ptr[get_local_id(0)] += shared_memory_ptr[get_local_id(0)+stride];"),
          .text "\n   "])),
      .text "\n   ",
      .if_then "(get_local_id(0)==0)\n       "
        (.text (U.local_value ++ " = shared_memory_ptr[0];")),
      .text "\n   ",
      .barrier,
      .text "\n"]),
    .text "\n"]

/-- The control structure of the texts of a list of inner products, one after the other. -/
def control_structure_of_list (f : inner_prod_node → code) (T : List inner_prod_node) : code :=
  T.foldl (fun c U => .seq c (f U)) (.text "")

/-- The control structure of the text of `make_code<MatMatToken>::value` (lines 451-606). -/
def make_code.MatMatToken.control_structure (to_string : Nat → String) (token : MatMatToken) : code :=
  code.sequence [
    .block (code.sequence [
      .text ((List.range (block_size - 1)).foldl (fun res _ => res ++ "0,")
        ("\n"
          ++ "  size_t row_block_id = get_group_id(1);\n"
          ++ "  size_t col_block_id = get_group_id(0);\n"
          ++ "  size_t row_thread_id = get_local_id(1);\n"
          ++ "  size_t col_thread_id = get_local_id(0);\n"
          ++ ("  __local float As[" ++ to_string (block_size * block_size) ++ "];\n")
          ++ ("  float cv[" ++ to_string block_size ++ "] = \x7b"))
        ++ "0\x7d;\n"
        ++ make_code.MatMatToken.a_bounds to_string token.LHS
        ++ make_code.MatMatToken.b_bounds to_string token.RHS
        ++ "  "),
      .for_loop "(size_t a = aBegin, b = bBegin; a < aEnd; a += aStep, b += bStep) "
        (.block (code.sequence [
          .text " \n    ",
          .for_loop ("(size_t i = 0; i < " ++ to_string vector_size ++ "; i++)  \n")
            (.text (make_code.MatMatToken.staging to_string token.LHS)),
          .text "\n    ",
          .barrier,
          .text (" \n" ++ "\n" ++ "    __local  float *ap = As; \n"
            ++ make_code.MatMatToken.bp_declaration to_string token.RHS ++ "\n" ++ "    "),
          .for_loop ("(size_t i = 0; i < " ++ to_string block_size ++ "; i++) ")
            (.block (code.sequence [
              .text (" \n" ++ ("      float bv = "
                ++ make_code.MatMatToken.rhs_expr token.RHS ++ "; \n") ++ "\n" ++ "      "),
              .for_loop
                ("(size_t k = 0; k < " ++ to_string block_size ++ "; k++)  \n" ++ "\t    ")
                (.text "cv[k] += ap[k] * bv;"),
              .text (" \n" ++ "\n"
                ++ ("      ap += " ++ to_string block_size ++ "; \n") ++ "    ")])),
          .text (" \n" ++ "\n" ++ "    "),
          .barrier,
          .text " \n  "])),
      .text (" \n" ++ make_code.MatMatToken.c_declaration to_string token.Assigned ++ "  "),
      .for_loop ("(size_t i = 0; i < " ++ to_string block_size ++ "; i++) ")
        (.block (.text (" \n" ++ make_code.MatMatToken.store token ++ "  "))),
      .text " \n"]),
    .text " \n"]

/-- A symbolic matrix or vector for the examples, whose identifiers start with its name. -/
def example_operand (name : String) (is_row_major is_transposed : Bool) : symbolic_operand :=
  ⟨name, name ++ "_val", "float", 1, is_row_major, is_transposed,
   name ++ "_row_start", name ++ "_col_start", name ++ "_row_inc", name ++ "_col_inc",
   name ++ "_size1", name ++ "_size2", name ++ "_internal_size1", name ++ "_internal_size2"⟩

/-- A matrix-vector product for the examples: the row-major, untransposed matrix `A` of
alignment 1 times the vector `x`. -/
def example_product : prod_node :=
  ⟨.symbolic (example_operand "A" true false), .symbolic (example_operand "x" true false),
   1, "Ax", "float", 1, "A_internal_size1", "A_internal_size2"⟩

/-- An inner product for the examples: the vectors `x` and `y` of alignment 1. -/
def example_inner_prod : inner_prod_node :=
  ⟨.symbolic (example_operand "x" true false), .symbolic (example_operand "y" true false),
   1, "ip", "ip_local", "float"⟩

/-- A matrix-matrix token for the examples: `C = A * B` with the three matrices row-major
and untransposed, of alignment 1, without scalar factor. -/
def example_token : MatMatToken :=
  ⟨example_operand "A" true false, example_operand "B" true false, .NullType, " = ",
   example_operand "C" true false, 1⟩

end viennacl.generator
/-! ## The accesses of the emitted reductions to the local memory -/

namespace viennacl

/-- The loop header `for (unsigned int stride = ...; stride > 0; stride /= 2)` of the
emitted reductions: the values of `stride` at which the body runs, in order, and whether
the loop was left within `fuel` tests of its condition. -/
def reduction_strides : Nat → Nat → List Nat × Bool
  | 0, _ => ([], false)
  | fuel + 1, stride =>
    if 0 < stride then
      (stride :: (reduction_strides fuel (stride / 2)).1,
        (reduction_strides fuel (stride / 2)).2)
    else ([], true)

/-- What a work-group does with `shared_memory_ptr`: a lane reads a cell, a lane writes a
cell, or the lanes meet at `barrier(CLK_LOCAL_MEM_FENCE)`. -/
inductive local_memory_event
  | read (lane cell : Nat)
  | write (lane cell : Nat)
  | barrier
deriving DecidableEq

/-- The statement `shared_memory_ptr[get_local_id(0)] = ...` that starts both emitted
reductions, run by the `L` lanes of a work-group: lane `l` writes cell `l`. -/
def store_events (L : Nat) : List local_memory_event :=
  (List.range L).map (fun l => local_memory_event.write l l)

/-- The body of the reduction loop run by the `L` lanes: the barrier, then
`if (get_local_id(0) < stride) shared_memory_ptr[get_local_id(0)] +=
shared_memory_ptr[get_local_id(0)+stride];`, in which a lane below `stride` reads its own
cell and the cell `stride` further and writes its own cell. -/
def step_events (L stride : Nat) : List local_memory_event :=
  local_memory_event.barrier ::
    ((List.range L).filter (fun l => l < stride)).flatMap
      (fun l => [local_memory_event.read l l, local_memory_event.read l (l + stride),
        local_memory_event.write l l])

/-- The reduction loop run by the `L` lanes, started like `group_reduction` at
`get_local_size(0)/2` stored into an `unsigned int`. -/
def loop_events (L : Nat) : List local_memory_event :=
  (reduction_strides 33 ((L / 2) % uint_range)).1.flatMap (step_events L)

/-- The code emitted by `make_code<InProdToken<T,1>>::generate_code_reduction` for one
inner product (lines 263-270), run by a work-group of `L` lanes: the store, the loop, and
`name[get_group_id(0)] = shared_memory_ptr[0];`, in which every lane reads cell 0. -/
def group_reduction_events (L : Nat) : List local_memory_event :=
  store_events L ++ loop_events L ++ (List.range L).map (fun l => local_memory_event.read l 0)

/-- The code emitted by `make_code<InProdToken<T,1>>::reduction` for `n` inner products,
one after the other. -/
def reduction_events (L n : Nat) : List local_memory_event :=
  (List.replicate n (group_reduction_events L)).flatten

/-- The code emitted by `make_code<InProdToken<T,0>>::generate_code` for one inner product
(lines 302-318), run by a work-group of `L` lanes: the store of `sum` (the loop before it
does not touch the local memory), the loop,
`if(get_local_id(0)==0) <local value> = shared_memory_ptr[0];`, in which lane 0 reads
cell 0, and the barrier. -/
def final_reduction_events (L : Nat) : List local_memory_event :=
  store_events L ++ loop_events L
    ++ ((List.range L).filter (fun l => l = 0)).map (fun l => local_memory_event.read l 0)
    ++ [local_memory_event.barrier]

/-- The code emitted by `make_code<InProdToken<T,0>>::value` for `n` inner products, one
after the other. -/
def final_reductions_events (L n : Nat) : List local_memory_event :=
  (List.replicate n (final_reduction_events L)).flatten

/-- The cells with a write that no barrier has followed yet, with the lane of the last such
write, after the events of a list; `pending` is the state before the list. -/
def pending_after (pending : Nat → Option Nat) : List local_memory_event → Nat → Option Nat
  | [] => pending
  | .barrier :: rest => pending_after (fun _ => none) rest
  | .write lane cell :: rest =>
    pending_after (fun c => if c = cell then some lane else pending c) rest
  | .read _ _ :: rest => pending_after pending rest

/-- The reads, as pairs of the lane and the cell, of a cell that was last written by a
different lane with no barrier between the write and the read, in the words of the
specification ("so no lane reads a value another lane has not yet written"); `pending` is
the state before the list. -/
def unseparated_reads_from (pending : Nat → Option Nat) :
    List local_memory_event → List (Nat × Nat)
  | [] => []
  | .barrier :: rest => unseparated_reads_from (fun _ => none) rest
  | .write lane cell :: rest =>
    unseparated_reads_from (fun c => if c = cell then some lane else pending c) rest
  | .read lane cell :: rest =>
    (match pending cell with
      | some writer => if writer ≠ lane then [(lane, cell)] else []
      | none => [])
      ++ unseparated_reads_from pending rest

/-- The unseparated reads of a kernel: before its first event no write is pending. -/
def unseparated_reads (events : List local_memory_event) : List (Nat × Nat) :=
  unseparated_reads_from (fun _ => none) events

end viennacl

/-! ## `get_kernels_infos.hpp`: the kernels of a program -/

namespace viennacl.generator

/-- The metafunction `get_head` (lines 44-54): the head of a typelist, the type itself
otherwise; the empty typelist is `NullType`. -/
def get_head : List expression → expression
  | [] => .NullType
  | Head :: _ => Head

/-- The metafunction `transform_inner_prod` (lines 58-68). -/
def transform_inner_prod : expression → expression
  | .compound_node LHS .inner_prod_type RHS names =>
    .inner_prod_impl_t (.compound_node LHS .inner_prod_type RHS names)
  | T => T

/-- The metaprogramming utilities `register_kernels` uses and that are not among the
sources: `tree_utils::extract_if` and `tree_utils::count_if` with `is_inner_product_leaf`,
`tree_utils::count_if` with `is_product_leaf`, and `typelist_utils::type_at`, `fuse`,
`replace` and `append` on the list of kernels.  A typelist is a list, `NullType` the empty
list. -/
structure register_tools where
  extract_if_is_inner_product_leaf : expression → List expression
  count_if_is_inner_product_leaf : expression → Nat
  count_if_is_product_leaf : expression → Nat
  type_at : List (List expression) → Int → List expression
  fuse : List expression → List expression → List expression
  replace : List (List expression) → List expression → List expression →
    List (List expression)
  append : List (List expression) → List expression → List (List expression)

/-- The metafunction `register_kernels::add_to_res<T,List,Index>` (lines 80-93):
`ResultIfTmpNull` when the typelist at `Index` is `NullType`, `ResultIfTmpNotNull`
otherwise. -/
def add_to_res (tools : register_tools) (T : List expression) (List_ : List (List expression))
    (Index : Int) : List (List expression) :=
  if (tools.type_at List_ Index).isEmpty then tools.append List_ T
  else
    tools.replace List_ (tools.type_at List_ Index)
      (tools.fuse (tools.type_at List_ Index) T)

/-- The constant `inc` of `register_kernels` (lines 98-99), a `bool` that is added to
`CurrentIndex`. -/
def register_kernels_inc (tools : register_tools) (Head : expression)
    (Tail : List expression) : Int :=
  if tools.count_if_is_inner_product_leaf (get_head Tail)
      + tools.count_if_is_product_leaf Head ≠ 0 then 1 else 0

/-- The metafunction `register_kernels<TreeList,Res,CurrentIndex>` (lines 70-109). -/
def register_kernels (tools : register_tools) :
    List expression → List (List expression) → Int → List (List expression)
  | [], Res, _ => Res
  | Head :: Tail, Res, CurrentIndex =>
    register_kernels tools Tail
      (add_to_res tools [Head]
        (add_to_res tools
          ((tools.extract_if_is_inner_product_leaf Head).map transform_inner_prod)
          Res (CurrentIndex - 1))
        CurrentIndex)
      (CurrentIndex + register_kernels_inc tools Head Tail)

/-- The constant `first_has_ip` of `program_infos` (line 114), a `bool` that is handed to
`register_kernels` as `CurrentIndex`. -/
def first_has_ip (tools : register_tools) (ARG : List expression) : Int :=
  if tools.count_if_is_inner_product_leaf (get_head ARG) ≠ 0 then 1 else 0

/-- The type `program_infos<ARG>::KernelsList` (line 115). -/
def KernelsList (tools : register_tools) (ARG : List expression) : List (List expression) :=
  register_kernels tools ARG [] (first_has_ip tools ARG)

/-- Whether a tree is an inner product or a matrix product, for the examples. -/
def example_is_leaf (OP : operator_type) : expression → Bool
  | .compound_node _ op _ _ => op == OP
  | _ => false

/-- Whether a tree is built from leaves (symbolic vectors, matrices and scalars, and the
empty `NullType`) and binary nodes whose operator is neither the inner product nor the
matrix product. -/
def ordinary : expression → Bool
  | .NullType => true
  | .symbolic _ => true
  | .cpu_symbolic_scalar _ => true
  | .gpu_symbolic_scalar _ => true
  | .compound_node LHS (.other _) RHS _ => ordinary LHS && ordinary RHS
  | _ => false

/-- The number of binary nodes of a tree. -/
def binary_nodes : expression → Nat
  | .compound_node LHS _ RHS _ => binary_nodes LHS + binary_nodes RHS + 1
  | _ => 0

/-- The texts of the leaves of a tree for a loop accessor, from left to right. -/
def leaf_texts : expression → String → List String
  | .compound_node LHS _ RHS _, loop_accessor =>
    leaf_texts LHS loop_accessor ++ leaf_texts RHS loop_accessor
  | T, loop_accessor => [make_expression_code T loop_accessor]

/-- Whether a text has no parenthesis. -/
def paren_free (s : String) : Bool :=
  !s.toList.contains '(' && !s.toList.contains ')'

/-- Whether the texts of the leaves and of the operators of a tree have no parenthesis. -/
def texts_paren_free : expression → String → Bool
  | .compound_node LHS (.other expression_string) RHS _, loop_accessor =>
    texts_paren_free LHS loop_accessor && paren_free expression_string
      && texts_paren_free RHS loop_accessor
  | T, loop_accessor => paren_free (make_expression_code T loop_accessor)

/-- The number of parentheses that are open behind the characters, when `depth` are open
before them; `none` when a parenthesis is closed that was not opened. -/
def paren_depth : Nat → List Char → Option Nat
  | depth, [] => some depth
  | depth, c :: cs =>
    if c = '(' then paren_depth (depth + 1) cs
    else if c = ')' then
      match depth with
      | 0 => none
      | d + 1 => paren_depth d cs
    else paren_depth depth cs

/-- A tree for the examples: `(x + y) * a`. -/
def example_tree : expression :=
  .compound_node
    (.compound_node (.symbolic (example_operand "x" true false)) (.other " + ")
      (.symbolic (example_operand "y" true false)) ⟨"xy", "xy_local", "float"⟩)
    (.other " * ") (.cpu_symbolic_scalar "a") ⟨"xya", "xya_local", "float"⟩

/-! ## `make_code<MatMatToken>`: the store and the loop over the reduction dimension -/

/-- The store of the write-back in the words of the specification: `<C>[c]<OP>cv[i];`
without scalar factor and `<C>[c]<OP><scalar expression>* cv[i];` with one. -/
def spec_store_statement (C OP : String) (scalar : Option String) : String :=
  match scalar with
  | none => C ++ "[c]" ++ OP ++ "cv[i];"
  | some s => C ++ "[c]" ++ OP ++ s ++ "* cv[i];"

end viennacl.generator

/-! ## `ocl/utils.hpp` -/

namespace viennacl.ocl

/-- A device `viennacl::ocl::device`, as far as `utils.hpp` reads it. -/
structure device where
  double_support : Bool
deriving DecidableEq

/-- A context `viennacl::ocl::context`, as far as `utils.hpp` reads it. -/
structure context where
  current_device : device
deriving DecidableEq

/-- The exceptions `utils.hpp` throws. -/
inductive exception
  | double_precision_not_provided_error
deriving DecidableEq

/-- The function `DOUBLE_PRECISION_CHECKER<ScalarType>::apply` (lines 34-50): the primary
template, whose body is empty, and the specialisation for `double`.  A scalar type is its
name. -/
def DOUBLE_PRECISION_CHECKER.apply (ScalarType : String) (ctx : context) :
    Except exception Unit :=
  if ScalarType = "double" then
    if !ctx.current_device.double_support then
      .error .double_precision_not_provided_error
    else .ok ()
  else .ok ()

end viennacl.ocl
/-! ## `make_code.hpp`: the scalar type of the operands -/

namespace viennacl.generator

/-- The function `inner_prod_impl_t<T>::declarations` (lines 53-56).  `print_type`, which
is not among the sources, is a parameter: it is given the scalar type and the alignment. -/
def inner_prod_impl_t.declarations (print_type : String → Nat → String)
    (T : inner_prod_node) : String :=
  print_type T.ScalarType 1 ++ " " ++ inner_prod_impl_t.private_value T ++ "=0;\n"

/-- A symbolic vector or matrix with its scalar type left out: two operands differ in
their scalar type only when they are the same without it. -/
def symbolic_operand.without_scalar_type (T : symbolic_operand) : symbolic_operand :=
  ⟨T.name, T.gid_val_name, "", T.Alignment, T.is_row_major, T.is_transposed,
   T.row_start_name, T.col_start_name, T.row_inc_name, T.col_inc_name, T.size1_name,
   T.size2_name, T.internal_size1_name, T.internal_size2_name⟩

/-- A tree with the scalar types of its leaves and nodes left out. -/
def expression.without_scalar_type : expression → expression
  | .NullType => .NullType
  | .symbolic T => .symbolic T.without_scalar_type
  | .cpu_symbolic_scalar name => .cpu_symbolic_scalar name
  | .gpu_symbolic_scalar val_name => .gpu_symbolic_scalar val_name
  | .inner_prod_impl_t T => .inner_prod_impl_t T.without_scalar_type
  | .elementwise_modifier_impl T modify =>
    .elementwise_modifier_impl T.without_scalar_type modify
  | .compound_node LHS OP RHS names =>
    .compound_node LHS.without_scalar_type OP RHS.without_scalar_type
      ⟨names.name, names.local_value, ""⟩

/-- An inner product with the scalar types left out. -/
def inner_prod_node.without_scalar_type (T : inner_prod_node) : inner_prod_node :=
  ⟨T.LHS.without_scalar_type, T.RHS.without_scalar_type, T.LHS_Alignment, T.name,
   T.local_value, ""⟩

/-- A matrix-matrix token with the scalar types left out. -/
def MatMatToken.without_scalar_type (token : MatMatToken) : MatMatToken :=
  ⟨token.LHS.without_scalar_type, token.RHS.without_scalar_type,
   token.SCALAR_EXPR.without_scalar_type, token.OP_expression_string,
   token.Assigned.without_scalar_type, token.Alignment⟩

/-- A symbolic matrix or vector of the scalar type `double`, for the examples. -/
def example_double_operand (name : String) (is_row_major is_transposed : Bool) :
    symbolic_operand :=
  ⟨name, name ++ "_val", "double", 1, is_row_major, is_transposed,
   name ++ "_row_start", name ++ "_col_start", name ++ "_row_inc", name ++ "_col_inc",
   name ++ "_size1", name ++ "_size2", name ++ "_internal_size1", name ++ "_internal_size2"⟩

/-- The matrix-matrix token of the examples with matrices of the scalar type `double`. -/
def example_double_token : MatMatToken :=
  ⟨example_double_operand "A" true false, example_double_operand "B" true false, .NullType,
   " = ", example_double_operand "C" true false, 1⟩

/-- The inner product of the examples with vectors of the scalar type `double`. -/
def example_double_inner_prod : inner_prod_node :=
  ⟨.symbolic (example_double_operand "x" true false),
   .symbolic (example_double_operand "y" true false), 1, "ip", "ip_local", "double"⟩

end viennacl.generator

/-! # Theorems -/

namespace viennacl

/-! ## The emitted loops -/

/-- Without wrap-around (`bound + step ≤ 2^32`) and with enough fuel the strided loop is left,
its counter values increase, and they are the numbers from the start value on, below the
bound, that are congruent to the start value modulo the step. -/
theorem stride_loop_spec (bound step : Nat) (hstep : 0 < step)
    (hb : bound + step ≤ uint_range) :
    ∀ fuel i, 0 < fuel → bound < fuel + i →
      (stride_loop bound step fuel i).2 = true ∧
      (stride_loop bound step fuel i).1.Pairwise (fun a b => a < b) ∧
      ∀ j, j ∈ (stride_loop bound step fuel i).1 ↔ (i ≤ j ∧ j < bound ∧ j % step = i % step) := by
  intro fuel
  induction fuel with
  | zero => intro i h; omega
  | succ n ih =>
    intro i _ hfuel
    by_cases hi : i < bound
    · have hmod : (i + step) % uint_range = i + step := Nat.mod_eq_of_lt (by omega)
      obtain ⟨h1, h2, h3⟩ := ih (i + step) (by omega) (by omega)
      simp only [stride_loop, hi, if_true, hmod]
      refine ⟨h1, ?_, ?_⟩
      · refine List.pairwise_cons.mpr ⟨?_, h2⟩
        intro a ha
        have := (h3 a).mp ha
        omega
      · intro j
        rw [List.mem_cons, h3]
        constructor
        · rintro (rfl | ⟨h4, h5, h6⟩)
          · exact ⟨le_refl _, hi, rfl⟩
          · refine ⟨by omega, h5, ?_⟩
            rw [h6, Nat.add_mod_right]
        · rintro ⟨h4, h5, h6⟩
          by_cases hji : j = i
          · exact Or.inl hji
          · right
            refine ⟨?_, h5, ?_⟩
            · have hdvd : step ∣ j - i := (Nat.modEq_iff_dvd' h4).mp h6.symm
              have := Nat.le_of_dvd (by omega) hdvd
              omega
            · rw [h6, Nat.add_mod_right]
    · simp only [stride_loop, hi, if_false]
      refine ⟨trivial, List.Pairwise.nil, ?_⟩
      intro j
      simp only [List.not_mem_nil, false_iff]
      omega

/-- The accumulating loop of the final reduction adds the buffer entries at the counter values
of the strided loop. -/
theorem final_sum_loop_eq (r : Nat → Int) (G L : Nat) :
    ∀ fuel i s, final_sum_loop r G L fuel i s =
      (s + ((stride_loop G L fuel i).1.map r).sum, (stride_loop G L fuel i).2) := by
  intro fuel
  induction fuel with
  | zero => intro i s; simp [final_sum_loop, stride_loop]
  | succ n ih =>
    intro i s
    by_cases hi : i < G
    · simp only [final_sum_loop, stride_loop, hi, if_true, ih, List.map_cons, List.sum_cons]
      rw [add_assoc]
    · simp [final_sum_loop, stride_loop, hi]

/-- Started at the stride `2^k` in a work-group of at least `2^(k+1)` lanes, the reduction
loop is left and leaves in cell 0 the sum of the first `2^(k+1)` cells. -/
theorem reduction_loop_pow (L : Nat) (k : Nat) :
    ∀ (fuel : Nat) (sh : Nat → Int), 2 ^ (k + 1) ≤ L → k + 2 ≤ fuel →
      (reduction_loop L fuel (2 ^ k) sh).2 = true ∧
      (reduction_loop L fuel (2 ^ k) sh).1 0 = ∑ c in Finset.range (2 ^ (k + 1)), sh c := by
  induction k with
  | zero =>
    intro fuel sh hL hf
    obtain ⟨f, rfl⟩ : ∃ f, fuel = f + 2 := ⟨fuel - 2, by omega⟩
    have h0 : (0 : Nat) < L := by omega
    simp [reduction_loop, reduction_step, h0, Finset.sum_range_succ]
  | succ k ih =>
    intro fuel sh hL hf
    obtain ⟨f, rfl⟩ : ∃ f, fuel = f + 1 := ⟨fuel - 1, by omega⟩
    have hpos : 0 < 2 ^ (k + 1) := Nat.pos_pow_of_pos _ (by decide)
    have hhalf : 2 ^ (k + 1) / 2 = 2 ^ k := by
      rw [pow_succ]; exact Nat.mul_div_cancel _ (by decide)
    have hle : 2 ^ (k + 1) ≤ L := by
      have : 2 ^ (k + 1 + 1) = 2 ^ (k + 1) + 2 ^ (k + 1) := by rw [pow_succ]; ring
      omega
    obtain ⟨h1, h2⟩ := ih f (reduction_step L (2 ^ (k + 1)) sh) hle (by omega)
    simp only [reduction_loop, hpos, if_true, hhalf]
    refine ⟨h1, ?_⟩
    rw [h2]
    have hsplit : 2 ^ (k + 1 + 1) = 2 ^ (k + 1) + 2 ^ (k + 1) := by rw [pow_succ]; ring
    rw [hsplit, Finset.sum_range_add, ← Finset.sum_add_distrib]
    apply Finset.sum_congr rfl
    intro c hc
    have hc2 : c < 2 ^ (k + 1) := Finset.mem_range.mp hc
    have hcL : c < L := by omega
    simp [reduction_step, hc2, hcL, add_comm]

/-- The sum over the counter values of lane `lid` is the sum over the residue class of `lid`. -/
theorem stride_visits_sum (r : Nat → Int) (G L : Nat) (hL : 0 < L)
    (hb : G + L ≤ uint_range) (fuel lid : Nat) (hf : G < fuel) (hl : lid < L) :
    ((stride_loop G L fuel lid).1.map r).sum =
      ∑ j in (Finset.range G).filter (fun j => j % L = lid), r j := by
  obtain ⟨_, hp, hm⟩ := stride_loop_spec G L hL hb fuel lid (by omega) (by omega)
  have hnd : (stride_loop G L fuel lid).1.Nodup := hp.imp (fun h => Nat.ne_of_lt h)
  rw [← List.sum_toFinset r hnd]
  apply Finset.sum_congr _ (fun _ _ => rfl)
  ext j
  simp only [List.mem_toFinset, hm, Finset.mem_filter, Finset.mem_range, Nat.mod_eq_of_lt hl]
  constructor
  · rintro ⟨_, h2, h3⟩; exact ⟨h2, h3⟩
  · rintro ⟨h2, h3⟩
    exact ⟨h3 ▸ Nat.mod_le j L, h2, h3⟩

/-- Summing over all residue classes modulo `L` sums over all indices. -/
theorem sum_residue_classes (r : Nat → Int) (G L : Nat) (hL : 0 < L) :
    ∑ lid in Finset.range L, ∑ j in (Finset.range G).filter (fun j => j % L = lid), r j =
      ∑ j in Finset.range G, r j :=
  Finset.sum_fiberwise_of_maps_to
    (fun j _ => Finset.mem_range.mpr (Nat.mod_lt j hL)) r

/-- The private value of a lane as a sum over a finite set. -/
theorem private_value_eq (N S gid : Nat) (x y : Nat → Int) :
    private_value N S gid x y =
      ∑ i in (Finset.range N).filter (fun i => i % S = gid), x i * y i := by
  unfold private_value
  rw [← List.sum_toFinset _ ((List.nodup_range N).filter _)]
  apply Finset.sum_congr _ (fun _ _ => rfl)
  ext i
  simp

/-- Summing over groups and lanes is summing over global ids. -/
theorem sum_groups_lanes (h : Nat → Int) (L : Nat) :
    ∀ G, ∑ g in Finset.range G, ∑ lid in Finset.range L, h (g * L + lid) =
      ∑ k in Finset.range (G * L), h k := by
  intro G
  induction G with
  | zero => simp
  | succ n ih =>
    rw [Finset.sum_range_succ, ih, Nat.succ_mul, Finset.sum_range_add]

/-- The sequential dot product as a sum over a finite set. -/
theorem sequential_dot_eq (x y : Nat → Int) :
    ∀ N, sequential_dot x y N = ∑ i in Finset.range N, x i * y i := by
  intro N
  induction N with
  | zero => rfl
  | succ n ih => rw [sequential_dot, ih, Finset.sum_range_succ]

/-- A stride below `2^f` is halved to zero within `f + 1` tests. -/
theorem reduction_loop_exits (L : Nat) :
    ∀ (f stride : Nat) (sh : Nat → Int), stride < 2 ^ f →
      (reduction_loop L (f + 1) stride sh).2 = true := by
  intro f
  induction f with
  | zero =>
    intro stride sh h
    have h0 : stride = 0 := by simpa using h
    simp [reduction_loop, h0]
  | succ n ih =>
    intro stride sh h
    by_cases hs : 0 < stride
    · have hhalf : stride / 2 < 2 ^ n := by
        rw [pow_succ] at h
        omega
      simp only [reduction_loop, hs, if_true]
      exact ih _ _ hhalf
    · simp [reduction_loop, hs]

/-- A power of two below `2^32` has an exponent below 32. -/
theorem exponent_lt (k : Nat) (h : 2 ^ k < uint_range) : k < 32 := by
  by_contra hk
  have : 2 ^ 32 ≤ 2 ^ k := Nat.pow_le_pow_right (by decide) (by omega)
  have h32 : (2 : Nat) ^ 32 = uint_range := by decide
  omega

/-- For a work-group of `2^k` lanes the reduction loop, started at half the local size, is left
and leaves in cell 0 the sum of all `2^k` cells. -/
theorem tree_reduction_pow (k : Nat) (hk : 2 ^ k < uint_range) (sh : Nat → Int) :
    (reduction_loop (2 ^ k) 33 ((2 ^ k / 2) % uint_range) sh).2 = true ∧
    (reduction_loop (2 ^ k) 33 ((2 ^ k / 2) % uint_range) sh).1 0 =
      ∑ c in Finset.range (2 ^ k), sh c := by
  have hk32 := exponent_lt k hk
  cases k with
  | zero => simp [reduction_loop]
  | succ j =>
    have hhalf : 2 ^ (j + 1) / 2 = 2 ^ j := by
      rw [pow_succ]; exact Nat.mul_div_cancel _ (by decide)
    have hlt : 2 ^ j < uint_range := by
      have : 2 ^ j ≤ 2 ^ (j + 1) := Nat.pow_le_pow_right (by decide) (by omega)
      omega
    rw [hhalf, Nat.mod_eq_of_lt hlt]
    exact reduction_loop_pow (2 ^ (j + 1)) j 33 sh (le_refl _) (by omega)

/-- With a store that comes last by lane 0, or by a lane that has read cell 0 after the
last addition of lane 0, the loop of the group reduction leaves in the buffer cell 0 of
the local memory as the reduction loop leaves it with the lanes in step. -/
theorem group_reduction_loop_in_step (L : Nat) (s : final_store)
    (hs : ¬ (s.lane ≠ 0 ∧ s.lane < L ∧ s.reads_early = true)) :
    ∀ (fuel fuel2 stride : Nat) (sh : Nat → Int), 0 < stride → stride < 2 ^ fuel →
      stride < 2 ^ fuel2 →
      group_reduction_loop L s fuel stride sh
        = some ((reduction_loop L (fuel2 + 1) stride sh).1 0) := by
  intro fuel
  induction fuel with
  | zero => intro fuel2 stride sh h0 h1 _; simp at h1; omega
  | succ n ih =>
    intro fuel2 stride sh h0 h1 h2
    cases fuel2 with
    | zero => simp at h2; omega
    | succ m =>
      rw [pow_succ] at h1 h2
      by_cases hhalf : 0 < stride / 2
      · rw [group_reduction_loop, if_pos hhalf, reduction_loop, if_pos h0]
        exact ih m (stride / 2) _ hhalf (by omega) (by omega)
      · have hz : stride / 2 = 0 := by omega
        rw [group_reduction_loop, if_neg hhalf, reduction_loop, if_pos h0, hz]
        unfold last_stored_value
        rw [if_neg hs]
        cases m <;> simp [reduction_loop]

/-- For a work-group of `2^k` lanes and a store that comes last by lane 0, or by a lane
that has read cell 0 after the last addition of lane 0, the group reduction leaves the sum
of the private values in the buffer. -/
theorem group_reduction_pow (k : Nat) (hk : 2 ^ k < uint_range) (p sh0 : Nat → Int)
    (s : final_store) (hs : ¬ (s.lane ≠ 0 ∧ s.lane < 2 ^ k ∧ s.reads_early = true)) :
    group_reduction (2 ^ k) p sh0 s = some (∑ lid in Finset.range (2 ^ k), p lid) := by
  have hsum := (tree_reduction_pow k hk
    (fun lid => if lid < 2 ^ k then p lid else sh0 lid)).2
  have hcong : ∑ c in Finset.range (2 ^ k), (if c < 2 ^ k then p c else sh0 c)
      = ∑ lid in Finset.range (2 ^ k), p lid := by
    apply Finset.sum_congr rfl
    intro c hc
    simp [Finset.mem_range.mp hc]
  unfold group_reduction
  by_cases hpos : 0 < (2 ^ k / 2) % uint_range
  · rw [if_pos hpos,
      group_reduction_loop_in_step (2 ^ k) s hs 33 32 _ _ hpos
        (Nat.lt_of_lt_of_le (Nat.mod_lt _ (by decide)) (by decide))
        (Nat.lt_of_lt_of_le (Nat.mod_lt _ (by decide)) (by decide)),
      hsum, hcong]
  · rw [if_neg hpos]
    have hz : (2 ^ k / 2) % uint_range = 0 := by omega
    rw [hz] at hsum
    unfold last_stored_value
    rw [if_neg hs, ← hcong, ← hsum]
    simp [reduction_loop]

/-- Without the race of the last store, in step with its design, the code computes the
inner product: for a local size `L = 2^k`, `G + L ≤ 2^32`, stores that come last by lane 0
or by a lane that has read cell 0 after the last addition of lane 0, and a final kernel
that is launched with the `G` groups and the local size of the first one, all loops are
left and the value written is the sequential dot product. -/
theorem inner_prod_two_phase_in_step (N G k fuel : Nat) (x y sh0 buffer0 : Nat → Int)
    (store : Nat → final_store)
    (hG : 1 ≤ G) (hb : G + 2 ^ k ≤ uint_range) (hf : G < fuel)
    (hs : ∀ g, ¬ ((store g).lane ≠ 0 ∧ (store g).lane < 2 ^ k
      ∧ (store g).reads_early = true)) :
    inner_prod_two_phase N G (2 ^ k) store buffer0 G (2 ^ k) fuel x y sh0
      = some (sequential_dot x y N) := by
  have hLpos : 0 < 2 ^ k := Nat.pos_pow_of_pos _ (by decide)
  have hk : 2 ^ k < uint_range := by omega
  have hGL : 0 < G * 2 ^ k := Nat.mul_pos hG hLpos
  have hgroup : ∀ g, group_reduction (2 ^ k)
      (fun lid => private_value N (G * 2 ^ k) (g * 2 ^ k + lid) x y) sh0 (store g)
      = some (∑ lid in Finset.range (2 ^ k),
          private_value N (G * 2 ^ k) (g * 2 ^ k + lid) x y) :=
    fun g => group_reduction_pow k hk _ sh0 (store g) (hs g)
  unfold inner_prod_two_phase
  simp only [hgroup, Option.isSome_some, implies_true, if_true, Option.getD_some]
  unfold final_reduction
  have hexit : ∀ lid, lid < 2 ^ k →
      (final_sum_loop (fun g => if g < G then
          ∑ lid in Finset.range (2 ^ k), private_value N (G * 2 ^ k) (g * 2 ^ k + lid) x y
        else buffer0 g)
        G (2 ^ k) fuel (lid % uint_range) 0).2 = true := by
    intro lid hl
    rw [Nat.mod_eq_of_lt (by omega), final_sum_loop_eq]
    exact (stride_loop_spec G (2 ^ k) hLpos hb fuel lid (by omega) (by omega)).1
  rw [if_pos ⟨hexit, (tree_reduction_pow k hk _).1⟩]
  rw [(tree_reduction_pow k hk _).2]
  congr 1
  have hlane : ∀ lid ∈ Finset.range (2 ^ k),
      (if lid < 2 ^ k then
        (final_sum_loop (fun g => if g < G then
            ∑ lid in Finset.range (2 ^ k), private_value N (G * 2 ^ k) (g * 2 ^ k + lid) x y
          else buffer0 g)
          G (2 ^ k) fuel (lid % uint_range) 0).1 else sh0 lid) =
      ∑ j in (Finset.range G).filter (fun j => j % 2 ^ k = lid),
        ∑ l in Finset.range (2 ^ k), private_value N (G * 2 ^ k) (j * 2 ^ k + l) x y := by
    intro lid hlid
    have hl : lid < 2 ^ k := Finset.mem_range.mp hlid
    rw [if_pos hl, Nat.mod_eq_of_lt (by omega), final_sum_loop_eq]
    simp only [zero_add]
    rw [stride_visits_sum _ G (2 ^ k) hLpos hb fuel lid hf hl]
    apply Finset.sum_congr rfl
    intro j hj
    have hjG : j < G := Finset.mem_range.mp (Finset.mem_filter.mp hj).1
    simp [hjG]
  rw [Finset.sum_congr rfl hlane,
    sum_residue_classes (fun j => ∑ l in Finset.range (2 ^ k),
      private_value N (G * 2 ^ k) (j * 2 ^ k + l) x y) G (2 ^ k) hLpos,
    sum_groups_lanes (fun gid => private_value N (G * 2 ^ k) gid x y) (2 ^ k) G,
    sequential_dot_eq]
  simp only [private_value_eq]
  exact Finset.sum_fiberwise_of_maps_to
    (fun i _ => Finset.mem_range.mpr (Nat.mod_lt i hGL)) (fun i => x i * y i)

/-- C1, evaluation of the code at failing inputs.  For `x = (1, 2, 3, 4)`,
`y = (1, 1, 1, 1)` and one group of four lanes, with a final kernel of one group of four
lanes: when the store of lane 1 to the buffer comes last and lane 1 has read cell 0 before
the last addition of lane 0, from which no barrier separates it, the value written is 4,
the content of cell 0 at the last barrier, while the sequential dot product is 10, which
is written when the store of lane 0 comes last.  With the lanes in step: for `N = 3`, one
group and three lanes, not a power of two, `x = y = (1, 1, 1)`, the loop runs once with
stride 1 and never adds cell 2, and the value written is 2, not 3; for `N = 2`, two groups
of one lane and a final kernel of a single work-group, `get_num_groups(0)` is 1 in the
final kernel, which adds the partial result of group 0 only and writes 1, not 2, while a
final kernel launched with two groups writes 2. -/
theorem inner_prod_two_phase_race :
    (inner_prod_two_phase 4 1 4 (fun _ => ⟨1, true⟩) (fun _ => 0) 1 4 2
        (fun i => (i : Int) + 1) (fun _ => 1) (fun _ => 0) = some 4
      ∧ inner_prod_two_phase 4 1 4 (fun _ => ⟨0, false⟩) (fun _ => 0) 1 4 2
        (fun i => (i : Int) + 1) (fun _ => 1) (fun _ => 0) = some 10
      ∧ sequential_dot (fun i => (i : Int) + 1) (fun _ => 1) 4 = 10
      ∧ group_reduction 4 (fun lid => (lid : Int) + 1) (fun _ => 0) ⟨1, true⟩ = some 4
      ∧ group_reduction 4 (fun lid => (lid : Int) + 1) (fun _ => 0) ⟨1, false⟩ = some 10)
    ∧ (inner_prod_two_phase 3 1 3 (fun _ => ⟨0, false⟩) (fun _ => 0) 1 3 2
        (fun _ => 1) (fun _ => 1) (fun _ => 0) = some 2
      ∧ sequential_dot (fun _ => 1) (fun _ => 1) 3 = 3)
    ∧ (inner_prod_two_phase 2 2 1 (fun _ => ⟨0, false⟩) (fun _ => 0) 1 1 3
        (fun _ => 1) (fun _ => 1) (fun _ => 0) = some 1
      ∧ inner_prod_two_phase 2 2 1 (fun _ => ⟨0, false⟩) (fun _ => 0) 2 1 3
        (fun _ => 1) (fun _ => 1) (fun _ => 0) = some 2
      ∧ sequential_dot (fun _ => 1) (fun _ => 1) 2 = 2) := by
  decide

/-- With `2^32 - 1` groups and two lanes the counter of lane 0 in the final loop stays even
and below `2^32 - 1`: after `2^32 - 2` it wraps around to 0 and the loop is never left. -/
theorem final_sum_loop_wraps (r : Nat → Int) :
    ∀ fuel i s, i % 2 = 0 → i < uint_range →
      (final_sum_loop r 4294967295 2 fuel i s).2 = false := by
  intro fuel
  induction fuel with
  | zero => intro i s _ _; rfl
  | succ n ih =>
    intro i s heven hlt
    have hu : uint_range = 4294967296 := rfl
    have hi : i < 4294967295 := by omega
    simp only [final_sum_loop, hi, if_true]
    apply ih
    · rw [hu]; omega
    · exact Nat.mod_lt _ (by decide)

/-- With `2^32 - 1` groups and a local size of two, a power of two, the final reduction is
not completed whatever the fuel: the counter of its first loop wraps. -/
theorem final_reduction_wraps (fuel : Nat) (r sh0 : Nat → Int) :
    final_reduction 4294967295 2 fuel r sh0 = none := by
  unfold final_reduction
  rw [if_neg]
  intro h
  have h0 := h.1 0 (by decide)
  rw [final_sum_loop_wraps r fuel (0 % uint_range) 0 (by decide) (by decide)] at h0
  exact Bool.false_ne_true h0

/-- C2 (amended): for every problem size `N` and every global size
`G = local_size_0 * num_groups > 0` with `N + G ≤ 2^32`, so that the 32-bit counter `i`
does not wrap around, every work-item `g < G` leaves the emitted loop
`for(unsigned int i = get_global_id(0) ; i < N ; i += get_global_size(0))`, visits no index
twice and visits exactly the indices `g, g+G, g+2G, ... < N`; the index sets of two
work-items are disjoint and their union is `[0, N)`. -/
theorem axpy_grid_stride_coverage (N local_size_0 num_groups fuel : Nat)
    (hG : 0 < local_size_0 * num_groups)
    (hb : N + local_size_0 * num_groups ≤ uint_range) (hf : N < fuel) :
    (∀ g, g < local_size_0 * num_groups →
      (axpy_work_item N (local_size_0 * num_groups) g fuel).2 = true ∧
      (axpy_work_item N (local_size_0 * num_groups) g fuel).1.Nodup ∧
      ∀ i, i ∈ (axpy_work_item N (local_size_0 * num_groups) g fuel).1 ↔
        (i < N ∧ i % (local_size_0 * num_groups) = g)) ∧
    (∀ g g2, g < local_size_0 * num_groups → g2 < local_size_0 * num_groups → g ≠ g2 →
      ∀ i, i ∈ (axpy_work_item N (local_size_0 * num_groups) g fuel).1 →
        i ∉ (axpy_work_item N (local_size_0 * num_groups) g2 fuel).1) ∧
    (∀ i, i < N ↔ ∃ g, g < local_size_0 * num_groups ∧
      i ∈ (axpy_work_item N (local_size_0 * num_groups) g fuel).1) := by
  have key : ∀ g, g < local_size_0 * num_groups →
      (axpy_work_item N (local_size_0 * num_groups) g fuel).2 = true ∧
      (axpy_work_item N (local_size_0 * num_groups) g fuel).1.Nodup ∧
      ∀ i, i ∈ (axpy_work_item N (local_size_0 * num_groups) g fuel).1 ↔
        (i < N ∧ i % (local_size_0 * num_groups) = g) := by
    intro g hg
    unfold axpy_work_item
    rw [Nat.mod_eq_of_lt (by omega)]
    obtain ⟨h1, h2, h3⟩ :=
      stride_loop_spec N (local_size_0 * num_groups) hG hb fuel g (by omega) (by omega)
    refine ⟨h1, h2.imp (fun h => Nat.ne_of_lt h), ?_⟩
    intro i
    rw [h3, Nat.mod_eq_of_lt hg]
    constructor
    · rintro ⟨_, h5, h6⟩; exact ⟨h5, h6⟩
    · rintro ⟨h5, h6⟩
      exact ⟨h6 ▸ Nat.mod_le i _, h5, h6⟩
  refine ⟨key, ?_, ?_⟩
  · intro g g2 hg hg2 hne i hi hi2
    have e1 := ((key g hg).2.2 i).mp hi
    have e2 := ((key g2 hg2).2.2 i).mp hi2
    exact hne (e1.2.symm.trans e2.2)
  · intro i
    constructor
    · intro hi
      exact ⟨i % (local_size_0 * num_groups), Nat.mod_lt i hG,
        ((key _ (Nat.mod_lt i hG)).2.2 i).mpr ⟨hi, rfl⟩⟩
    · rintro ⟨g, hg, hi⟩
      exact (((key g hg).2.2 i).mp hi).1

/-- C2 (amended) at the scenario of the spec: `N = 1000`, local size 64, 4 groups. -/
theorem axpy_grid_stride_coverage_witness :
    (0 < 64 * 4 ∧ 1000 + 64 * 4 ≤ uint_range ∧ 1000 < 1001) ∧
    ∀ i, i < 1000 ↔ ∃ g, g < 64 * 4 ∧ i ∈ (axpy_work_item 1000 (64 * 4) g 1001).1 :=
  ⟨by decide,
   (axpy_grid_stride_coverage 1000 64 4 1001 (by decide) (by decide) (by decide)).2.2⟩

/-- The counter of work-item 0 for `N = 2^32 - 1` and a global size of `2^31` is 0 or
`2^31` at every test, so the loop is never left. -/
theorem axpy_loop_never_left :
    ∀ fuel i, i = 0 ∨ i = 2147483648 →
      (stride_loop 4294967295 2147483648 fuel i).2 = false := by
  intro fuel
  induction fuel with
  | zero => intro i _; rfl
  | succ n ih =>
    intro i hi
    have hu : uint_range = 4294967296 := rfl
    have hlt : i < 4294967295 := by omega
    simp only [stride_loop, hlt, if_true]
    apply ih
    rw [hu]
    omega

/-- C2, as stated, fails when the 32-bit counter wraps around: for `N = 2^32 - 1`, local
size 256 and `2^23` groups (global size `2^31`), work-item 0 runs the body at `i = 0`, at
`i = 2^31` and, after `i += 2^31` has wrapped around, at `i = 0` again; it never leaves the
loop. -/
theorem axpy_grid_stride_wraps :
    0 < 256 * 8388608 ∧
    (axpy_work_item 4294967295 (256 * 8388608) 0 3).1 = [0, 2147483648, 0] ∧
    ∀ fuel, (axpy_work_item 4294967295 (256 * 8388608) 0 fuel).2 = false :=
  ⟨by decide, by decide, fun fuel => axpy_loop_never_left fuel 0 (Or.inl rfl)⟩

end viennacl

/-! ## `vector_axpy_template::core` -/

namespace viennacl.device_specific

/-- Two writes to the stream are one write of both texts. -/
theorem put_put (s : kernel_generation_stream) (a b : List code_line) :
    (s.put a).put b = s.put (a ++ b) := by
  simp [kernel_generation_stream.put, List.append_assoc]

/-- Writing nothing leaves the stream as it is. -/
theorem put_nil (s : kernel_generation_stream) : s.put [] = s := by
  simp [kernel_generation_stream.put]

/-- The element behind a list of length `n` is at index `n`. -/
theorem getElem?_length_append {α : Type} (pre : List α) (x : α) (rest : List α) :
    (pre ++ x :: rest)[pre.length]? = some x := by
  induction pre with
  | nil => simp
  | cons a l ih => simpa using ih

/-- Effects run one after the other. -/
theorem exec_append (tp : tree_parsing) (sc : statements_container)
    (mapping : List mapping_type) :
    ∀ (a b : List action) (st : gen_state),
      exec tp sc mapping (a ++ b) st =
        (exec tp sc mapping a st).bind (exec tp sc mapping b) := by
  intro a
  induction a with
  | nil => intro b st; rfl
  | cons x xs ih =>
    intro b st
    simp only [List.cons_append, exec]
    cases exec_action tp sc mapping st x with
    | none => rfl
    | some st1 => exact ih b st1

/-- The fetch loop, run from the iterator position `pre.length` on the statements `rest`
with the mappings `mrest` at the same positions, writes `fetch_output`. -/
theorem exec_fetch_loop (tp : tree_parsing) (sc : statements_container)
    (mapping : List mapping_type) (lhs rhs : String) :
    ∀ (rest : List statement) (mrest : List mapping_type) (pre : List statement)
      (mpre : List mapping_type) (st : gen_state),
      sc.data = pre ++ rest → mapping = mpre ++ mrest → pre.length = mpre.length →
      rest.length ≤ mrest.length →
      exec tp sc mapping (fetch_loop lhs rhs pre.length rest) st =
        some ⟨st.stream.put (fetch_output tp lhs rhs (rest.zip mrest) st.cache).1,
              (fetch_output tp lhs rhs (rest.zip mrest) st.cache).2⟩ := by
  intro rest
  induction rest with
  | nil =>
    intro mrest pre mpre st _ _ _ _
    simp [fetch_loop, exec, fetch_output, put_nil]
  | cons s rest ih =>
    intro mrest pre mpre st hd hm hl hlen
    cases mrest with
    | nil => simp at hlen
    | cons m mrest =>
      have hs : sc.data[pre.length]? = some s := by
        rw [hd]; exact getElem?_length_append pre s rest
      have hmm : mapping[pre.length]? = some m := by
        rw [hm, hl]; exact getElem?_length_append mpre m mrest
      have hrec := ih mrest (pre ++ [s]) (mpre ++ [m])
      simp only [List.length_append, List.length_singleton] at hrec
      simp only [fetch_loop, exec, exec_action, hs, hmm]
      rw [hrec _ (by simp [hd]) (by simp [hm]) (by omega)
        (by simpa using hlen)]
      simp only [List.zip_cons_cons, fetch_output, put_put, List.append_assoc]
      rfl

/-- The counter of the evaluation loop is not above the position of the iterator. -/
theorem counter_step_le (i k : Nat) (h : i ≤ k) : (i + 1) % uint_range ≤ k + 1 :=
  Nat.le_trans (Nat.mod_le _ _) (by omega)

/-- The evaluation loop, run from the iterator position `pre.length` and a counter `i` that
is not above it, writes the `evaluate_output` of the statements with the mappings read at
the counter, and leaves the cache as it is. -/
theorem exec_evaluate_loop (tp : tree_parsing) (sc : statements_container)
    (mapping : List mapping_type) :
    ∀ (rest : List statement) (pre : List statement) (i : Nat) (st : gen_state),
      sc.data = pre ++ rest → i ≤ pre.length → pre.length + rest.length ≤ mapping.length →
      exec tp sc mapping (evaluate_loop pre.length i rest) st =
        some ⟨st.stream.put (evaluate_output tp (evaluate_pairs mapping i rest)),
              st.cache⟩ := by
  intro rest
  induction rest with
  | nil =>
    intro pre i st _ _ _
    simp [evaluate_loop, exec, evaluate_output, evaluate_pairs, put_nil]
  | cons s rest ih =>
    intro pre i st hd hi hlen
    have hs : sc.data[pre.length]? = some s := by
      rw [hd]; exact getElem?_length_append pre s rest
    have hlt : i < mapping.length := by
      simp only [List.length_cons] at hlen
      omega
    have hmm : mapping[i]? = some (mapping.get ⟨i, hlt⟩) := by
      simp [List.getElem?_eq_getElem hlt]
    have hrec := ih (pre ++ [s]) ((i + 1) % uint_range)
    simp only [List.length_append, List.length_singleton] at hrec
    simp only [evaluate_loop, exec, exec_action, hs, hmm, evaluate_pairs]
    rw [hrec _ (by simp [hd]) (counter_step_le i pre.length hi)
      (by simp only [List.length_cons] at hlen; omega)]
    simp [evaluate_output, put_put]

/-- The statements of `evaluate_pairs` are the statements of the loop, when the mapping
vector has an entry for every statement. -/
theorem evaluate_pairs_fst (mapping : List mapping_type) :
    ∀ (rest : List statement) (k i : Nat), i ≤ k → k + rest.length ≤ mapping.length →
      (evaluate_pairs mapping i rest).map Prod.fst = rest := by
  intro rest
  induction rest with
  | nil => intro k i _ _; rfl
  | cons s rest ih =>
    intro k i hi hlen
    have hlt : i < mapping.length := by
      simp only [List.length_cons] at hlen
      omega
    have hmm : mapping[i]? = some (mapping.get ⟨i, hlt⟩) := by
      simp [List.getElem?_eq_getElem hlt]
    simp only [evaluate_pairs, hmm, List.map_cons]
    rw [ih (k + 1) _ (counter_step_le i k hi)
      (by simp only [List.length_cons] at hlen; omega)]

/-- The write-back loop, run from the iterator position `pre.length`, writes
`write_back_output`. -/
theorem exec_write_back_loop (tp : tree_parsing) (sc : statements_container)
    (mapping : List mapping_type) (lhs : String) :
    ∀ (rest : List statement) (mrest : List mapping_type) (pre : List statement)
      (mpre : List mapping_type) (st : gen_state),
      sc.data = pre ++ rest → mapping = mpre ++ mrest → pre.length = mpre.length →
      rest.length ≤ mrest.length →
      exec tp sc mapping (write_back_loop lhs pre.length rest) st =
        some ⟨st.stream.put (write_back_output tp lhs (rest.zip mrest) st.cache).1,
              (write_back_output tp lhs (rest.zip mrest) st.cache).2⟩ := by
  intro rest
  induction rest with
  | nil =>
    intro mrest pre mpre st _ _ _ _
    simp [write_back_loop, exec, write_back_output, put_nil]
  | cons s rest ih =>
    intro mrest pre mpre st hd hm hl hlen
    cases mrest with
    | nil => simp at hlen
    | cons m mrest =>
      have hs : sc.data[pre.length]? = some s := by
        rw [hd]; exact getElem?_length_append pre s rest
      have hmm : mapping[pre.length]? = some m := by
        rw [hm, hl]; exact getElem?_length_append mpre m mrest
      have hrec := ih mrest (pre ++ [s]) (mpre ++ [m])
      simp only [List.length_append, List.length_singleton] at hrec
      simp only [write_back_loop, exec, exec_action, hs, hmm]
      rw [hrec _ (by simp [hd]) (by simp [hm]) (by omega)
        (by simpa using hlen)]
      simp only [List.zip_cons_cons, write_back_output, put_put]
      rfl

/-- The state in which the effects of `core` leave the stream and the cache. -/
theorem exec_core_actions (tp : tree_parsing) (stream : kernel_generation_stream)
    (sc : statements_container) (mapping : List mapping_type)
    (h : sc.data.length ≤ mapping.length) :
    exec tp sc mapping (core_actions sc) ⟨stream, []⟩ =
      some ⟨⟨stream.tab_count + 1 - 1,
        stream.lines ++
        [(stream.tab_count, code_line.text
            "for(unsigned int i = get_global_id(0) ; i < N ; i += get_global_size(0))"),
         (stream.tab_count, code_line.text "\x7b")] ++
        ((fetch_output tp (lhs_suffix sc) rhs_suffix (sc.data.zip mapping) []).1 ++
          evaluate_output tp (evaluate_pairs mapping 0 sc.data) ++
          (write_back_output tp (lhs_suffix sc) (sc.data.zip mapping)
            (fetch_output tp (lhs_suffix sc) rhs_suffix (sc.data.zip mapping) []).2).1).map
          (fun l => (stream.tab_count + 1, l)) ++
        [(stream.tab_count + 1 - 1, code_line.text "\x7d")]⟩,
        (write_back_output tp (lhs_suffix sc) (sc.data.zip mapping)
            (fetch_output tp (lhs_suffix sc) rhs_suffix (sc.data.zip mapping) []).2).2⟩ := by
  have hf : ∀ st, exec tp sc mapping (fetch_loop (lhs_suffix sc) rhs_suffix 0 sc.data) st =
      some ⟨st.stream.put
              (fetch_output tp (lhs_suffix sc) rhs_suffix (sc.data.zip mapping) st.cache).1,
            (fetch_output tp (lhs_suffix sc) rhs_suffix (sc.data.zip mapping) st.cache).2⟩ :=
    fun st => exec_fetch_loop tp sc mapping (lhs_suffix sc) rhs_suffix sc.data mapping [] []
      st rfl rfl rfl h
  have he : ∀ st, exec tp sc mapping (evaluate_loop 0 0 sc.data) st =
      some ⟨st.stream.put (evaluate_output tp (evaluate_pairs mapping 0 sc.data)),
            st.cache⟩ :=
    fun st => exec_evaluate_loop tp sc mapping sc.data [] 0 st rfl (Nat.le_refl _)
      (by simpa using h)
  have hw : ∀ st, exec tp sc mapping (write_back_loop (lhs_suffix sc) 0 sc.data) st =
      some ⟨st.stream.put
              (write_back_output tp (lhs_suffix sc) (sc.data.zip mapping) st.cache).1,
            (write_back_output tp (lhs_suffix sc) (sc.data.zip mapping) st.cache).2⟩ :=
    fun st => exec_write_back_loop tp sc mapping (lhs_suffix sc) sc.data mapping [] []
      st rfl rfl rfl h
  unfold core_actions
  rw [exec_append, exec_append, exec_append, exec_append]
  simp only [exec, exec_action, Option.bind_eq_bind, Option.some_bind, hf, he, hw]
  simp [kernel_generation_stream.put, kernel_generation_stream.inc_tab,
    kernel_generation_stream.dec_tab, List.append_assoc]


/-- C3: for every statement container with `n` statements, every pair of traversal
functions and every mapping vector with at least `n` entries, `core` returns the stream
extended by the loop header, an opening brace and then, one indent level deeper and in this
order, the fetch output of all statements (for each statement in container order the
left-hand side, then the right-hand side), the `n` evaluated expressions in container
order, each followed by ';' on a line of its own, and the write-back output of all
statements in container order, followed by the closing brace.  The evaluated statements,
each with the mapping read at the counter of the loop, are the `n` statements of the
container, in its order. -/
theorem core_phase_order (tp : tree_parsing) (stream : kernel_generation_stream)
    (sc : statements_container) (mapping : List mapping_type)
    (h : sc.data.length ≤ mapping.length) :
    (evaluate_pairs mapping 0 sc.data).map Prod.fst = sc.data ∧
    core tp stream sc mapping =
      some ⟨stream.tab_count + 1 - 1,
        stream.lines ++
        [(stream.tab_count, code_line.text
            "for(unsigned int i = get_global_id(0) ; i < N ; i += get_global_size(0))"),
         (stream.tab_count, code_line.text "\x7b")] ++
        ((fetch_output tp (lhs_suffix sc) rhs_suffix (sc.data.zip mapping) []).1 ++
          evaluate_output tp (evaluate_pairs mapping 0 sc.data) ++
          (write_back_output tp (lhs_suffix sc) (sc.data.zip mapping)
            (fetch_output tp (lhs_suffix sc) rhs_suffix (sc.data.zip mapping) []).2).1).map
          (fun l => (stream.tab_count + 1, l)) ++
        [(stream.tab_count + 1 - 1, code_line.text "\x7d")]⟩ := by
  refine ⟨evaluate_pairs_fst mapping sc.data 0 0 (Nat.le_refl _) (by simpa using h), ?_⟩
  unfold core
  rw [exec_core_actions tp stream sc mapping h]
  rfl

/-- C3 at the container holding `y = a*x + y`, with the traversals of the spec: the body is
the load of `y`, the loads of `a` and `x`, the expression and the store of `y`. -/
theorem core_phase_order_witness :
    [axpy_statement].length ≤ [axpy_mapping].length ∧
    core (spec_tree_parsing (fun _ _ _ _ _ _ => "obj0_tmp = obj1_reg * obj2_reg + obj0_tmp"))
        ⟨0, []⟩ ⟨[axpy_statement], order_type.INDEPENDENT⟩ [axpy_mapping] =
      some ⟨0,
        [(0, code_line.text
            "for(unsigned int i = get_global_id(0) ; i < N ; i += get_global_size(0))"),
         (0, code_line.text "\x7b"),
         (1, code_line.load "obj0" "tmp" ⟨"i", "N"⟩),
         (1, code_line.load "obj1" "reg" ⟨"i", "N"⟩),
         (1, code_line.load "obj2" "reg" ⟨"i", "N"⟩),
         (1, code_line.text "obj0_tmp = obj1_reg * obj2_reg + obj0_tmp;"),
         (1, code_line.store "obj0" "tmp" ⟨"i", "N"⟩),
         (0, code_line.text "\x7d")]⟩ :=
  ⟨by decide,
   (core_phase_order
      (spec_tree_parsing (fun _ _ _ _ _ _ => "obj0_tmp = obj1_reg * obj2_reg + obj0_tmp"))
      ⟨0, []⟩ ⟨[axpy_statement], order_type.INDEPENDENT⟩ [axpy_mapping] (by decide)).2.trans
    (by decide)⟩


/-- The calls of the fetch loop: for every iterator position `k` the fetch of the left-hand
side with the left suffix and the fetch of the right-hand side with the right suffix, both
with the mapping index `k`. -/
theorem mem_fetch_loop (lhs rhs : String) (a : action) :
    ∀ (l : List statement) (k0 : Nat), a ∈ fetch_loop lhs rhs k0 l ↔
      ∃ k, k0 ≤ k ∧ k < k0 + l.length ∧
        (a = action.read_write mode_t.FETCH lhs k ⟨"i", "N"⟩ k node_type.LHS_NODE_TYPE ∨
         a = action.read_write mode_t.FETCH rhs k ⟨"i", "N"⟩ k node_type.RHS_NODE_TYPE) := by
  intro l
  induction l with
  | nil => intro k0; simp [fetch_loop]; intro k h1 h2; omega
  | cons s rest ih =>
    intro k0
    simp only [fetch_loop, List.mem_cons, ih, List.length_cons]
    constructor
    · rintro (h | h | ⟨k, h1, h2, h3⟩)
      · exact ⟨k0, le_refl _, by omega, Or.inl h⟩
      · exact ⟨k0, le_refl _, by omega, Or.inr h⟩
      · exact ⟨k, by omega, by omega, h3⟩
    · rintro ⟨k, h1, h2, h3⟩
      by_cases hk : k = k0
      · subst hk
        rcases h3 with h3 | h3
        · exact Or.inl h3
        · exact Or.inr (Or.inl h3)
      · exact Or.inr (Or.inr ⟨k, by omega, by omega, h3⟩)

/-- The calls of the evaluation loop from a counter `i0` reduced to the range of
`unsigned int`: the statement at position `k0 + j` is evaluated with the mapping index
`(i0 + j) % uint_range`. -/
theorem mem_evaluate_loop_from (a : action) :
    ∀ (l : List statement) (k0 i0 : Nat), a ∈ evaluate_loop k0 (i0 % uint_range) l ↔
      ∃ j, j < l.length ∧
        a = action.evaluate_expression (k0 + j) ⟨"i", "N"⟩ (-1) ((i0 + j) % uint_range)
          node_type.PARENT_NODE_TYPE := by
  intro l
  induction l with
  | nil => intro k0 i0; simp [evaluate_loop]
  | cons s rest ih =>
    intro k0 i0
    have e : (i0 % uint_range + 1) % uint_range = (i0 + 1) % uint_range := by
      unfold uint_range; omega
    simp only [evaluate_loop, List.mem_cons, e, ih, List.length_cons]
    constructor
    · rintro (h | ⟨j, h1, h2⟩)
      · exact ⟨0, by omega, by simpa using h⟩
      · refine ⟨j + 1, by omega, ?_⟩
        rw [h2]
        have e1 : k0 + 1 + j = k0 + (j + 1) := by omega
        have e2 : i0 + 1 + j = i0 + (j + 1) := by omega
        rw [e1, e2]
    · rintro ⟨j, h1, h2⟩
      cases j with
      | zero => exact Or.inl (by simpa using h2)
      | succ j =>
        refine Or.inr ⟨j, by omega, ?_⟩
        rw [h2]
        have e1 : k0 + 1 + j = k0 + (j + 1) := by omega
        have e2 : i0 + 1 + j = i0 + (j + 1) := by omega
        rw [e1, e2]

/-- The calls of the evaluation loop from the counter 0: the statement at position
`k0 + j` is evaluated with the mapping index `j % uint_range`. -/
theorem mem_evaluate_loop (a : action) (l : List statement) (k0 : Nat) :
    a ∈ evaluate_loop k0 0 l ↔
      ∃ j, j < l.length ∧
        a = action.evaluate_expression (k0 + j) ⟨"i", "N"⟩ (-1) (j % uint_range)
          node_type.PARENT_NODE_TYPE := by
  have h := mem_evaluate_loop_from a l k0 0
  simpa using h

/-- The calls of the write-back loop: for every iterator position `k` the write-back of the
left-hand side with the left suffix and the mapping index `k`. -/
theorem mem_write_back_loop (lhs : String) (a : action) :
    ∀ (l : List statement) (k0 : Nat), a ∈ write_back_loop lhs k0 l ↔
      ∃ k, k0 ≤ k ∧ k < k0 + l.length ∧
        a = action.read_write mode_t.WRITE_BACK lhs k ⟨"i", "N"⟩ k
          node_type.LHS_NODE_TYPE := by
  intro l
  induction l with
  | nil => intro k0; simp [write_back_loop]; intro k h1 h2; omega
  | cons s rest ih =>
    intro k0
    simp only [write_back_loop, List.mem_cons, ih, List.length_cons]
    constructor
    · rintro (h | ⟨k, h1, h2, h3⟩)
      · exact ⟨k0, le_refl _, by omega, h⟩
      · exact ⟨k, by omega, by omega, h3⟩
    · rintro ⟨k, h1, h2, h3⟩
      by_cases hk : k = k0
      · subst hk; exact Or.inl h3
      · exact Or.inr ⟨k, by omega, by omega, h3⟩

/-- The calls of `read_write` among the effects of `core`. -/
theorem mem_core_actions_read_write (sc : statements_container) (mode : mode_t)
    (suffix : String) (k : Nat) (index : index_tuple) (mi : Nat) (leaf : node_type) :
    action.read_write mode suffix k index mi leaf ∈ core_actions sc ↔
      k < sc.data.length ∧ mi = k ∧ index = ⟨"i", "N"⟩ ∧
      ((mode = mode_t.FETCH ∧ suffix = lhs_suffix sc ∧ leaf = node_type.LHS_NODE_TYPE) ∨
       (mode = mode_t.FETCH ∧ suffix = rhs_suffix ∧ leaf = node_type.RHS_NODE_TYPE) ∨
       (mode = mode_t.WRITE_BACK ∧ suffix = lhs_suffix sc ∧
          leaf = node_type.LHS_NODE_TYPE)) := by
  unfold core_actions
  simp only [List.mem_append, List.mem_cons, mem_fetch_loop, mem_evaluate_loop,
    mem_write_back_loop, List.mem_singleton, List.not_mem_nil, or_false, false_or,
    action.read_write.injEq, reduceCtorEq, zero_add, and_false, exists_false, exists_const]
  constructor
  · rintro (⟨j, _, h2, h3⟩ | ⟨j, _, h2, h3⟩)
    · rcases h3 with ⟨h4, h5, rfl, h7, rfl, h9⟩ | ⟨h4, h5, rfl, h7, rfl, h9⟩
      · exact ⟨h2, rfl, h7, Or.inl ⟨h4, h5, h9⟩⟩
      · exact ⟨h2, rfl, h7, Or.inr (Or.inl ⟨h4, h5, h9⟩)⟩
    · obtain ⟨h4, h5, rfl, h7, rfl, h9⟩ := h3
      exact ⟨h2, rfl, h7, Or.inr (Or.inr ⟨h4, h5, h9⟩)⟩
  · rintro ⟨h1, rfl, h3, (⟨h4, h5, h6⟩ | ⟨h4, h5, h6⟩ | ⟨h4, h5, h6⟩)⟩
    · exact Or.inl ⟨mi, Nat.zero_le _, h1, Or.inl ⟨h4, h5, rfl, h3, rfl, h6⟩⟩
    · exact Or.inl ⟨mi, Nat.zero_le _, h1, Or.inr ⟨h4, h5, rfl, h3, rfl, h6⟩⟩
    · exact Or.inr ⟨mi, Nat.zero_le _, h1, h4, h5, rfl, h3, rfl, h6⟩

/-- C4 (amended): in `core`, every call of `read_write` on a right-hand side is a fetch
with the register suffix "reg"; every call on a left-hand side, fetch or write-back, has
the suffix "tmp" when the ordering mode of the container is INDEPENDENT and the shared
suffix "reg" when it is SEQUENTIAL; for every statement of the container the left-hand
side is fetched and written back and the right-hand side is fetched under this policy,
which is the same for all statements. -/
theorem core_register_suffixes (sc : statements_container) :
    (∀ mode suffix k index mi leaf,
      action.read_write mode suffix k index mi leaf ∈ core_actions sc →
        (leaf = node_type.RHS_NODE_TYPE → mode = mode_t.FETCH ∧ suffix = "reg") ∧
        (leaf = node_type.LHS_NODE_TYPE →
          suffix = if sc.order = order_type.INDEPENDENT then "tmp" else "reg") ∧
        leaf ≠ node_type.PARENT_NODE_TYPE) ∧
    (∀ k, k < sc.data.length →
      action.read_write mode_t.FETCH
          (if sc.order = order_type.INDEPENDENT then "tmp" else "reg") k ⟨"i", "N"⟩ k
          node_type.LHS_NODE_TYPE ∈ core_actions sc ∧
      action.read_write mode_t.FETCH "reg" k ⟨"i", "N"⟩ k
          node_type.RHS_NODE_TYPE ∈ core_actions sc ∧
      action.read_write mode_t.WRITE_BACK
          (if sc.order = order_type.INDEPENDENT then "tmp" else "reg") k ⟨"i", "N"⟩ k
          node_type.LHS_NODE_TYPE ∈ core_actions sc) := by
  constructor
  · intro mode suffix k index mi leaf hmem
    rw [mem_core_actions_read_write] at hmem
    obtain ⟨_, _, _, (⟨h4, h5, h6⟩ | ⟨h4, h5, h6⟩ | ⟨h4, h5, h6⟩)⟩ := hmem
    · subst h6
      refine ⟨?_, ?_, ?_⟩
      · intro hc; cases hc
      · intro _; rw [h5]; rfl
      · intro hc; cases hc
    · subst h6
      refine ⟨?_, ?_, ?_⟩
      · intro _; exact ⟨h4, h5⟩
      · intro hc; cases hc
      · intro hc; cases hc
    · subst h6
      refine ⟨?_, ?_, ?_⟩
      · intro hc; cases hc
      · intro _; rw [h5]; rfl
      · intro hc; cases hc
  · intro k hk
    refine ⟨?_, ?_, ?_⟩
    · exact (mem_core_actions_read_write sc _ _ _ _ _ _).mpr
        ⟨hk, rfl, rfl, Or.inl ⟨rfl, rfl, rfl⟩⟩
    · exact (mem_core_actions_read_write sc _ _ _ _ _ _).mpr
        ⟨hk, rfl, rfl, Or.inr (Or.inl ⟨rfl, rfl, rfl⟩)⟩
    · exact (mem_core_actions_read_write sc _ _ _ _ _ _).mpr
        ⟨hk, rfl, rfl, Or.inr (Or.inr ⟨rfl, rfl, rfl⟩)⟩

/-- C4, as stated, fails in both ordering modes: for a SEQUENTIAL container with the one
statement `y = a*x + y` the left-hand side is fetched and written back with the suffix
"reg", not "tmp", and for an INDEPENDENT container with "tmp", not "reg". -/
theorem core_suffixes_by_order :
    core_actions ⟨[axpy_statement], order_type.SEQUENTIAL⟩ =
      [action.put "for(unsigned int i = get_global_id(0) ; i < N ; i += get_global_size(0))",
       action.put "\x7b",
       action.inc_tab,
       action.read_write mode_t.FETCH "reg" 0 ⟨"i", "N"⟩ 0 node_type.LHS_NODE_TYPE,
       action.read_write mode_t.FETCH "reg" 0 ⟨"i", "N"⟩ 0 node_type.RHS_NODE_TYPE,
       action.evaluate_expression 0 ⟨"i", "N"⟩ (-1) 0 node_type.PARENT_NODE_TYPE,
       action.read_write mode_t.WRITE_BACK "reg" 0 ⟨"i", "N"⟩ 0 node_type.LHS_NODE_TYPE,
       action.dec_tab,
       action.put "\x7d"] ∧
    core_actions ⟨[axpy_statement], order_type.INDEPENDENT⟩ =
      [action.put "for(unsigned int i = get_global_id(0) ; i < N ; i += get_global_size(0))",
       action.put "\x7b",
       action.inc_tab,
       action.read_write mode_t.FETCH "tmp" 0 ⟨"i", "N"⟩ 0 node_type.LHS_NODE_TYPE,
       action.read_write mode_t.FETCH "reg" 0 ⟨"i", "N"⟩ 0 node_type.RHS_NODE_TYPE,
       action.evaluate_expression 0 ⟨"i", "N"⟩ (-1) 0 node_type.PARENT_NODE_TYPE,
       action.read_write mode_t.WRITE_BACK "tmp" 0 ⟨"i", "N"⟩ 0 node_type.LHS_NODE_TYPE,
       action.dec_tab,
       action.put "\x7d"] := by
  decide


/-- The loads among lines written at one indent level. -/
theorem loads_of_map (name : String) (t : Nat) (ls : List code_line) :
    loads_of name (ls.map (fun l => (t, l))) =
      (ls.filter (is_load name)).map (fun l => (t, l)) := by
  induction ls with
  | nil => rfl
  | cons a l ih =>
    by_cases h : is_load name a = true
    · simp only [loads_of, List.map_cons, List.filter_cons, h, if_true] at ih ⊢
      rw [ih]
    · simp only [loads_of, List.map_cons, List.filter_cons, h] at ih ⊢
      exact ih

/-- The fetch of the spec loads no operand that is in the cache, loads every operand at most
once, keeps the cache and puts every operand it loads into the cache. -/
theorem fetch_loads (suffix : String) (index : index_tuple) (m : mapping_type) :
    ∀ (hs : List Nat) (cache : List String),
      (∀ n, n ∈ cache → (fetch suffix index m hs cache).1.filter (is_load n) = []) ∧
      (∀ n, ((fetch suffix index m hs cache).1.filter (is_load n)).length ≤ 1) ∧
      (∀ n, n ∈ cache → n ∈ (fetch suffix index m hs cache).2) ∧
      (∀ n, (fetch suffix index m hs cache).1.filter (is_load n) ≠ [] →
        n ∈ (fetch suffix index m hs cache).2) := by
  intro hs
  induction hs with
  | nil =>
    intro cache
    simp [fetch]
  | cons h rest ih =>
    intro cache
    cases hl : m.lookup h with
    | none =>
      simp only [fetch, hl]
      exact ih cache
    | some o =>
      by_cases hc : o.name ∈ cache
      · simp only [fetch, hl, hc, if_true]
        exact ih cache
      · simp only [fetch, hl, hc, if_false]
        obtain ⟨h1, h2, h3, h4⟩ := ih (o.name :: cache)
        refine ⟨?_, ?_, ?_, ?_⟩
        · intro n hn
          have hne : o.name ≠ n := fun e => hc (e ▸ hn)
          simp only [List.filter_cons, is_load, decide_eq_true_eq, hne, if_false]
          exact h1 n (List.mem_cons_of_mem _ hn)
        · intro n
          by_cases hne : o.name = n
          · simp only [List.filter_cons, is_load, decide_eq_true_eq, hne, if_true,
              List.length_cons]
            have e := h1 n (by rw [hne]; exact List.mem_cons_self _ _)
            rw [hne] at e
            rw [e]
            simp
          · simp only [List.filter_cons, is_load, decide_eq_true_eq, hne, if_false]
            exact h2 n
        · intro n hn
          exact h3 n (List.mem_cons_of_mem _ hn)
        · intro n hn
          by_cases hne : o.name = n
          · exact h3 n (by rw [hne]; exact List.mem_cons_self _ _)
          · simp only [List.filter_cons, is_load, decide_eq_true_eq, hne, if_false] at hn
            exact h4 n hn

/-- The write-back of the spec writes no load. -/
theorem write_back_loads (suffix : String) (index : index_tuple) (m : mapping_type)
    (n : String) :
    ∀ hs : List Nat, (write_back suffix index m hs).filter (is_load n) = [] := by
  intro hs
  induction hs with
  | nil => rfl
  | cons h rest ih =>
    cases hl : m.lookup h with
    | none => simp only [write_back, hl]; exact ih
    | some o => simp only [write_back, hl, List.filter_cons, is_load]; exact ih

/-- One effect of `core`, run with the `read_write` of the spec: the lines it adds hold no
load of an operand of the cache and at most one load of any operand; the cache keeps its
entries and gains every operand that was loaded. -/
theorem exec_action_loads
    (ev : statement → Nat → index_tuple → Int → mapping_type → node_type → String)
    (sc : statements_container) (mapping : List mapping_type) (st st1 : gen_state)
    (a : action) (h : exec_action (spec_tree_parsing ev) sc mapping st a = some st1) :
    ∃ added, st1.stream.lines = st.stream.lines ++ added ∧
      (∀ n, n ∈ st.cache → loads_of n added = []) ∧
      (∀ n, (loads_of n added).length ≤ 1) ∧
      (∀ n, n ∈ st.cache → n ∈ st1.cache) ∧
      (∀ n, loads_of n added ≠ [] → n ∈ st1.cache) := by
  cases a with
  | put t =>
    simp only [exec_action, Option.some.injEq] at h
    subst h
    exact ⟨[(st.stream.tab_count, code_line.text t)], rfl, by simp [loads_of, is_load],
      by simp [loads_of, is_load], fun _ hn => hn, by simp [loads_of, is_load]⟩
  | inc_tab =>
    simp only [exec_action, Option.some.injEq] at h
    subst h
    exact ⟨[], by simp [kernel_generation_stream.inc_tab], by simp [loads_of],
      by simp [loads_of], fun _ hn => hn, by simp [loads_of]⟩
  | dec_tab =>
    simp only [exec_action, Option.some.injEq] at h
    subst h
    exact ⟨[], by simp [kernel_generation_stream.dec_tab], by simp [loads_of],
      by simp [loads_of], fun _ hn => hn, by simp [loads_of]⟩
  | evaluate_expression k index temporary mi leaf =>
    simp only [exec_action] at h
    cases hs : sc.data[k]? with
    | none => simp [hs] at h
    | some s =>
      cases hm : mapping[mi]? with
      | none => simp [hs, hm] at h
      | some m =>
        simp only [hs, hm, Option.some.injEq] at h
        subst h
        exact ⟨_, rfl, by simp [loads_of, is_load], by simp [loads_of, is_load],
          fun _ hn => hn, by simp [loads_of, is_load]⟩
  | read_write mode suffix k index mi leaf =>
    simp only [exec_action] at h
    cases hs : sc.data[k]? with
    | none => simp [hs] at h
    | some s =>
      cases hm : mapping[mi]? with
      | none => simp [hs, hm] at h
      | some m =>
        simp only [hs, hm, Option.some.injEq] at h
        subst h
        cases mode with
        | FETCH =>
          obtain ⟨h1, h2, h3, h4⟩ :=
            fetch_loads suffix index m (visited_leaves s s.root leaf) st.cache
          refine ⟨_, rfl, ?_, ?_, ?_, ?_⟩
          · intro n hn
            rw [loads_of_map]
            simp only [spec_tree_parsing, spec_read_write]
            rw [h1 n hn]; rfl
          · intro n
            rw [loads_of_map, List.length_map]
            exact h2 n
          · intro n hn
            exact h3 n hn
          · intro n hn
            rw [loads_of_map] at hn
            apply h4 n
            intro he
            apply hn
            simp only [spec_tree_parsing, spec_read_write]
            rw [he]; rfl
        | WRITE_BACK =>
          have hw := write_back_loads suffix index m
          refine ⟨_, rfl, ?_, ?_, ?_, ?_⟩
          · intro n _
            rw [loads_of_map]
            simp only [spec_tree_parsing, spec_read_write]
            rw [hw n]; rfl
          · intro n
            rw [loads_of_map]
            simp only [spec_tree_parsing, spec_read_write]
            rw [hw n]; simp
          · intro n hn
            exact hn
          · intro n hn
            rw [loads_of_map] at hn
            exfalso
            apply hn
            simp only [spec_tree_parsing, spec_read_write]
            rw [hw n]; rfl

/-- A sequence of effects of `core`, run with the `read_write` of the spec: the lines it
adds hold no load of an operand of the cache and at most one load of any operand. -/
theorem exec_loads
    (ev : statement → Nat → index_tuple → Int → mapping_type → node_type → String)
    (sc : statements_container) (mapping : List mapping_type) :
    ∀ (acts : List action) (st st2 : gen_state),
      exec (spec_tree_parsing ev) sc mapping acts st = some st2 →
      ∃ added, st2.stream.lines = st.stream.lines ++ added ∧
        (∀ n, n ∈ st.cache → loads_of n added = []) ∧
        (∀ n, (loads_of n added).length ≤ 1) ∧
        (∀ n, n ∈ st.cache → n ∈ st2.cache) ∧
        (∀ n, loads_of n added ≠ [] → n ∈ st2.cache) := by
  intro acts
  induction acts with
  | nil =>
    intro st st2 h
    simp only [exec, Option.some.injEq] at h
    subst h
    exact ⟨[], by simp, by simp [loads_of], by simp [loads_of], fun _ hn => hn,
      by simp [loads_of]⟩
  | cons a rest ih =>
    intro st st2 h
    simp only [exec] at h
    cases h1 : exec_action (spec_tree_parsing ev) sc mapping st a with
    | none => simp [h1] at h
    | some st1 =>
      simp only [h1] at h
      obtain ⟨a1, e1, p1, q1, r1, s1⟩ := exec_action_loads ev sc mapping st st1 a h1
      obtain ⟨a2, e2, p2, q2, r2, s2⟩ := ih st1 st2 h
      have happ : ∀ n, loads_of n (a1 ++ a2) = loads_of n a1 ++ loads_of n a2 :=
        fun n => List.filter_append _ _
      refine ⟨a1 ++ a2, by rw [e2, e1, List.append_assoc], ?_, ?_, ?_, ?_⟩
      · intro n hn
        rw [happ, p1 n hn, p2 n (r1 n hn)]; rfl
      · intro n
        rw [happ, List.length_append]
        by_cases hl : loads_of n a1 = []
        · rw [hl]; simpa using q2 n
        · rw [p2 n (s1 n hl)]; simpa using q1 n
      · intro n hn
        exact r2 n (r1 n hn)
      · intro n hn
        rw [happ] at hn
        by_cases hl : loads_of n a1 = []
        · rw [hl] at hn
          exact s2 n (by simpa using hn)
        · exact r2 n (s1 n hl)

/-- C5: for every statement container, in both ordering modes, and every mapping vector
with an entry for each statement, `core`, run with `read_write` as the spec describes it,
starts from one empty register cache shared by the fetches of all statements and returns
the stream extended by a kernel body that holds, for every operand name, at most one load:
each distinct operand is loaded at most once, whatever the number of statements that
refer to it and whether it is a left-hand side, a right-hand side or both. -/
theorem core_fetch_once
    (ev : statement → Nat → index_tuple → Int → mapping_type → node_type → String)
    (stream : kernel_generation_stream) (sc : statements_container)
    (mapping : List mapping_type) (h : sc.data.length ≤ mapping.length) :
    ∃ out body, core (spec_tree_parsing ev) stream sc mapping = some out ∧
      out.lines = stream.lines ++ body ∧
      ∀ name, (loads_of name body).length ≤ 1 := by
  have hex := exec_core_actions (spec_tree_parsing ev) stream sc mapping h
  obtain ⟨body, e, _, q, _, _⟩ := exec_loads ev sc mapping _ _ _ hex
  refine ⟨_, body, ?_, e, q⟩
  unfold core
  rw [hex]
  rfl

/-- C5 at two statements `y = a*x + y` in one container: `y`, `a` and `x` are referred to
eight times and each is loaded once. -/
theorem core_fetch_once_witness :
    ([axpy_statement, axpy_statement].length ≤ [axpy_mapping, axpy_mapping].length) ∧
    (∃ out body, core (spec_tree_parsing (fun _ _ _ _ _ _ => "")) ⟨0, []⟩
        ⟨[axpy_statement, axpy_statement], order_type.SEQUENTIAL⟩
        [axpy_mapping, axpy_mapping] = some out ∧
      out.lines = [] ++ body ∧
      ∀ name, (loads_of name body).length ≤ 1) :=
  ⟨by decide,
   core_fetch_once (fun _ _ _ _ _ _ => "") ⟨0, []⟩
     ⟨[axpy_statement, axpy_statement], order_type.SEQUENTIAL⟩
     [axpy_mapping, axpy_mapping] (by decide)⟩

end viennacl.device_specific

/-! ## `vector_axpy_template::configure_impl` -/

namespace viennacl.device_specific

/-- What `configure_impl` returns on a container whose first statement has a root with a
vector as its left-hand side, for a vector width that is not zero. -/
theorem configure_impl_eq (t : vector_axpy_template)
    (sc : statements_container) (k : kernel) (n_arg : Nat)
    (front : statement) (rest : List statement) (root : statement_node) (v : vector_base)
    (h1 : sc.data = front :: rest) (h2 : front.array[front.root]? = some root)
    (h3 : root.lhs = lhs_rhs_element.vector v) (h4 : 0 < t.parameters_.simd_width) :
    configure_impl t sc k n_arg =
      some ((((k.set_global_work_size 0
                ((t.parameters_.local_size_0 * t.parameters_.num_groups) %
                  uint_range)).set_global_work_size
                1 1).arg n_arg
              (((if t.up_to_internal_size_ then v.internal_size else v.size) % uint_range) /
                t.parameters_.simd_width)),
            n_arg + 1) := by
  have h5 : t.parameters_.simd_width ≠ 0 := Nat.pos_iff_ne_zero.mp h4
  unfold configure_impl
  cases hup : t.up_to_internal_size_ <;>
    simp [h1, h2, h3, h5, call_on_vector]

/-- C9 (amended): on every statement container on which it is defined (a first statement
whose root has a vector as left-hand side, and a vector width that is not zero),
`configure_impl` sets the global work size of dimension 0 to
`local_size_0 * num_groups` computed in `unsigned int`, that is modulo `2^32` (so to the
product itself when this is below `2^32`), and the global work size of dimension 1 to 1;
both values are given by the tuning parameters alone: they are the same for every
container, every operand size, every kernel, every argument counter and both values of
the flag `up_to_internal_size_`. -/
theorem configure_impl_geometry (t : vector_axpy_template)
    (sc : statements_container) (k : kernel) (n_arg : Nat)
    (front : statement) (rest : List statement) (root : statement_node) (v : vector_base)
    (h1 : sc.data = front :: rest) (h2 : front.array[front.root]? = some root)
    (h3 : root.lhs = lhs_rhs_element.vector v) (h4 : 0 < t.parameters_.simd_width) :
    ∃ k1 n1, configure_impl t sc k n_arg = some (k1, n1) ∧
      k1.global_work_size 0 =
        (t.parameters_.local_size_0 * t.parameters_.num_groups) % uint_range ∧
      (t.parameters_.local_size_0 * t.parameters_.num_groups < uint_range →
        k1.global_work_size 0 = t.parameters_.local_size_0 * t.parameters_.num_groups) ∧
      k1.global_work_size 1 = 1 := by
  refine ⟨_, _, configure_impl_eq t sc k n_arg front rest root v h1 h2 h3 h4, ?_, ?_, ?_⟩
  · simp [kernel.arg, kernel.set_global_work_size]
  · intro hlt
    simp [kernel.arg, kernel.set_global_work_size, Nat.mod_eq_of_lt hlt]
  · simp [kernel.arg, kernel.set_global_work_size]

/-- C9 (amended) at the scenario of the spec: vector width 1, local size 64, 4 groups and
the container holding `y = a*x + y`: the global work sizes are 256 and 1. -/
theorem configure_impl_geometry_witness :
    ((⟨[axpy_statement], order_type.SEQUENTIAL⟩ : statements_container).data =
        axpy_statement :: [] ∧
      axpy_statement.array[axpy_statement.root]? =
        some ⟨lhs_rhs_element.vector ⟨0, 1000, 1024⟩, "=", lhs_rhs_element.composite 1⟩ ∧
      (⟨lhs_rhs_element.vector ⟨0, 1000, 1024⟩, "=", lhs_rhs_element.composite 1⟩ :
        statement_node).lhs = lhs_rhs_element.vector ⟨0, 1000, 1024⟩ ∧
      0 < (parameters.make "float" 1 64 4 0).simd_width) ∧
    ∃ k1 n1, configure_impl ⟨parameters.make "float" 1 64 4 0, false⟩
        ⟨[axpy_statement], order_type.SEQUENTIAL⟩ ⟨fun _ => 0, []⟩ 0 = some (k1, n1) ∧
      k1.global_work_size 0 = (64 * 4) % uint_range ∧
      (64 * 4 < uint_range → k1.global_work_size 0 = 64 * 4) ∧
      k1.global_work_size 1 = 1 :=
  ⟨by decide,
   configure_impl_geometry ⟨parameters.make "float" 1 64 4 0, false⟩
     ⟨[axpy_statement], order_type.SEQUENTIAL⟩ ⟨fun _ => 0, []⟩ 0 axpy_statement []
     ⟨lhs_rhs_element.vector ⟨0, 1000, 1024⟩, "=", lhs_rhs_element.composite 1⟩
     ⟨0, 1000, 1024⟩ rfl (by decide) rfl (by decide)⟩

/-- C9, as stated, fails when the product of the two `unsigned int` parameters does not fit
into 32 bits: for a local size of 1024 and `2^22` groups the global work size of
dimension 0 is set to 0, while `local_size_0 * num_groups` is `2^32`. -/
theorem configure_impl_geometry_wraps :
    (configure_impl ⟨parameters.make "float" 1 1024 4194304 0, false⟩
        ⟨[axpy_statement], order_type.SEQUENTIAL⟩ ⟨fun _ => 0, []⟩ 0).map
      (fun r => r.1.global_work_size 0) = some 0 ∧
    (parameters.make "float" 1 1024 4194304 0).local_size_0 *
      (parameters.make "float" 1 1024 4194304 0).num_groups = 4294967296 := by
  decide

/-- C10 (amended): for a container whose first statement has a root with a vector as its
left-hand side (so a non-empty container) and a vector width that is not zero,
`configure_impl`, called after `enqueue` has set the flag, binds exactly one argument, at
position `n_arg`, and advances `n_arg` by exactly one; the bound value is
`floor((S mod 2^32) / simd_width)`, where `S` is the padded internal size of that vector
when `up_to_internal_size` is set and its logical size otherwise, `S` being stored into a
`cl_uint`; it is `floor(S / simd_width)` for every size below `2^32`. -/
theorem configure_impl_size_argument (t : vector_axpy_template) (up_to_internal_size : Bool)
    (sc : statements_container) (k : kernel) (n_arg : Nat)
    (front : statement) (rest : List statement) (root : statement_node) (v : vector_base)
    (h1 : sc.data = front :: rest) (h2 : front.array[front.root]? = some root)
    (h3 : root.lhs = lhs_rhs_element.vector v) (h4 : 0 < t.parameters_.simd_width) :
    ∃ k1, configure_impl (t.enqueue up_to_internal_size) sc k n_arg = some (k1, n_arg + 1) ∧
      k1.args = k.args ++
        [(n_arg, ((if up_to_internal_size then v.internal_size else v.size) % uint_range) /
          t.parameters_.simd_width)] ∧
      ((if up_to_internal_size then v.internal_size else v.size) < uint_range →
        k1.args = k.args ++
          [(n_arg, (if up_to_internal_size then v.internal_size else v.size) /
            t.parameters_.simd_width)]) := by
  refine ⟨_, configure_impl_eq (t.enqueue up_to_internal_size) sc k n_arg front rest root v
    h1 h2 h3 h4, ?_, ?_⟩
  · simp [kernel.arg, kernel.set_global_work_size, vector_axpy_template.enqueue]
  · intro hlt
    simp [kernel.arg, kernel.set_global_work_size, vector_axpy_template.enqueue,
      Nat.mod_eq_of_lt hlt]

/-- C10 (amended) at the container holding `y = a*x + y` with a vector width of 4, over
the padded size 1024: the value 256 is bound at position 3. -/
theorem configure_impl_size_argument_witness :
    ((⟨[axpy_statement], order_type.SEQUENTIAL⟩ : statements_container).data =
        axpy_statement :: [] ∧
      axpy_statement.array[axpy_statement.root]? =
        some ⟨lhs_rhs_element.vector ⟨0, 1000, 1024⟩, "=", lhs_rhs_element.composite 1⟩ ∧
      (⟨lhs_rhs_element.vector ⟨0, 1000, 1024⟩, "=", lhs_rhs_element.composite 1⟩ :
        statement_node).lhs = lhs_rhs_element.vector ⟨0, 1000, 1024⟩ ∧
      0 < (parameters.make "float" 4 64 4 0).simd_width) ∧
    ∃ k1, configure_impl
        (vector_axpy_template.enqueue ⟨parameters.make "float" 4 64 4 0, false⟩ true)
        ⟨[axpy_statement], order_type.SEQUENTIAL⟩ ⟨fun _ => 0, []⟩ 3 = some (k1, 3 + 1) ∧
      k1.args = [] ++ [(3, ((if true = true then 1024 else 1000) % uint_range) / 4)] ∧
      ((if true = true then 1024 else 1000) < uint_range →
        k1.args = [] ++ [(3, (if true = true then 1024 else 1000) / 4)]) :=
  ⟨by decide,
   configure_impl_size_argument ⟨parameters.make "float" 4 64 4 0, false⟩ true
     ⟨[axpy_statement], order_type.SEQUENTIAL⟩ ⟨fun _ => 0, []⟩ 3 axpy_statement []
     ⟨lhs_rhs_element.vector ⟨0, 1000, 1024⟩, "=", lhs_rhs_element.composite 1⟩
     ⟨0, 1000, 1024⟩ rfl (by decide) rfl (by decide)⟩

/-- C10, as stated, fails for a vector of `2^32` elements: with a vector width of 1 the
value bound at position 0 is 0, while `floor(S / simd_width)` is `2^32`. -/
theorem configure_impl_size_truncated :
    (configure_impl
        (vector_axpy_template.enqueue ⟨parameters.make "float" 1 64 4 0, false⟩ false)
        ⟨[⟨[⟨lhs_rhs_element.vector ⟨0, 4294967296, 4294967296⟩, "=",
              lhs_rhs_element.vector ⟨1, 4294967296, 4294967296⟩⟩], 0⟩],
          order_type.SEQUENTIAL⟩ ⟨fun _ => 0, []⟩ 0).map (fun r => (r.1.args, r.2)) =
      some ([(0, 0)], 1) ∧
    4294967296 / (parameters.make "float" 1 64 4 0).simd_width = 4294967296 := by
  decide

end viennacl.device_specific

/-! ## `program_infos` -/

namespace viennacl.generator

/-- The loop of `fill_args` appends one binding for each argument, in order and under the
given name, at positions that start at `pos`, do not decrease and advance by `n_args`; it
leaves `arg_pos` advanced by the `n_args` of all arguments. -/
theorem fill_args_for_each_spec {Operations : Type} (mt : meta_tools Operations)
    (name : String) :
    ∀ (args : List symbolic_type) (pos : Nat) (rw : runtime_wrappers_t),
      ∃ added : runtime_wrappers_t,
        fill_args_for_each mt args pos rw name =
          (pos + (args.map (fun U => (mt.expression_type U).n_args)).sum, rw ++ added) ∧
        added.length = args.length ∧
        (∀ k U, args[k]? = some U →
          added[k]? = some (name, (pos + arg_offset mt args k,
            runtime_wrapper.runtime_descriptor (mt.expression_type U)))) ∧
        (∀ e, e ∈ added → e.1 = name ∧ e.2.2 ≠ runtime_wrapper.shared_memory_wrapper ∧
          pos ≤ e.2.1 ∧
          e.2.1 ≤ pos + (args.map (fun U => (mt.expression_type U).n_args)).sum) ∧
        (added.map (fun e => e.2.1)).Pairwise (fun a b => a ≤ b) := by
  intro args
  induction args with
  | nil =>
    intro pos rw
    exact ⟨[], by simp [fill_args_for_each], rfl, by simp, by simp, by simp⟩
  | cons T rest ih =>
    intro pos rw
    obtain ⟨added, h1, h2, h3, h4, h5⟩ := ih (pos + (mt.expression_type T).n_args)
      (rw ++ [(name, (pos, runtime_wrapper.runtime_descriptor (mt.expression_type T)))])
    refine ⟨(name, (pos, runtime_wrapper.runtime_descriptor (mt.expression_type T))) :: added,
      ?_, by simp [h2], ?_, ?_, ?_⟩
    · simp only [fill_args_for_each, fill_args_functor, h1, List.map_cons, List.sum_cons,
        List.append_assoc, List.singleton_append, Nat.add_assoc]
    · intro k U hk
      cases k with
      | zero =>
        simp only [List.getElem?_cons_zero, Option.some.injEq] at hk
        subst hk
        simp [arg_offset]
      | succ j =>
        simp only [List.getElem?_cons_succ] at hk
        rw [List.getElem?_cons_succ, h3 j U hk]
        simp [arg_offset, Nat.add_assoc]
    · intro e he
      rcases List.mem_cons.mp he with rfl | he
      · refine ⟨rfl, by simp, le_refl _, by simp⟩
      · obtain ⟨a, b, c, d⟩ := h4 e he
        refine ⟨a, b, by omega, ?_⟩
        simp only [List.map_cons, List.sum_cons]
        omega
    · simp only [List.map_cons, List.pairwise_cons]
      refine ⟨?_, h5⟩
      intro p hp
      obtain ⟨e, he, rfl⟩ := List.mem_map.mp hp
      have := (h4 e he).2.2.1
      omega

/-- The loop of `header_code` behind the first argument: every declaration is appended
behind a separator. -/
theorem header_for_each_rest (res : String) :
    ∀ (rest : List symbolic_type) (acc : String),
      header_for_each rest (res ++ acc) false =
        (res ++ String.intercalate.go acc ", " (rest.map (fun T => T.kernel_arguments)),
         false) := by
  intro rest
  induction rest with
  | nil => intro acc; rfl
  | cons T rest ih =>
    intro acc
    simp only [header_for_each, header_functor, List.map_cons, String.intercalate.go]
    have e : res ++ acc ++ (", " ++ T.kernel_arguments) =
        res ++ (acc ++ ", " ++ T.kernel_arguments) := by
      simp only [String.append_assoc]
    rw [show ((if false = true then (res ++ acc ++ T.kernel_arguments, false)
          else (res ++ acc ++ (", " ++ T.kernel_arguments), false)) : String × Bool) =
        (res ++ (acc ++ ", " ++ T.kernel_arguments), false) by simp [e]]
    exact ih _

/-- The loop of `header_code` appends the declarations of the arguments, in order,
separated by ", ". -/
theorem header_for_each_spec (res : String) (args : List symbolic_type) :
    (header_for_each args res true).1 =
      res ++ ", ".intercalate (args.map (fun T => T.kernel_arguments)) := by
  cases args with
  | nil => simp [header_for_each, String.intercalate]
  | cons T rest =>
    simp only [header_for_each, header_functor, if_true, List.map_cons, String.intercalate]
    rw [header_for_each_rest res rest T.kernel_arguments]

/-- The loop of `fill_args` appends its bindings behind the bindings already there. -/
theorem fill_args_for_each_append {Operations : Type} (mt : meta_tools Operations)
    (name : String) :
    ∀ (args : List symbolic_type) (pos : Nat) (rw : runtime_wrappers_t),
      fill_args_for_each mt args pos rw name =
        ((fill_args_for_each mt args pos [] name).1,
         rw ++ (fill_args_for_each mt args pos [] name).2) := by
  intro args
  induction args with
  | nil => intro pos rw; simp [fill_args_for_each]
  | cons T rest ih =>
    intro pos rw
    simp only [fill_args_for_each, fill_args_functor]
    rw [ih, ih _ ([] ++ _)]
    simp only [List.nil_append, List.append_assoc]

/-- Registering the bindings of a kernel appends them behind the bindings already there. -/
theorem fill_args_execute_append {Operations : Type} (mt : meta_tools Operations)
    (KernelsList : List Operations) (ops : Operations) (rw : runtime_wrappers_t)
    (operation_name : String) :
    fill_args_execute mt KernelsList ops rw operation_name =
      rw ++ fill_args_execute mt KernelsList ops [] operation_name := by
  unfold fill_args_execute
  rw [fill_args_for_each_append mt _ _ 0 rw]
  by_cases hip : mt.count_if_is_inner_product_leaf ops ≠ 0
  · simp only [hip, if_true, List.append_assoc, ne_eq, not_false_eq_true]
  · simp only [hip, if_false]

/-- The loop of `fill` over the kernels registers the bindings of every kernel, in the order
of the kernel list. -/
theorem fill_args_foldl {Operations : Type} (mt : meta_tools Operations)
    (KernelsList : List Operations) (operation_name : String) :
    ∀ (l : List Operations) (rw : runtime_wrappers_t),
      l.foldl (fun r ops => fill_args_execute mt KernelsList ops r operation_name) rw =
        rw ++ (l.map (fun ops => fill_args_execute mt KernelsList ops [] operation_name)).flatten := by
  intro l
  induction l with
  | nil => intro rw; simp
  | cons K rest ih =>
    intro rw
    simp only [List.foldl_cons, List.map_cons, List.flatten_cons]
    rw [ih, fill_args_execute_append, List.append_assoc]


/-- The position behind all arguments is the sum of their `n_args`. -/
theorem arg_offset_length {Operations : Type} (mt : meta_tools Operations)
    (args : List symbolic_type) :
    arg_offset mt args args.length =
      (args.map (fun U => (mt.expression_type U).n_args)).sum := by
  simp [arg_offset]

/-- What `fill_args<Operations>::execute` registers on an empty multimap: the bindings of
the loop over the arguments and, for a kernel with an inner product, one binding of the
shared memory at the position the loop has reached. -/
theorem fill_args_execute_nil {Operations : Type} (mt : meta_tools Operations)
    (KernelsList : List Operations) (ops : Operations) (operation_name : String) :
    fill_args_execute mt KernelsList ops [] operation_name =
      (fill_args_for_each mt (Arguments mt ops) 0 []
        ("__" ++ operation_name ++ "_k" ++ mt.to_string (mt.index_of KernelsList ops))).2 ++
      (if mt.count_if_is_inner_product_leaf ops ≠ 0 then
        [("__" ++ operation_name ++ "_k" ++ mt.to_string (mt.index_of KernelsList ops),
          (arg_offset mt (Arguments mt ops) (Arguments mt ops).length,
           runtime_wrapper.shared_memory_wrapper))]
      else []) := by
  obtain ⟨added, h1, _⟩ := fill_args_for_each_spec mt
    ("__" ++ operation_name ++ "_k" ++ mt.to_string (mt.index_of KernelsList ops))
    (Arguments mt ops) 0 []
  unfold fill_args_execute
  rw [arg_offset_length, h1]
  by_cases hip : mt.count_if_is_inner_product_leaf ops ≠ 0
  · rw [if_pos hip, if_pos hip]; simp
  · rw [if_neg hip, if_neg hip]; simp

/-- C6: for every kernel `ops` (of the kernel list or not), `fill_args` and `header_code`
enumerate the same list `Arguments`, in the same order, under the same kernel name
"__<operation>_k<index>": the bindings `fill_args` registers are appended to the multimap,
all under that name; the `k`-th of them is the binding of the `k`-th argument, at the sum
of the `n_args` of the arguments before it (so positions start at 0 and do not decrease);
there are as many of them as arguments, plus one for a kernel with an inner product; the
header declares the same arguments in the same order, separated by ", "; `fill_sources`
stores the header, followed by the body, under the same name; and `fill` registers the
bindings of the kernels one kernel after the other. -/
theorem signature_binding_consistency {Operations : Type} (mt : meta_tools Operations)
    (KernelsList : List Operations) (ops : Operations) (operation_name : String)
    (sources : List (String × String)) (rw : runtime_wrappers_t) :
    fill_args_execute mt KernelsList ops rw operation_name =
      rw ++ fill_args_execute mt KernelsList ops [] operation_name ∧
    (∀ e, e ∈ fill_args_execute mt KernelsList ops [] operation_name →
      e.1 = "__" ++ operation_name ++ "_k" ++ mt.to_string (mt.index_of KernelsList ops)) ∧
    (∀ k U, (Arguments mt ops)[k]? = some U →
      (fill_args_execute mt KernelsList ops [] operation_name)[k]? =
        some ("__" ++ operation_name ++ "_k" ++ mt.to_string (mt.index_of KernelsList ops),
          (arg_offset mt (Arguments mt ops) k,
           runtime_wrapper.runtime_descriptor (mt.expression_type U)))) ∧
    ((fill_args_execute mt KernelsList ops [] operation_name).map
      (fun e => e.2.1)).Pairwise (fun a b => a ≤ b) ∧
    (fill_args_execute mt KernelsList ops [] operation_name).length =
      (Arguments mt ops).length +
        (if mt.count_if_is_inner_product_leaf ops ≠ 0 then 1 else 0) ∧
    header_code_value mt ops ops
        ("__" ++ operation_name ++ "_k" ++ mt.to_string (mt.index_of KernelsList ops)) =
      "__kernel void " ++
        ("__" ++ operation_name ++ "_k" ++ mt.to_string (mt.index_of KernelsList ops)) ++
        "(\n" ++ ", ".intercalate ((Arguments mt ops).map (fun T => T.kernel_arguments)) ++
        (if mt.count_if_is_inner_product_leaf ops ≠ 0 then
          ",__local float* shared_memory_ptr\n" else "") ++ ")\n" ∧
    (sources.lookup
        ("__" ++ operation_name ++ "_k" ++ mt.to_string (mt.index_of KernelsList ops)) = none →
      fill_sources_execute mt KernelsList ops sources operation_name =
        sources ++
          [("__" ++ operation_name ++ "_k" ++ mt.to_string (mt.index_of KernelsList ops),
            header_code_value mt ops ops
              ("__" ++ operation_name ++ "_k" ++
                mt.to_string (mt.index_of KernelsList ops)) ++ mt.body_code ops)]) ∧
    (fill mt KernelsList operation_name sources rw).2 =
      rw ++ (KernelsList.map
        (fun K => fill_args_execute mt KernelsList K [] operation_name)).flatten := by
  obtain ⟨added, h1, h2, h3, h4, h5⟩ := fill_args_for_each_spec mt
    ("__" ++ operation_name ++ "_k" ++ mt.to_string (mt.index_of KernelsList ops))
    (Arguments mt ops) 0 []
  have hadd : (fill_args_for_each mt (Arguments mt ops) 0 []
      ("__" ++ operation_name ++ "_k" ++ mt.to_string (mt.index_of KernelsList ops))).2 =
      added := by rw [h1]; rfl
  refine ⟨fill_args_execute_append mt KernelsList ops rw operation_name, ?_, ?_, ?_, ?_, ?_,
    ?_, ?_⟩
  · intro e he
    rw [fill_args_execute_nil, hadd] at he
    rcases List.mem_append.mp he with he | he
    · exact (h4 e he).1
    · by_cases hip : mt.count_if_is_inner_product_leaf ops ≠ 0
      · rw [if_pos hip, List.mem_singleton] at he
        rw [he]
      · rw [if_neg hip] at he
        cases he
  · intro k U hk
    rw [fill_args_execute_nil, hadd]
    have hlt : k < added.length := by
      rw [h2]
      exact (List.getElem?_eq_some_iff.mp hk).1
    rw [List.getElem?_append_left hlt, h3 k U hk, Nat.zero_add]
  · rw [fill_args_execute_nil, hadd, List.map_append, List.pairwise_append]
    refine ⟨h5, ?_, ?_⟩
    · by_cases hip : mt.count_if_is_inner_product_leaf ops ≠ 0
      · rw [if_pos hip]; simp
      · rw [if_neg hip]; simp
    · intro a ha b hb
      obtain ⟨e, he, rfl⟩ := List.mem_map.mp ha
      by_cases hip : mt.count_if_is_inner_product_leaf ops ≠ 0
      · rw [if_pos hip] at hb
        simp only [List.map_cons, List.map_nil, List.mem_singleton] at hb
        rw [hb, arg_offset_length]
        have := (h4 e he).2.2.2
        omega
      · rw [if_neg hip] at hb
        cases hb
  · rw [fill_args_execute_nil, hadd, List.length_append, h2]
    by_cases hip : mt.count_if_is_inner_product_leaf ops ≠ 0
    · rw [if_pos hip, if_pos hip]; rfl
    · rw [if_neg hip, if_neg hip]; rfl
  · unfold header_code_value
    rw [header_for_each_spec]
    by_cases hip : mt.count_if_is_inner_product_leaf ops ≠ 0
    · rw [if_pos hip, if_pos hip]
      simp [String.append_assoc]
    · rw [if_neg hip, if_neg hip]
      simp [String.append_assoc]
  · intro hnone
    simp only [fill_sources_execute, map_insert, hnone]
  · exact fill_args_foldl mt KernelsList operation_name KernelsList rw


/-- The table of `no_duplicates` grows by the operands of the remaining list that are not
in it, each once and in the order of their first occurrence. -/
theorem no_duplicates_from_spec :
    ∀ (rest table : List symbolic_type), table.Nodup →
      ∃ ext, no_duplicates_from table rest = table ++ ext ∧
        (table ++ ext).Nodup ∧
        (∀ a, a ∈ ext ↔ a ∈ rest ∧ a ∉ table) ∧
        ext.Pairwise (fun a b => rest.indexOf a < rest.indexOf b) := by
  intro rest
  induction rest with
  | nil =>
    intro table ht
    exact ⟨[], by simp [no_duplicates_from], by simpa using ht, by simp, List.Pairwise.nil⟩
  | cons x rest ih =>
    intro table ht
    by_cases hx : x ∈ table
    · obtain ⟨ext, h1, h2, h3, h4⟩ := ih table ht
      refine ⟨ext, by simp only [no_duplicates_from, hx, if_true, h1], h2, ?_, ?_⟩
      · intro a
        rw [h3, List.mem_cons]
        constructor
        · rintro ⟨h5, h6⟩; exact ⟨Or.inr h5, h6⟩
        · rintro ⟨h5 | h5, h6⟩
          · exact absurd (h5 ▸ hx) h6
          · exact ⟨h5, h6⟩
      · refine h4.imp_of_mem ?_
        intro a b ha hb hab
        have hax : a ≠ x := fun e => ((h3 a).mp ha).2 (e ▸ hx)
        have hbx : b ≠ x := fun e => ((h3 b).mp hb).2 (e ▸ hx)
        rw [List.indexOf_cons_ne _ hax.symm, List.indexOf_cons_ne _ hbx.symm]
        omega
    · have ht2 : (table ++ [x]).Nodup := by
        rw [List.nodup_append]
        refine ⟨ht, List.nodup_singleton x, ?_⟩
        intro a ha hb
        rw [List.mem_singleton] at hb
        exact hx (hb ▸ ha)
      obtain ⟨ext, h1, h2, h3, h4⟩ := ih (table ++ [x]) ht2
      refine ⟨x :: ext, ?_, ?_, ?_, ?_⟩
      · simp only [no_duplicates_from, hx, if_false, h1, List.append_assoc,
          List.singleton_append]
      · simpa [List.append_assoc] using h2
      · intro a
        rw [List.mem_cons, h3, List.mem_cons]
        simp only [List.mem_append, List.mem_singleton, not_or]
        constructor
        · rintro (h5 | ⟨h5, h6, _⟩)
          · exact ⟨Or.inl h5, h5 ▸ hx⟩
          · exact ⟨Or.inr h5, h6⟩
        · rintro ⟨h5 | h5, h6⟩
          · exact Or.inl h5
          · by_cases hax : a = x
            · exact Or.inl hax
            · exact Or.inr ⟨h5, h6, hax⟩
      · rw [List.pairwise_cons]
        refine ⟨?_, ?_⟩
        · intro b hb
          have hbx : b ≠ x := by
            intro e
            have := ((h3 b).mp hb).2
            exact this (by simp [e])
          rw [List.indexOf_cons_eq _ rfl, List.indexOf_cons_ne _ hbx.symm]
          omega
        · refine h4.imp_of_mem ?_
          intro a b ha hb hab
          have hax : a ≠ x := by
            intro e
            exact ((h3 a).mp ha).2 (by simp [e])
          have hbx : b ≠ x := by
            intro e
            exact ((h3 b).mp hb).2 (by simp [e])
          rw [List.indexOf_cons_ne _ hax.symm, List.indexOf_cons_ne _ hbx.symm]
          omega

/-- C7: the argument list of a kernel, `Arguments = no_duplicates` of the kernel-argument
leaves extracted from its operations, holds every extracted operand exactly once and no
other operand, in the order of the first occurrences in the traversal; two operand
references have the same entry of the list (the same position, and so the same name and
declaration) if and only if they denote the same operand. -/
theorem arguments_deduplicated {Operations : Type} (mt : meta_tools Operations)
    (ops : Operations) :
    (Arguments mt ops).Nodup ∧
    (∀ a, a ∈ Arguments mt ops ↔ a ∈ mt.extract_if_is_kernel_argument ops) ∧
    (∀ a, a ∈ mt.extract_if_is_kernel_argument ops → (Arguments mt ops).count a = 1) ∧
    (Arguments mt ops).Pairwise (fun a b =>
      (mt.extract_if_is_kernel_argument ops).indexOf a <
        (mt.extract_if_is_kernel_argument ops).indexOf b) ∧
    (∀ a b, a ∈ mt.extract_if_is_kernel_argument ops →
      b ∈ mt.extract_if_is_kernel_argument ops →
      ((Arguments mt ops).indexOf a = (Arguments mt ops).indexOf b ↔ a = b)) := by
  obtain ⟨ext, h1, h2, h3, h4⟩ :=
    no_duplicates_from_spec (mt.extract_if_is_kernel_argument ops) [] List.nodup_nil
  have hA : Arguments mt ops = ext := by
    unfold Arguments no_duplicates
    rw [h1]; rfl
  have hmem : ∀ a, a ∈ ext ↔ a ∈ mt.extract_if_is_kernel_argument ops := by
    intro a
    rw [h3]
    simp
  rw [hA]
  refine ⟨by simpa using h2, hmem, ?_, h4, ?_⟩
  · intro a ha
    exact List.count_eq_one_of_mem (by simpa using h2) ((hmem a).mpr ha)
  · intro a b ha hb
    exact List.indexOf_inj ((hmem a).mpr ha) ((hmem b).mpr hb)

/-- C8: the header ends, behind the declarations of the operand arguments, with
",__local float* shared_memory_ptr" and a line break before the closing parenthesis if the
operations of the kernel hold an inner-product leaf, and with the closing parenthesis alone
if not; in exactly the first case `fill_args` registers, behind the bindings of the operand
arguments, one binding of the shared memory, at the sum of the `n_args` of the operand
arguments, which is not below the position of any of them; none of the bindings of the
operand arguments is a binding of the shared memory. -/
theorem scratch_argument {Operations : Type} (mt : meta_tools Operations)
    (KernelsList : List Operations) (ops : Operations) (operation_name : String) :
    header_code_value mt ops ops
        ("__" ++ operation_name ++ "_k" ++ mt.to_string (mt.index_of KernelsList ops)) =
      "__kernel void " ++
        ("__" ++ operation_name ++ "_k" ++ mt.to_string (mt.index_of KernelsList ops)) ++
        "(\n" ++ ", ".intercalate ((Arguments mt ops).map (fun T => T.kernel_arguments)) ++
      (if mt.count_if_is_inner_product_leaf ops ≠ 0 then
        ",__local float* shared_memory_ptr\n)\n" else ")\n") ∧
    (runtime_wrapper.shared_memory_wrapper ∈
        (fill_args_execute mt KernelsList ops [] operation_name).map (fun e => e.2.2) ↔
      mt.count_if_is_inner_product_leaf ops ≠ 0) ∧
    fill_args_execute mt KernelsList ops [] operation_name =
      (fill_args_for_each mt (Arguments mt ops) 0 []
        ("__" ++ operation_name ++ "_k" ++ mt.to_string (mt.index_of KernelsList ops))).2 ++
      (if mt.count_if_is_inner_product_leaf ops ≠ 0 then
        [("__" ++ operation_name ++ "_k" ++ mt.to_string (mt.index_of KernelsList ops),
          (((Arguments mt ops).map (fun U => (mt.expression_type U).n_args)).sum,
           runtime_wrapper.shared_memory_wrapper))]
      else []) ∧
    (fill_args_for_each mt (Arguments mt ops) 0 []
        ("__" ++ operation_name ++ "_k" ++
          mt.to_string (mt.index_of KernelsList ops))).2.length = (Arguments mt ops).length ∧
    (∀ e, e ∈ (fill_args_for_each mt (Arguments mt ops) 0 []
        ("__" ++ operation_name ++ "_k" ++ mt.to_string (mt.index_of KernelsList ops))).2 →
      e.2.2 ≠ runtime_wrapper.shared_memory_wrapper ∧
      e.2.1 ≤ ((Arguments mt ops).map (fun U => (mt.expression_type U).n_args)).sum) := by
  obtain ⟨added, h1, h2, _, h4, _⟩ := fill_args_for_each_spec mt
    ("__" ++ operation_name ++ "_k" ++ mt.to_string (mt.index_of KernelsList ops))
    (Arguments mt ops) 0 []
  have hadd : (fill_args_for_each mt (Arguments mt ops) 0 []
      ("__" ++ operation_name ++ "_k" ++ mt.to_string (mt.index_of KernelsList ops))).2 =
      added := by rw [h1]; rfl
  refine ⟨?_, ?_, ?_, ?_, ?_⟩
  · unfold header_code_value
    rw [header_for_each_spec]
    by_cases hip : mt.count_if_is_inner_product_leaf ops ≠ 0
    · rw [if_pos hip, if_pos hip]
      simp [String.append_assoc]
    · rw [if_neg hip, if_neg hip]
      simp [String.append_assoc]
  · rw [fill_args_execute_nil, hadd, List.map_append, List.mem_append]
    by_cases hip : mt.count_if_is_inner_product_leaf ops ≠ 0
    · rw [if_pos hip]
      simp [hip]
    · rw [if_neg hip]
      simp only [List.map_nil, List.not_mem_nil, or_false, hip, iff_false]
      intro hmem
      obtain ⟨e, he, heq⟩ := List.mem_map.mp hmem
      exact (h4 e he).2.1 heq
  · rw [fill_args_execute_nil, arg_offset_length]
  · rw [hadd, h2]
  · intro e he
    rw [hadd] at he
    have := h4 e he
    exact ⟨this.2.1, by omega⟩


/-- The kernel of `s = inner_prod(x, a*x + y)`: the leaves `x`, `a`, `x`, `y` give the
arguments `x`, `a`, `y`; the header declares them in this order and ends with the local
memory pointer; the bindings are at the positions 0, 2 and 3 and the shared memory at 5. -/
theorem inner_product_kernel_example :
    Arguments example_tools ⟨[example_x, example_a, example_x, example_y], 1⟩ =
      [example_x, example_a, example_y] ∧
    header_code_value example_tools ⟨[example_x, example_a, example_x, example_y], 1⟩
        ⟨[example_x, example_a, example_x, example_y], 1⟩ "__dot_k0" =
      "__kernel void __dot_k0(\n__global float* x, unsigned int x_size, float a, __global float* y, unsigned int y_size,__local float* shared_memory_ptr\n)\n" ∧
    fill_args_execute example_tools [⟨[example_x, example_a, example_x, example_y], 1⟩]
        ⟨[example_x, example_a, example_x, example_y], 1⟩ [] "dot" =
      [("__dot_k0", (0, runtime_wrapper.runtime_descriptor example_x)),
       ("__dot_k0", (2, runtime_wrapper.runtime_descriptor example_a)),
       ("__dot_k0", (3, runtime_wrapper.runtime_descriptor example_y)),
       ("__dot_k0", (5, runtime_wrapper.shared_memory_wrapper))] := by
  decide

/-- The kernel of `y = a*x + y`, without inner product: no local memory pointer and no
binding of the shared memory. -/
theorem axpy_kernel_example :
    header_code_value example_tools ⟨[example_y, example_a, example_x, example_y], 0⟩
        ⟨[example_y, example_a, example_x, example_y], 0⟩ "__axpy_k0" =
      "__kernel void __axpy_k0(\n__global float* y, unsigned int y_size, float a, __global float* x, unsigned int x_size)\n" ∧
    fill_args_execute example_tools [⟨[example_y, example_a, example_x, example_y], 0⟩]
        ⟨[example_y, example_a, example_x, example_y], 0⟩ [] "axpy" =
      [("__axpy_k0", (0, runtime_wrapper.runtime_descriptor example_y)),
       ("__axpy_k0", (2, runtime_wrapper.runtime_descriptor example_a)),
       ("__axpy_k0", (3, runtime_wrapper.runtime_descriptor example_x))] := by
  decide

end viennacl.generator

/-! ## The problem size in `vector_axpy_template` -/

namespace viennacl.device_specific

/-- The calls of `evaluate_expression` among the effects of `core`: the mapping index is
the position of the statement reduced to the range of `unsigned int`. -/
theorem mem_core_actions_evaluate (sc : statements_container) (k : Nat)
    (index : index_tuple) (temporary : Int) (mi : Nat) (leaf : node_type) :
    action.evaluate_expression k index temporary mi leaf ∈ core_actions sc ↔
      k < sc.data.length ∧ mi = k % uint_range ∧ index = ⟨"i", "N"⟩ ∧ temporary = -1 ∧
      leaf = node_type.PARENT_NODE_TYPE := by
  unfold core_actions
  simp only [List.mem_append, List.mem_cons, mem_fetch_loop, mem_evaluate_loop,
    mem_write_back_loop, List.mem_singleton, List.not_mem_nil, or_false, false_or,
    action.evaluate_expression.injEq, reduceCtorEq, zero_add, and_false, exists_false,
    exists_const]
  constructor
  · rintro ⟨j, h1, rfl, h3, h4, rfl, h6⟩
    exact ⟨h1, rfl, h3, h4, h6⟩
  · rintro ⟨h1, rfl, h3, h4, h5⟩
    exact ⟨k, h1, rfl, h3, h4, rfl, h5⟩

/-- C11: for every statement container, every pair of traversal functions and every
mapping vector with an entry for each statement, the kernel body `core` emits begins with
the loop header `for(unsigned int i = get_global_id(0) ; i < N ; i += get_global_size(0))`,
whose bound is the symbol `N`; every call of a traversal is given the index tuple
`("i", "N")`; and `add_kernel_arguments` appends to the signature exactly the one value
parameter of type `unsigned int` named `N`, whatever the container.  Neither function reads
the tuning parameters. -/
theorem core_problem_size_symbol (tp : tree_parsing) (stream : kernel_generation_stream)
    (sc : statements_container) (mapping : List mapping_type)
    (generate_value_kernel_argument : String → String → String) (arguments_string : String)
    (h : sc.data.length ≤ mapping.length) :
    (∃ out rest, core tp stream sc mapping = some out ∧
      out.lines = stream.lines ++
        (stream.tab_count, code_line.text
          "for(unsigned int i = get_global_id(0) ; i < N ; i += get_global_size(0))") ::
        rest) ∧
    (∀ mode suffix k index mi leaf,
      action.read_write mode suffix k index mi leaf ∈ core_actions sc →
        index = ⟨"i", "N"⟩) ∧
    (∀ k index temporary mi leaf,
      action.evaluate_expression k index temporary mi leaf ∈ core_actions sc →
        index = ⟨"i", "N"⟩) ∧
    add_kernel_arguments generate_value_kernel_argument sc arguments_string =
      arguments_string ++ generate_value_kernel_argument "unsigned int" "N" := by
  refine ⟨?_, ?_, ?_, rfl⟩
  · unfold core
    rw [exec_core_actions tp stream sc mapping h]
    refine ⟨_, (stream.tab_count, code_line.text "\x7b") ::
      (((fetch_output tp (lhs_suffix sc) rhs_suffix (sc.data.zip mapping) []).1 ++
          evaluate_output tp (evaluate_pairs mapping 0 sc.data) ++
          (write_back_output tp (lhs_suffix sc) (sc.data.zip mapping)
            (fetch_output tp (lhs_suffix sc) rhs_suffix (sc.data.zip mapping) []).2).1).map
          (fun l => (stream.tab_count + 1, l)) ++
        [(stream.tab_count + 1 - 1, code_line.text "\x7d")]), rfl, ?_⟩
    simp only [List.append_assoc, List.cons_append, List.nil_append]
  · intro mode suffix k index mi leaf hmem
    exact ((mem_core_actions_read_write sc mode suffix k index mi leaf).mp hmem).2.2.1
  · intro k index temporary mi leaf hmem
    exact ((mem_core_actions_evaluate sc k index temporary mi leaf).mp hmem).2.2.1

/-- C11 at the container holding `y = a*x + y`, with a `generate_value_kernel_argument`
that writes the type, the name and a comma. -/
theorem core_problem_size_symbol_witness :
    [axpy_statement].length ≤ [axpy_mapping].length ∧
    add_kernel_arguments (fun t n => t ++ " " ++ n ++ ",")
        ⟨[axpy_statement], order_type.INDEPENDENT⟩ "__global float* obj0," =
      "__global float* obj0," ++ (fun t n => t ++ " " ++ n ++ ",") "unsigned int" "N" :=
  ⟨by decide,
   (core_problem_size_symbol (spec_tree_parsing (fun _ _ _ _ _ _ => "")) ⟨0, []⟩
      ⟨[axpy_statement], order_type.INDEPENDENT⟩ [axpy_mapping]
      (fun t n => t ++ " " ++ n ++ ",") "__global float* obj0," (by decide)).2.2.2⟩

end viennacl.device_specific

/-! ## The addresses of the matrix-matrix kernel -/

namespace viennacl.generator

/-- The loop variables `a` and `b` in iteration `s`. -/
theorem loop_counters_eq (aBegin aStep bBegin bStep s : Nat) :
    loop_counters aBegin aStep bBegin bStep s = (aBegin + s * aStep, bBegin + s * bStep) := by
  induction s with
  | zero => simp [loop_counters]
  | succ n ih => simp only [loop_counters, ih, Prod.mk.injEq]; constructor <;> ring

/-- The address of the right operand that is read into `bv`, for the four cases. -/
theorem bv_address_eq (is_row_major is_transposed : Bool) (RHS : matrix_view)
    (col_block_id row_thread_id col_thread_id s i : Nat) :
    bv_address is_row_major is_transposed RHS col_block_id row_thread_id col_thread_id s i
      = bp_offset is_row_major is_transposed RHS
            (bBegin is_row_major is_transposed RHS col_block_id
              + s * bStep is_row_major is_transposed RHS) row_thread_id col_thread_id
          + rhs_index is_row_major is_transposed RHS i := by
  simp [bv_address, loop_counters_eq]

/-- When the increment of the right operand along the reduction dimension (`row_inc` for an
untransposed, `col_inc` for a transposed operand) is 1, the element read into `bv` is
`op(B)(16*s + i, 64*col_block_id + 16*row_thread_id + col_thread_id)`. -/
theorem bv_address_unit_increment (is_row_major is_transposed : Bool) (RHS : matrix_view)
    (col_block_id row_thread_id col_thread_id s i : Nat)
    (h : (if is_transposed then RHS.col_inc else RHS.row_inc) = 1) :
    bv_address is_row_major is_transposed RHS col_block_id row_thread_id col_thread_id s i
      = spec_op_element_address is_row_major is_transposed RHS (16 * s + i)
          (64 * col_block_id + 16 * row_thread_id + col_thread_id) := by
  rw [bv_address_eq]
  cases is_row_major <;> cases is_transposed <;>
    simp [bp_offset, bBegin, bStep, rhs_index, spec_op_element_address, spec_element_address,
      block_size, vector_size] at h ⊢ <;> rw [h] <;> ring

/-- The address read into `bv` and the address of the element
`op(B)(16*s + i, 64*col_block_id + 16*row_thread_id + col_thread_id)` differ by the index
of the load, which the code takes once and the element `increment` times, `increment`
being the increment of the right operand along the reduction dimension. -/
theorem bv_address_increment (is_row_major is_transposed : Bool) (RHS : matrix_view)
    (col_block_id row_thread_id col_thread_id s i : Nat) :
    bv_address is_row_major is_transposed RHS col_block_id row_thread_id col_thread_id s i
        + (if is_transposed then RHS.col_inc else RHS.row_inc)
          * rhs_index is_row_major is_transposed RHS i
      = spec_op_element_address is_row_major is_transposed RHS (16 * s + i)
          (64 * col_block_id + 16 * row_thread_id + col_thread_id)
        + rhs_index is_row_major is_transposed RHS i := by
  rw [bv_address_eq]
  cases is_row_major <;> cases is_transposed <;>
    simp [bp_offset, bBegin, bStep, rhs_index, spec_op_element_address, spec_element_address,
      block_size, vector_size] <;> ring

/-- C12, evaluation of the code at a failing input: for the view `example_view` (row
increment 2, column increment 3, internal sizes 16 and 4, starts 0) as right operand,
thread (0, 0) of column block 0 reads at reduction step 0 and inner index 1, in each of the
four layout/transpose cases, an address that is not the address of the element
`op(B)(1, 0)` of the view: the index of the load (`i`, `i * internal_size2`,
`i * internal_size1`, `i`) leaves out the increment along the reduction dimension. -/
theorem gemm_right_operand_ignores_increment :
    (bv_address true true example_view 0 0 0 0 1 = 1
      ∧ spec_op_element_address true true example_view (16 * 0 + 1) (64 * 0 + 16 * 0 + 0) = 3)
    ∧ (bv_address true false example_view 0 0 0 0 1 = 4
      ∧ spec_op_element_address true false example_view (16 * 0 + 1) (64 * 0 + 16 * 0 + 0) = 8)
    ∧ (bv_address false true example_view 0 0 0 0 1 = 16
      ∧ spec_op_element_address false true example_view (16 * 0 + 1) (64 * 0 + 16 * 0 + 0) = 48)
    ∧ (bv_address false false example_view 0 0 0 0 1 = 1
      ∧ spec_op_element_address false false example_view (16 * 0 + 1) (64 * 0 + 16 * 0 + 0)
          = 2) := by
  decide

/-- C13: in each of the four layout/transpose cases of the left operand and for all
starts, increments and internal sizes, in iteration `s` of the outer loop (`a = aBegin +
s*aStep`) the value stored into `As[m + 16*k]`, `m = 4*i + row_thread_id`,
`k = col_thread_id`, is read at the linear address of the element
`op(A)(16*row_block_id + m, 16*s + k)` of the strided view; the staged block holds `op(A)`
in column-major order. -/
theorem gemm_left_operand_staging (is_row_major is_transposed : Bool) (LHS : matrix_view)
    (row_block_id row_thread_id col_thread_id s i : Nat) :
    (loop_counters (aBegin is_row_major is_transposed LHS row_block_id)
        (aStep is_row_major is_transposed LHS) 0 0 s).1
      = aBegin is_row_major is_transposed LHS row_block_id
        + s * aStep is_row_major is_transposed LHS
    ∧ As_index i row_thread_id col_thread_id
      = (4 * i + row_thread_id) + 16 * col_thread_id
    ∧ staged_address is_row_major is_transposed LHS row_block_id row_thread_id
        col_thread_id s i
      = spec_op_element_address is_row_major is_transposed LHS
          (16 * row_block_id + (4 * i + row_thread_id)) (16 * s + col_thread_id) := by
  refine ⟨by simp [loop_counters_eq], by simp [As_index, block_size, vector_size]; ring, ?_⟩
  simp only [staged_address, loop_counters_eq]
  cases is_row_major <;> cases is_transposed <;>
    simp [staging_address, aBegin, aStep, spec_op_element_address, spec_element_address,
      block_size, vector_size] <;> ring

/-- Two conversions to `int` in a row are one. -/
theorem to_int32_add (a b : Int) : to_int32 (to_int32 a + b) = to_int32 (a + b) := by
  unfold to_int32; omega

/-- Values below `2^31` are not changed by the conversion to `int`. -/
theorem to_int32_small (n : Nat) (h : n < 2147483648) : to_int32 (n : Int) = (n : Int) := by
  unfold to_int32; omega

/-- The variable `c` at the store of iteration `i` is the address of the cell of the
specification, converted to `int`. -/
theorem store_address_eq (is_row_major : Bool) (Assigned : matrix_view)
    (row_block_id col_block_id row_thread_id col_thread_id i : Nat) :
    store_address is_row_major Assigned row_block_id col_block_id row_thread_id
        col_thread_id i
      = to_int32 ((spec_element_address is_row_major Assigned
          (spec_write_back_cell row_block_id col_block_id row_thread_id col_thread_id i).1
          (spec_write_back_cell row_block_id col_block_id row_thread_id col_thread_id i).2
            : Nat) : Int) := by
  induction i with
  | zero =>
    cases is_row_major <;>
      simp only [store_address, c_begin, spec_element_address, spec_write_back_cell,
        block_size, vector_size, if_true, Bool.false_eq_true, if_false] <;>
      congr 2 <;> ring
  | succ n ih =>
    rw [store_address, ih]
    cases is_row_major <;>
      simp only [c_next, spec_element_address, spec_write_back_cell,
        block_size, vector_size, if_true, Bool.false_eq_true, if_false] <;>
      rw [to_int32_add, ← Nat.cast_add] <;> congr 2 <;> ring

/-- C14, amended: for both layouts of the assigned matrix and all starts, increments and
internal sizes, as long as the linear address of the element
`C(16*row_block_id + i, 64*col_block_id + 16*row_thread_id + col_thread_id)` of the strided
view is below `2^31` (the variable `c` is an `int`), the address `c` of the store of
iteration `i` is that linear address. -/
theorem gemm_write_back_address (is_row_major : Bool) (Assigned : matrix_view)
    (row_block_id col_block_id row_thread_id col_thread_id i : Nat)
    (h : spec_element_address is_row_major Assigned (16 * row_block_id + i)
          (64 * col_block_id + 16 * row_thread_id + col_thread_id) < 2147483648) :
    spec_write_back_cell row_block_id col_block_id row_thread_id col_thread_id i
      = (16 * row_block_id + i, 64 * col_block_id + 16 * row_thread_id + col_thread_id)
    ∧ store_address is_row_major Assigned row_block_id col_block_id row_thread_id
        col_thread_id i
      = ((spec_element_address is_row_major Assigned (16 * row_block_id + i)
          (64 * col_block_id + 16 * row_thread_id + col_thread_id) : Nat) : Int) := by
  have hc : spec_write_back_cell row_block_id col_block_id row_thread_id col_thread_id i
      = (16 * row_block_id + i, 64 * col_block_id + 16 * row_thread_id + col_thread_id) := by
    simp [spec_write_back_cell, block_size, vector_size]
  refine ⟨hc, ?_⟩
  rw [store_address_eq, hc]
  exact to_int32_small _ h

/-- Witness for C14: the store of iteration 3 by thread (1, 2) of block (0, 1) into the view
`example_view`. -/
theorem gemm_write_back_address_witness :
    spec_element_address true example_view (16 * 0 + 3) (64 * 1 + 16 * 1 + 2) < 2147483648
    ∧ store_address true example_view 0 1 1 2 3
      = ((spec_element_address true example_view (16 * 0 + 3) (64 * 1 + 16 * 1 + 2) : Nat)
          : Int) :=
  ⟨by decide, (gemm_write_back_address true example_view 0 1 1 2 3 (by decide)).2⟩

/-- C14, counterexample: for the row-major view `example_large_view` (rows of length 65536,
first row 32768) the element `C(0, 0)` has the linear address `2^31`, and the address `c` of
the first store of thread (0, 0) of block (0, 0) is `-2^31`. -/
theorem gemm_write_back_address_wraps :
    spec_write_back_cell 0 0 0 0 0 = (0, 0)
    ∧ spec_element_address true example_large_view 0 0 = 2147483648
    ∧ store_address true example_large_view 0 0 0 0 0 = -2147483648 := by
  decide

end viennacl.generator

/-! ## The text emitters of `make_code.hpp` -/

namespace viennacl.generator

set_option maxRecDepth 16000

/-- The text `"gid"` is shorter than an accessor that has it in front of further text. -/
theorem accessor_ne_gid (a b c : String) (h : 3 < a.length + c.length) :
    a ++ b ++ c ≠ "gid" := by
  intro e
  have := congrArg String.length e
  simp only [String.length_append] at this
  have h3 : "gid".length = 3 := by decide
  omega

/-- C16: generation of the matrix-matrix kernel fails exactly when the alignment differs
from 1, the row-major matrix-vector accumulation exactly when the alignment is neither 1
nor 16, the column-major one exactly when the alignment is not 1; a failure is the error
`AlignmentNotSupported`, which carries no text, and in every other case a text is
returned. -/
theorem unsupported_alignment_rejected (to_string : Nat → String) (token : MatMatToken)
    (U : prod_node) (dot_prod_name : String) :
    ((make_code.MatMatToken.value to_string token = .error .AlignmentNotSupported
        ↔ token.Alignment ≠ 1)
      ∧ ((∃ text, make_code.MatMatToken.value to_string token = .ok text)
        ↔ token.Alignment = 1))
    ∧ ((make_code.MatVecToken.fill_dot_prod.evaluate_row_major U dot_prod_name
          = .error .AlignmentNotSupported ↔ (U.Alignment ≠ 1 ∧ U.Alignment ≠ 16))
      ∧ ((∃ text, make_code.MatVecToken.fill_dot_prod.evaluate_row_major U dot_prod_name
            = .ok text) ↔ (U.Alignment = 1 ∨ U.Alignment = 16)))
    ∧ ((make_code.MatVecToken.fill_dot_prod.evaluate_column_major U dot_prod_name
          = .error .AlignmentNotSupported ↔ U.Alignment ≠ 1)
      ∧ ((∃ text, make_code.MatVecToken.fill_dot_prod.evaluate_column_major U dot_prod_name
            = .ok text) ↔ U.Alignment = 1)) := by
  refine ⟨?_, ?_, ?_⟩
  · unfold make_code.MatMatToken.value VIENNACL_STATIC_ASSERT
    by_cases h : token.Alignment = 1 <;> simp [h]
  · unfold make_code.MatVecToken.fill_dot_prod.evaluate_row_major VIENNACL_STATIC_ASSERT
    by_cases h : U.Alignment = 1
    · simp [h]
    · by_cases h2 : U.Alignment = 16 <;> simp [h, h2]
  · unfold make_code.MatVecToken.fill_dot_prod.evaluate_column_major VIENNACL_STATIC_ASSERT
    by_cases h : U.Alignment = 1 <;> simp [h]

/-- The loop over the products of a matrix-vector token leaves the text as it is. -/
theorem foldl_fill_dot_prod_execute (T : List prod_node) (res : String) :
    T.foldl (fun res U => make_code.MatVecToken.fill_dot_prod.execute U res) res = res := by
  induction T generalizing res with
  | nil => rfl
  | cons U rest ih => simp [make_code.MatVecToken.fill_dot_prod.execute]

/-- C17, evaluation of the code: for every list of products the text returned by
`make_code<MatVecToken<T> >::value()` at alignment 1 is empty, and at every other
alignment it is the declaration of `scaled_row` alone; for the token of the product `Ax` of
the row-major, untransposed matrix `A` of alignment 1 the returned text is empty, although
the product is rendered as the accumulator `dpAx` and `fill_dot_prod::evaluate`, which no
function calls, returns the statement that accumulates into it. -/
theorem matvec_value_without_accumulation (to_string : Nat → String) (T : List prod_node)
    (Alignment : Nat) :
    make_code.MatVecToken.value to_string ⟨T, 1⟩ = ""
    ∧ make_code.MatVecToken.value to_string ⟨T, Alignment + 2⟩
        = " unsigned int scaled_row = gid * " ++ to_string (Alignment + 2) ++ ";\n"
    ∧ make_code.MatVecToken.value to_string ⟨[example_product], 1⟩ = ""
    ∧ make_expression_code example_product.node "gid" = "dpAx"
    ∧ make_code.MatVecToken.fill_dot_prod.evaluate_row_major example_product "dpAx"
        = .ok "dpAx +=  dot(A[gid *A_internal_size2 + col],x[col]);\n" := by
  refine ⟨?_, ?_, ?_, by decide, by rfl⟩
  · simp [make_code.MatVecToken.value, foldl_fill_dot_prod_execute]
  · simp [make_code.MatVecToken.value, foldl_fill_dot_prod_execute]
  · rfl

/-- C18: `fill_dot_prod::evaluate` hands `dot_product` the matrix accessor
`gid * internal_size2 + col` for a row-major matrix of alignment 1, the accessor
`(scaled_row + k) * internal_size2 + col` for lane `k` of the accumulator of a row-major
matrix of alignment 16 (the sixteen lanes `.s0`, ..., `.sf`, each once and in this order),
and `gid + col * internal_size1` for a column-major matrix, and the vector accessor `col`
in every case; a symbolic matrix or vector is indexed by the accessor it is handed. -/
theorem matvec_stride_expression (U : prod_node) (dot_prod_name : String)
    (mat vec : symbolic_operand) (size : String) :
    (U.Alignment = 1 →
      make_code.MatVecToken.fill_dot_prod.evaluate_row_major U dot_prod_name
        = .ok (dot_prod_name ++ " +=  "
            ++ dot_product U.LHS U.RHS U.LHS_Alignment
                ("gid *" ++ U.internal_size2_expression ++ " + col") "col" ++ ";\n"))
    ∧ (U.Alignment = 16 →
      make_code.MatVecToken.fill_dot_prod.evaluate_row_major U dot_prod_name
        = .ok (String.join ((List.range 16).map (spec_lane_statement U dot_prod_name))))
    ∧ (U.Alignment = 1 →
      make_code.MatVecToken.fill_dot_prod.evaluate_column_major U dot_prod_name
        = .ok (dot_prod_name ++ "+=  "
            ++ dot_product U.LHS U.RHS U.LHS_Alignment
                ("gid  + col * " ++ U.internal_size1_expression) "col" ++ ";\n"))
    ∧ make_expression_code (.symbolic mat) ("gid *" ++ size ++ " + col")
        = mat.name ++ "[" ++ ("gid *" ++ size ++ " + col") ++ "]"
    ∧ (∀ k, make_expression_code (.symbolic mat) (spec_row_expression k ++ size ++ " + col")
        = mat.name ++ "[" ++ (spec_row_expression k ++ size ++ " + col") ++ "]")
    ∧ make_expression_code (.symbolic mat) ("gid  + col * " ++ size)
        = mat.name ++ "[" ++ ("gid  + col * " ++ size) ++ "]"
    ∧ make_expression_code (.symbolic vec) "col" = vec.name ++ "[col]" := by
  refine ⟨?_, ?_, ?_, ?_, ?_, ?_, ?_⟩
  · intro h
    simp [make_code.MatVecToken.fill_dot_prod.evaluate_row_major, VIENNACL_STATIC_ASSERT, h]
  · intro h
    have hr : List.range 16 = [0, 1, 2, 3, 4, 5, 6, 7, 8, 9, 10, 11, 12, 13, 14, 15] := by
      decide
    simp only [make_code.MatVecToken.fill_dot_prod.evaluate_row_major,
      VIENNACL_STATIC_ASSERT, h, hr, List.map, String.join, List.foldl, spec_lane_statement,
      show spec_lane_suffix 0 = ".s0" from by decide, show spec_lane_suffix 1 = ".s1" from by decide, show spec_lane_suffix 2 = ".s2" from by decide, show spec_lane_suffix 3 = ".s3" from by decide, show spec_lane_suffix 4 = ".s4" from by decide, show spec_lane_suffix 5 = ".s5" from by decide, show spec_lane_suffix 6 = ".s6" from by decide, show spec_lane_suffix 7 = ".s7" from by decide, show spec_lane_suffix 8 = ".s8" from by decide, show spec_lane_suffix 9 = ".s9" from by decide, show spec_lane_suffix 10 = ".sa" from by decide, show spec_lane_suffix 11 = ".sb" from by decide, show spec_lane_suffix 12 = ".sc" from by decide, show spec_lane_suffix 13 = ".sd" from by decide, show spec_lane_suffix 14 = ".se" from by decide, show spec_lane_suffix 15 = ".sf" from by decide, show spec_row_expression 0 = "scaled_row *" from by decide, show spec_row_expression 1 = "(scaled_row+1)*" from by decide, show spec_row_expression 2 = "(scaled_row+2)*" from by decide, show spec_row_expression 3 = "(scaled_row+3)*" from by decide, show spec_row_expression 4 = "(scaled_row+4)*" from by decide, show spec_row_expression 5 = "(scaled_row+5)*" from by decide, show spec_row_expression 6 = "(scaled_row+6)*" from by decide, show spec_row_expression 7 = "(scaled_row+7)*" from by decide, show spec_row_expression 8 = "(scaled_row+8)*" from by decide, show spec_row_expression 9 = "(scaled_row+9)*" from by decide, show spec_row_expression 10 = "(scaled_row+10)*" from by decide, show spec_row_expression 11 = "(scaled_row+11)*" from by decide, show spec_row_expression 12 = "(scaled_row+12)*" from by decide, show spec_row_expression 13 = "(scaled_row+13)*" from by decide, show spec_row_expression 14 = "(scaled_row+14)*" from by decide, show spec_row_expression 15 = "(scaled_row+15)*" from by decide]
    simp only [if_true, Except.ok.injEq, show ¬ (16 = 1) from by decide, if_false,
      show ((16 : Nat) == 1 || (16 : Nat) == 16) = true from by decide]
    apply String.ext
    simp [String.data_append]
  · intro h
    simp [make_code.MatVecToken.fill_dot_prod.evaluate_column_major, VIENNACL_STATIC_ASSERT, h]
  · have hne := accessor_ne_gid "gid *" size " + col" (by decide)
    simp only [make_expression_code, if_neg hne]
  · intro k
    have hne := accessor_ne_gid (spec_row_expression k) size " + col"
      (by have h6 : " + col".length = 6 := by decide
          omega)
    simp only [make_expression_code, if_neg hne]
  · have hne := accessor_ne_gid "gid  + col * " size "" (by decide)
    rw [String.append_empty] at hne
    simp only [make_expression_code, if_neg hne]
  · have hne : "col" ≠ "gid" := by decide
    simp only [make_expression_code, if_neg hne]
    apply String.ext
    simp [String.data_append]

/-- Witness for C18: the product `Ax` of the examples, of alignment 1. -/
theorem matvec_stride_expression_witness :
    example_product.Alignment = 1
    ∧ make_code.MatVecToken.fill_dot_prod.evaluate_row_major example_product "dpAx"
      = .ok ("dpAx" ++ " +=  "
          ++ dot_product example_product.LHS example_product.RHS example_product.LHS_Alignment
              ("gid *" ++ example_product.internal_size2_expression ++ " + col") "col"
          ++ ";\n") :=
  ⟨rfl, (matvec_stride_expression example_product "dpAx" (example_operand "A" true false)
    (example_operand "x" true false) "A_internal_size2").1 rfl⟩

/-- C19: `dot_product` emits for alignment 8 the sum of the two calls of `dot` over the
component groups `.s0123` and `.s4567` and for alignment 16 the sum of the four calls over
`.s0123`, `.s4567`, `.s89ab` and `.scdef`, each call on the same group of the left and of
the right operand, and for every other alignment one call over the whole operands; the
groups are pairwise disjoint and cover the 8 (16) lanes, and over exact arithmetic the
sum of the calls is the dot product of the 8 (16) lanes. -/
theorem wide_dot_products (LHS RHS : expression) (lhs_loop_id rhs_loop_id : String)
    (Alignment : Nat) (x y : Nat → Int) :
    dot_product LHS RHS 8 lhs_loop_id rhs_loop_id
      = spec_wide_dot (make_expression_code LHS lhs_loop_id)
          (make_expression_code RHS rhs_loop_id) (spec_lane_groups 8) [" ) + ", " );"]
    ∧ dot_product LHS RHS 16 lhs_loop_id rhs_loop_id
      = spec_wide_dot (make_expression_code LHS lhs_loop_id)
          (make_expression_code RHS rhs_loop_id) (spec_lane_groups 16)
          [")\n\t+ ", ") \n\t+ ", ") \n\t+ ", ")"]
    ∧ (Alignment ≠ 8 → Alignment ≠ 16 →
        spec_lane_groups Alignment = [""]
        ∧ dot_product LHS RHS Alignment lhs_loop_id rhs_loop_id
          = spec_wide_dot (make_expression_code LHS lhs_loop_id)
              (make_expression_code RHS rhs_loop_id) (spec_lane_groups Alignment) [")"])
    ∧ ((spec_lane_groups 8).map swizzle_lanes = [[0, 1, 2, 3], [4, 5, 6, 7]]
      ∧ ((spec_lane_groups 8).map swizzle_lanes).flatten = List.range 8)
    ∧ ((spec_lane_groups 16).map swizzle_lanes
        = [[0, 1, 2, 3], [4, 5, 6, 7], [8, 9, 10, 11], [12, 13, 14, 15]]
      ∧ ((spec_lane_groups 16).map swizzle_lanes).flatten = List.range 16)
    ∧ ((spec_lane_groups 8).map (fun group => lane_dot x y (swizzle_lanes group))).sum
        = lane_dot x y (List.range 8)
    ∧ ((spec_lane_groups 16).map (fun group => lane_dot x y (swizzle_lanes group))).sum
        = lane_dot x y (List.range 16)
    ∧ (count_occurrences "dot(".toList
          (dot_product example_inner_prod.LHS example_inner_prod.RHS 8 "gid" "gid").toList = 2
      ∧ count_occurrences "dot(".toList
          (dot_product example_inner_prod.LHS example_inner_prod.RHS 16 "gid" "gid").toList = 4
      ∧ count_occurrences "dot(".toList
          (dot_product example_inner_prod.LHS example_inner_prod.RHS 1 "gid" "gid").toList
          = 1) := by
  have h8 : (spec_lane_groups 8).map swizzle_lanes = [[0, 1, 2, 3], [4, 5, 6, 7]] := by
    decide
  have h16 : (spec_lane_groups 16).map swizzle_lanes
      = [[0, 1, 2, 3], [4, 5, 6, 7], [8, 9, 10, 11], [12, 13, 14, 15]] := by decide
  have g8 : spec_lane_groups 8 = [".s0123", ".s4567"] := by decide
  have g16 : spec_lane_groups 16 = [".s0123", ".s4567", ".s89ab", ".scdef"] := by decide
  refine ⟨?_, ?_, ?_, ⟨h8, by rw [h8]; decide⟩, ⟨h16, by rw [h16]; decide⟩, ?_, ?_,
    by rfl, by rfl, by rfl⟩
  · simp only [dot_product, dot_product_impl, spec_wide_dot, g8, spec_dot_call, String.join,
      List.zipWith, List.foldl, if_true]
    apply String.ext
    simp [String.data_append]
  · simp only [dot_product, dot_product_impl, spec_wide_dot, g16, spec_dot_call,
      String.join, List.zipWith, List.foldl, if_true, show ¬ (16 = 8) from by decide,
      if_false]
    apply String.ext
    simp [String.data_append]
  · intro n8 n16
    have g : spec_lane_groups Alignment = [""] := by simp [spec_lane_groups, n8, n16]
    refine ⟨g, ?_⟩
    simp only [dot_product, dot_product_impl, spec_wide_dot, g, spec_dot_call, String.join,
      List.zipWith, List.foldl, if_neg n8, if_neg n16]
    apply String.ext
    simp [String.data_append]
  · have e : (spec_lane_groups 8).map (fun group => lane_dot x y (swizzle_lanes group))
        = ((spec_lane_groups 8).map swizzle_lanes).map (lane_dot x y) := by
      simp [List.map_map, Function.comp_def]
    rw [e, h8]
    have hr : List.range 8 = [0, 1, 2, 3, 4, 5, 6, 7] := by decide
    simp [lane_dot, hr]
    ring
  · have e : (spec_lane_groups 16).map (fun group => lane_dot x y (swizzle_lanes group))
        = ((spec_lane_groups 16).map swizzle_lanes).map (lane_dot x y) := by
      simp [List.map_map, Function.comp_def]
    rw [e, h16]
    have hr : List.range 16 = [0, 1, 2, 3, 4, 5, 6, 7, 8, 9, 10, 11, 12, 13, 14, 15] := by
      decide
    simp [lane_dot, hr]
    ring

/-- Witness for C19: the alignment 4, which is neither 8 nor 16. -/
theorem wide_dot_products_witness :
    (4 : Nat) ≠ 8 ∧ (4 : Nat) ≠ 16
    ∧ dot_product example_inner_prod.LHS example_inner_prod.RHS 4 "gid" "gid"
      = spec_wide_dot (make_expression_code example_inner_prod.LHS "gid")
          (make_expression_code example_inner_prod.RHS "gid") (spec_lane_groups 4) [")"] :=
  ⟨by decide, by decide,
   ((wide_dot_products example_inner_prod.LHS example_inner_prod.RHS "gid" "gid" 4
      (fun _ => 0) (fun _ => 0)).2.2.1 (by decide) (by decide)).2⟩

end viennacl.generator

/-! ## The control structure of the emitted kernels -/

namespace viennacl.generator

set_option maxRecDepth 16000

/-- The loop that appends `"0,"` appends to what it starts from. -/
theorem foldl_append_zero (l : List Nat) (init : String) :
    l.foldl (fun res _ => res ++ "0,") init
      = init ++ String.join (l.map (fun _ => "0,")) := by
  induction l generalizing init with
  | nil => simp [String.join]
  | cons a rest ih =>
    rw [List.foldl_cons, ih, List.map_cons]
    have hj : ∀ (x : String) (xs : List String),
        String.join (x :: xs) = x ++ String.join xs := by
      intro x xs
      simp only [String.join, List.foldl_cons]
      have hg : ∀ (ys : List String) (a b : String),
          ys.foldl (fun r s => r ++ s) (a ++ b) = a ++ ys.foldl (fun r s => r ++ s) b := by
        intro ys
        induction ys with
        | nil => intro a b; rfl
        | cons y ys ihy => intro a b; simp only [List.foldl_cons, String.append_assoc, ihy]
      have := hg xs x ""
      simpa using this
    rw [hj, String.append_assoc]

/-- The text of the control structure of a list of inner products is the text the loop
over the list appends, when this is so for every inner product. -/
theorem control_structure_of_list_render (f : inner_prod_node → code)
    (g : inner_prod_node → String → String)
    (hg : ∀ U res, g U res = res ++ (f U).render) (T : List inner_prod_node) :
    (control_structure_of_list f T).render = T.foldl (fun res U => g U res) "" := by
  have h : ∀ (T : List inner_prod_node) (c : code),
      (T.foldl (fun c U => code.seq c (f U)) c).render
        = T.foldl (fun res U => g U res) c.render := by
    intro T
    induction T with
    | nil => intro c; rfl
    | cons U rest ih => intro c; simp only [List.foldl_cons, ih, code.render, hg]
  exact h T (.text "")

/-- The control structure of a list of inner products is well formed when the control
structure of every inner product is. -/
theorem control_structure_of_list_well_formed (f : inner_prod_node → code)
    (hf : ∀ U, (f U).well_formed = true) (T : List inner_prod_node) :
    (control_structure_of_list f T).well_formed = true := by
  have h : ∀ (T : List inner_prod_node) (c : code), c.well_formed = true →
      (T.foldl (fun c U => code.seq c (f U)) c).well_formed = true := by
    intro T
    induction T with
    | nil => intro c hc; exact hc
    | cons U rest ih =>
      intro c hc
      exact ih _ (by simp [code.well_formed, hc, hf])
  exact h T (.text "") rfl

/-- The barriers of the control structure of a list of inner products are uniform when
those of every inner product are. -/
theorem control_structure_of_list_barriers_uniform (f : inner_prod_node → code)
    (hf : ∀ U, (f U).barriers_uniform = true) (T : List inner_prod_node) :
    (control_structure_of_list f T).barriers_uniform = true := by
  have h : ∀ (T : List inner_prod_node) (c : code), c.barriers_uniform = true →
      (T.foldl (fun c U => code.seq c (f U)) c).barriers_uniform = true := by
    intro T
    induction T with
    | nil => intro c hc; exact hc
    | cons U rest ih =>
      intro c hc
      apply ih
      have hU := hf U
      unfold code.barriers_uniform at hc hU ⊢
      simp only [code.barrier_contexts, List.all_append, hc, hU, Bool.and_self]
  exact h T (.text "") rfl

/-- The text of the control structure of the group reduction of one inner product. -/
theorem reduction_control_structure_render (ARG : inner_prod_node) (generated_code : String) :
    make_code.InProdToken_1.generate_code_reduction ARG generated_code
      = generated_code ++ (make_code.InProdToken_1.reduction_control_structure ARG).render := by
  simp only [make_code.InProdToken_1.generate_code_reduction,
    make_code.InProdToken_1.reduction_control_structure, code.sequence, code.render]
  apply String.ext
  simp [String.data_append]

/-- The text of the control structure of the final reduction of one inner product. -/
theorem final_control_structure_render (U : inner_prod_node) (generated_code : String) :
    make_code.InProdToken_0.generate_code U generated_code
      = generated_code ++ (make_code.InProdToken_0.control_structure U).render := by
  simp only [make_code.InProdToken_0.generate_code,
    make_code.InProdToken_0.control_structure, code.sequence, code.render]
  apply String.ext
  simp [String.data_append]

/-- The text of the control structure of the matrix-matrix kernel. -/
theorem matmat_control_structure_render (to_string : Nat → String) (token : MatMatToken) :
    make_code.MatMatToken.value to_string token
      = VIENNACL_STATIC_ASSERT (token.Alignment == 1)
          (make_code.MatMatToken.control_structure to_string token).render := by
  unfold make_code.MatMatToken.value
  refine congrArg (VIENNACL_STATIC_ASSERT (token.Alignment == 1)) ?_
  simp only [make_code.MatMatToken.control_structure, make_code.MatMatToken.declarations,
    code.sequence, code.render, foldl_append_zero]
  apply String.ext
  simp [String.data_append]

/-- C20: the text of the group reduction and of the final reduction of every list of inner
products and the text of the matrix-matrix kernel of every token are the texts of control
structures in which the body of every loop and `if` is one statement or block and in which
no barrier is in the body of an `if`: every `barrier(CLK_LOCAL_MEM_FENCE)` is a direct
statement of the outermost block or of one `for` loop, whose header
(`stride = get_local_size(0)/2; stride > 0; stride /= 2` in the reductions,
`a = aBegin, b = bBegin; a < aEnd; a += aStep, b += bStep` in the matrix-matrix kernel) does
not name the lane; the declarations of `aBegin`, `aStep`, `aEnd`, `bBegin` and `bStep` of the
example operands do not name the lane either, in each of the four cases. -/
theorem no_divergent_barrier (to_string : Nat → String) (T : List inner_prod_node)
    (U : inner_prod_node) (token : MatMatToken) :
    ((control_structure_of_list make_code.InProdToken_1.reduction_control_structure T).render
        = make_code.InProdToken_1.reduction T
      ∧ (control_structure_of_list
          make_code.InProdToken_1.reduction_control_structure T).well_formed = true
      ∧ (control_structure_of_list
          make_code.InProdToken_1.reduction_control_structure T).barriers_uniform = true
      ∧ (make_code.InProdToken_1.reduction_control_structure U).barrier_contexts
        = [["for (unsigned int stride = get_local_size(0)/2; stride > 0; stride /= 2)\n"]])
    ∧ ((control_structure_of_list make_code.InProdToken_0.control_structure T).render
        = make_code.InProdToken_0.value T
      ∧ (control_structure_of_list
          make_code.InProdToken_0.control_structure T).well_formed = true
      ∧ (control_structure_of_list
          make_code.InProdToken_0.control_structure T).barriers_uniform = true
      ∧ (make_code.InProdToken_0.control_structure U).barrier_contexts
        = [["for (unsigned int stride = get_local_size(0)/2; stride > 0; stride /= 2)\n   "],
           []])
    ∧ (make_code.MatMatToken.value to_string token
        = VIENNACL_STATIC_ASSERT (token.Alignment == 1)
            (make_code.MatMatToken.control_structure to_string token).render
      ∧ (make_code.MatMatToken.control_structure to_string token).well_formed = true
      ∧ (make_code.MatMatToken.control_structure to_string token).barriers_uniform = true
      ∧ (make_code.MatMatToken.control_structure to_string token).barrier_contexts
        = [["for(size_t a = aBegin, b = bBegin; a < aEnd; a += aStep, b += bStep) "],
           ["for(size_t a = aBegin, b = bBegin; a < aEnd; a += aStep, b += bStep) "]])
    ∧ (∀ is_row_major is_transposed : Bool,
        lane_dependent (make_code.MatMatToken.a_bounds toString
          (example_operand "A" is_row_major is_transposed)) = false
        ∧ lane_dependent (make_code.MatMatToken.b_bounds toString
          (example_operand "B" is_row_major is_transposed)) = false) := by
  have u1 : ∀ U, (make_code.InProdToken_1.reduction_control_structure U).barriers_uniform
      = true := fun _ => rfl
  have u0 : ∀ U, (make_code.InProdToken_0.control_structure U).barriers_uniform = true :=
    fun _ => rfl
  refine ⟨⟨?_, ?_, ?_, rfl⟩, ⟨?_, ?_, ?_, rfl⟩, ⟨?_, rfl, rfl, rfl⟩, ?_⟩
  · exact control_structure_of_list_render _ _ reduction_control_structure_render T
  · exact control_structure_of_list_well_formed
      make_code.InProdToken_1.reduction_control_structure (fun _ => rfl) T
  · exact control_structure_of_list_barriers_uniform _ u1 T
  · exact control_structure_of_list_render _ _ final_control_structure_render T
  · exact control_structure_of_list_well_formed
      make_code.InProdToken_0.control_structure (fun _ => rfl) T
  · exact control_structure_of_list_barriers_uniform _ u0 T
  · exact matmat_control_structure_render to_string token
  · decide

end viennacl.generator

/-! ## The emitted reductions: strides, a single group, accesses to the local memory -/

namespace viennacl

/-- The reduction loop runs its body at the strides of its header, one after the other. -/
theorem reduction_loop_strides (L : Nat) : ∀ (fuel stride : Nat) (sh : Nat → Int),
    reduction_loop L fuel stride sh
      = ((reduction_strides fuel stride).1.foldl (fun sh st => reduction_step L st sh) sh,
         (reduction_strides fuel stride).2) := by
  intro fuel
  induction fuel with
  | zero => intro stride sh; rfl
  | succ n ih =>
    intro stride sh
    by_cases h : 0 < stride
    · simp only [reduction_loop, reduction_strides, h, if_true, List.foldl_cons, ih]
    · simp [reduction_loop, reduction_strides, h]

/-- Started at the stride `2^j` the loop runs at the strides `2^j`, ..., `2`, `1`. -/
theorem reduction_strides_pow (j : Nat) : ∀ fuel, j + 2 ≤ fuel →
    reduction_strides fuel (2 ^ j)
      = ((List.range (j + 1)).reverse.map (fun i => 2 ^ i), true) := by
  induction j with
  | zero =>
    intro fuel hf
    obtain ⟨f, rfl⟩ : ∃ f, fuel = f + 2 := ⟨fuel - 2, by omega⟩
    simp [reduction_strides]
    rfl
  | succ j ih =>
    intro fuel hf
    obtain ⟨f, rfl⟩ : ∃ f, fuel = f + 1 := ⟨fuel - 1, by omega⟩
    have hpos : 0 < 2 ^ (j + 1) := pow_pos (by decide) _
    have hhalf : 2 ^ (j + 1) / 2 = 2 ^ j := by
      rw [pow_succ]; exact Nat.mul_div_cancel _ (by decide)
    simp only [reduction_strides, hpos, if_true, hhalf, ih f (by omega)]
    rw [List.range_succ (j + 1), List.reverse_append]
    simp

/-- C27: for every local size `L = 2^k` with `k ≤ 32`, which covers every work-group
whose half size the `unsigned int` stride holds, and every content of the local memory,
the emitted loop is left, its body
runs at the strides `2^(k-1)`, ..., `2`, `1`, that is exactly `k = log2(L)` times, each time
adding cell `lane + stride` to the cell of every lane below `stride`, and afterwards cell 0
holds the sum of the `L` initial cells, over exact arithmetic. -/
theorem tree_reduction_power_of_two (k : Nat) (hk : k ≤ 32) (sh : Nat → Int) :
    (reduction_strides 33 ((2 ^ k / 2) % uint_range)).2 = true
    ∧ (reduction_strides 33 ((2 ^ k / 2) % uint_range)).1
        = (List.range k).reverse.map (fun i => 2 ^ i)
    ∧ (reduction_strides 33 ((2 ^ k / 2) % uint_range)).1.length = k
    ∧ reduction_loop (2 ^ k) 33 ((2 ^ k / 2) % uint_range) sh
        = (((List.range k).reverse.map (fun i => 2 ^ i)).foldl
            (fun sh st => reduction_step (2 ^ k) st sh) sh, true)
    ∧ (reduction_loop (2 ^ k) 33 ((2 ^ k / 2) % uint_range) sh).1 0
        = ∑ c in Finset.range (2 ^ k), sh c := by
  have hs : reduction_strides 33 ((2 ^ k / 2) % uint_range)
      = ((List.range k).reverse.map (fun i => 2 ^ i), true) := by
    cases k with
    | zero => rfl
    | succ j =>
      have hhalf : 2 ^ (j + 1) / 2 = 2 ^ j := by
        rw [pow_succ]; exact Nat.mul_div_cancel _ (by decide)
      have hle : 2 ^ j ≤ 2 ^ 31 := Nat.pow_le_pow_right (by decide) (by omega)
      have hlt : 2 ^ j < uint_range := by
        have : (2 : Nat) ^ 31 < uint_range := by decide
        omega
      rw [hhalf, Nat.mod_eq_of_lt hlt]
      exact reduction_strides_pow j 33 (by omega)
  refine ⟨by rw [hs], by rw [hs], by rw [hs]; simp, ?_, ?_⟩
  · rw [reduction_loop_strides, hs]
  · cases k with
    | zero => simp [reduction_loop]
    | succ j =>
      have hhalf : 2 ^ (j + 1) / 2 = 2 ^ j := by
        rw [pow_succ]; exact Nat.mul_div_cancel _ (by decide)
      have hle : 2 ^ j ≤ 2 ^ 31 := Nat.pow_le_pow_right (by decide) (by omega)
      have hlt : 2 ^ j < uint_range := by
        have : (2 : Nat) ^ 31 < uint_range := by decide
        omega
      rw [hhalf, Nat.mod_eq_of_lt hlt]
      exact (reduction_loop_pow (2 ^ (j + 1)) j 33 sh (le_refl _) (by omega)).2

/-- Witness for C27: a work-group of `2^3 = 8` lanes whose cell `c` holds `c`. -/
theorem tree_reduction_power_of_two_witness :
    3 ≤ 32
    ∧ (reduction_strides 33 ((2 ^ 3 / 2) % uint_range)).1.length = 3
    ∧ (reduction_loop (2 ^ 3) 33 ((2 ^ 3 / 2) % uint_range) (fun c => (c : Int))).1 0
        = ∑ c in Finset.range (2 ^ 3), (c : Int) :=
  ⟨by decide,
   (tree_reduction_power_of_two 3 (by decide) (fun c => (c : Int))).2.2.1,
   (tree_reduction_power_of_two 3 (by decide) (fun c => (c : Int))).2.2.2.2⟩

/-- When the cells from 1 on of the work-group hold 0, the reduction loop leaves cell 0 as
it is, for every local size. -/
theorem reduction_loop_zero_cells (L : Nat) : ∀ (fuel stride : Nat) (sh : Nat → Int),
    2 * stride ≤ L → (∀ c, 1 ≤ c → c < L → sh c = 0) →
      (reduction_loop L fuel stride sh).1 0 = sh 0 := by
  intro fuel
  induction fuel with
  | zero => intro stride sh _ _; rfl
  | succ n ih =>
    intro stride sh hs hz
    by_cases h : 0 < stride
    · simp only [reduction_loop, h, if_true]
      rw [ih (stride / 2) (reduction_step L stride sh) (by omega)]
      · have h0 : (0 : Nat) < L := by omega
        simp only [reduction_step, h0, h, and_self, if_true, zero_add]
        rw [hz stride (by omega) (by omega)]
        simp
      · intro c hc1 hcL
        unfold reduction_step
        by_cases hcs : c < stride
        · rw [if_pos ⟨hcL, hcs⟩, hz c hc1 hcL, hz (c + stride) (by omega) (by omega)]
          simp
        · rw [if_neg (fun hh => hcs hh.2), hz c hc1 hcL]
    · simp [reduction_loop, h]

/-- C22: when the number of groups is 1, for every local size `L` with `1 ≤ L < 2^32`,
a power of two or not (the range of the `unsigned int` counter `i` of the accumulating
loop holds the size of every work-group that can be launched), all loops of the emitted
final reduction are left and the value written to the local value of the inner product is
the partial result at index 0 of the group-indexed buffer. -/
theorem final_reduction_single_group (L fuel : Nat) (r sh0 : Nat → Int)
    (hL : 1 ≤ L) (hL32 : L < uint_range) (hf : 2 ≤ fuel) :
    final_reduction 1 L fuel r sh0 = some (r 0) := by
  obtain ⟨f, rfl⟩ : ∃ f, fuel = f + 2 := ⟨fuel - 2, by omega⟩
  have hsum : ∀ lid, lid < L →
      final_sum_loop r 1 L (f + 2) (lid % uint_range) 0
        = (if lid = 0 then r 0 else 0, true) := by
    intro lid hlid
    rw [Nat.mod_eq_of_lt (by omega)]
    by_cases h0 : lid = 0
    · subst h0
      have hLm : (0 + L) % uint_range = L := by rw [zero_add]; exact Nat.mod_eq_of_lt hL32
      have hnot : ¬ L < 1 := by omega
      rw [final_sum_loop, if_pos (by decide : (0 : Nat) < 1), hLm, final_sum_loop,
        if_neg hnot, zero_add, if_pos rfl]
    · have hnot : ¬ lid < 1 := by omega
      simp [final_sum_loop, hnot, h0]
  have hexit : (reduction_loop L 33 ((L / 2) % uint_range)
      (fun lid => if lid < L then
          (final_sum_loop r 1 L (f + 2) (lid % uint_range) 0).1
        else sh0 lid)).2 = true :=
    reduction_loop_exits L 32 _ _ (Nat.mod_lt _ (by decide))
  unfold final_reduction
  rw [if_pos ⟨fun lid hlid => by rw [hsum lid hlid], hexit⟩]
  congr 1
  rw [reduction_loop_zero_cells L 33 _ _
    (by rw [Nat.mod_eq_of_lt (by omega)]; omega)
    (by
      intro c hc1 hcL
      simp only [hcL, if_true]
      rw [hsum c hcL]
      simp
      omega)]
  have h0 : (0 : Nat) < L := by omega
  simp only [h0, if_true]
  rw [hsum 0 h0]
  simp

/-- Witness for C22: one group, a local size of 3, which is not a power of two, and the
partial result 7. -/
theorem final_reduction_single_group_witness :
    1 ≤ 3 ∧ 3 < uint_range ∧ 2 ≤ 2
    ∧ final_reduction 1 3 2 (fun _ => 7) (fun _ => 0) = some ((fun _ => (7 : Int)) 0) :=
  ⟨by decide, by decide, by decide,
   final_reduction_single_group 3 2 (fun _ => 7) (fun _ => 0) (by decide) (by decide)
    (by decide)⟩

end viennacl

/-! ## The barriers between the accesses of the emitted reductions -/

namespace viennacl

/-- The pending writes after two lists of events. -/
theorem pending_after_append (xs ys : List local_memory_event) :
    ∀ p, pending_after p (xs ++ ys) = pending_after (pending_after p xs) ys := by
  induction xs with
  | nil => intro p; rfl
  | cons e rest ih =>
    intro p
    cases e with
    | read lane cell => exact ih _
    | write lane cell => exact ih _
    | barrier => exact ih _

/-- The unseparated reads of two lists of events. -/
theorem unseparated_reads_from_append (xs ys : List local_memory_event) :
    ∀ p, unseparated_reads_from p (xs ++ ys)
      = unseparated_reads_from p xs ++ unseparated_reads_from (pending_after p xs) ys := by
  induction xs with
  | nil => intro p; rfl
  | cons e rest ih =>
    intro p
    cases e with
    | read lane cell =>
      show _ ++ unseparated_reads_from p (rest ++ ys)
        = (_ ++ unseparated_reads_from p rest) ++ unseparated_reads_from (pending_after p rest) ys
      rw [ih, List.append_assoc]
    | write lane cell => exact ih _
    | barrier => exact ih _

/-- The store that starts a reduction reads nothing and leaves cell `l` pending for lane
`l`. -/
theorem store_events_spec (L : Nat) (p : Nat → Option Nat) :
    unseparated_reads_from p (store_events L) = []
    ∧ pending_after p (store_events L) = fun c => if c < L then some c else p c := by
  induction L with
  | zero => exact ⟨rfl, by funext c; simp [store_events, pending_after]⟩
  | succ n ih =>
    have e : store_events (n + 1) = store_events n ++ [local_memory_event.write n n] := by
      simp [store_events, List.range_succ]
    rw [e, unseparated_reads_from_append, pending_after_append, ih.1, ih.2]
    refine ⟨rfl, ?_⟩
    funext c
    simp only [pending_after]
    by_cases h1 : c = n
    · subst h1; simp
    · by_cases h2 : c < n
      · have : c < n + 1 := by omega
        simp [h1, h2, this]
      · have : ¬ c < n + 1 := by omega
        simp [h1, h2, this]

/-- After a barrier the lanes below the stride read their own cell and a cell from the
stride on, while the cells written lie below the stride: no read is unseparated. -/
theorem step_lanes_spec (stride L : Nat) :
    unseparated_reads_from (fun _ => none)
        (((List.range L).filter (fun l => l < stride)).flatMap
          (fun l => [local_memory_event.read l l, local_memory_event.read l (l + stride),
            local_memory_event.write l l])) = []
    ∧ pending_after (fun _ => none)
        (((List.range L).filter (fun l => l < stride)).flatMap
          (fun l => [local_memory_event.read l l, local_memory_event.read l (l + stride),
            local_memory_event.write l l]))
      = fun c => if c < L ∧ c < stride then some c else none := by
  induction L with
  | zero => exact ⟨rfl, by funext c; simp [pending_after]⟩
  | succ n ih =>
    rw [List.range_succ, List.filter_append, List.flatMap_append,
      unseparated_reads_from_append, pending_after_append, ih.1, ih.2]
    by_cases hn : n < stride
    · have hf : List.filter (fun l => decide (l < stride)) [n] = [n] := by simp [hn]
      rw [hf]
      constructor
      · have h1 : ¬ (n < n ∧ n < stride) := by omega
        have h2 : ¬ (n + stride < n ∧ n + stride < stride) := by omega
        simp [unseparated_reads_from, h1, h2]
      · funext c
        simp only [List.flatMap_cons, List.flatMap_nil, List.append_nil, pending_after]
        by_cases h1 : c = n
        · subst h1; simp [hn]
        · by_cases h2 : c < n
          · have : c < n + 1 := by omega
            simp [h1, h2, this]
          · have : ¬ c < n + 1 := by omega
            simp [h1, h2, this]
    · have hf : List.filter (fun l => decide (l < stride)) [n] = [] := by simp [hn]
      rw [hf]
      refine ⟨rfl, ?_⟩
      funext c
      simp only [List.flatMap_nil, pending_after]
      by_cases h2 : c < n
      · have : c < n + 1 := by omega
        simp [h2, this]
      · by_cases h1 : c = n
        · subst h1; simp [hn]
        · have : ¬ c < n + 1 := by omega
          simp [h2, this]

/-- One step of the reduction loop has no unseparated read, whatever was pending before
its barrier. -/
theorem step_events_spec (L stride : Nat) (p : Nat → Option Nat) :
    unseparated_reads_from p (step_events L stride) = []
    ∧ pending_after p (step_events L stride)
      = fun c => if c < L ∧ c < stride then some c else none := by
  unfold step_events
  simp only [unseparated_reads_from, pending_after]
  exact step_lanes_spec stride L

/-- The steps of the reduction loop have no unseparated read; what is pending after them is
what the last step wrote. -/
theorem steps_events_spec (L : Nat) (strides : List Nat) :
    ∀ p : Nat → Option Nat,
      unseparated_reads_from p (strides.flatMap (step_events L)) = []
      ∧ pending_after p (strides.flatMap (step_events L))
        = match strides.getLast? with
          | none => p
          | some stride => fun c => if c < L ∧ c < stride then some c else none := by
  induction strides with
  | nil => intro p; exact ⟨rfl, rfl⟩
  | cons s rest ih =>
    intro p
    rw [List.flatMap_cons, unseparated_reads_from_append, pending_after_append,
      (step_events_spec L s p).1, (step_events_spec L s p).2, (ih _).1, (ih _).2,
      List.getLast?_cons]
    refine ⟨rfl, ?_⟩
    cases rest.getLast? <;> rfl

/-- A loop that is entered with a stride below `2^fuel` runs its last step at stride 1. -/
theorem reduction_strides_last : ∀ (fuel stride : Nat), 0 < stride → stride < 2 ^ fuel →
    (reduction_strides (fuel + 1) stride).1.getLast? = some 1 := by
  intro fuel
  induction fuel with
  | zero => intro stride h0 h1; simp at h1; omega
  | succ n ih =>
    intro stride h0 h1
    rw [reduction_strides, if_pos h0]
    simp only [List.getLast?_cons]
    by_cases h2 : stride / 2 = 0
    · have hs : stride = 1 := by omega
      subst hs
      simp [reduction_strides]
    · rw [ih (stride / 2) (by omega) (by rw [pow_succ] at h1; omega)]
      rfl

/-- After the store and the loop of a reduction cell 0 is pending for lane 0. -/
theorem pending_after_loop (L : Nat) (hL : 0 < L) (p : Nat → Option Nat) :
    pending_after p (store_events L ++ loop_events L) 0 = some 0 := by
  rw [pending_after_append, (store_events_spec L p).2]
  unfold loop_events
  rw [(steps_events_spec L _ _).2]
  by_cases h : (L / 2) % uint_range = 0
  · rw [h]
    simp [reduction_strides, hL]
  · have hlt : (L / 2) % uint_range < 2 ^ 32 := Nat.mod_lt _ (by decide)
    have hlast : (reduction_strides 33 ((L / 2) % uint_range)).1.getLast? = some 1 :=
      reduction_strides_last 32 _ (by omega) hlt
    rw [hlast]
    simp [hL]

/-- The store and the loop of a reduction have no unseparated read. -/
theorem unseparated_reads_loop (L : Nat) (p : Nat → Option Nat) :
    unseparated_reads_from p (store_events L ++ loop_events L) = [] := by
  rw [unseparated_reads_from_append, (store_events_spec L p).1]
  unfold loop_events
  rw [(steps_events_spec L _ _).1]
  rfl

/-- The reads of cell 0 by the lanes of a list while cell 0 is pending for lane 0: those
of the lanes other than 0 are unseparated. -/
theorem final_reads_spec (lanes : List Nat) (p : Nat → Option Nat) (h : p 0 = some 0) :
    unseparated_reads_from p (lanes.map (fun l => local_memory_event.read l 0))
      = (lanes.filter (fun l => l ≠ 0)).map (fun l => (l, 0))
    ∧ pending_after p (lanes.map (fun l => local_memory_event.read l 0)) = p := by
  induction lanes with
  | nil => exact ⟨rfl, rfl⟩
  | cons l rest ih =>
    constructor
    · simp only [List.map_cons, unseparated_reads_from, h, ih.1]
      by_cases hl : l = 0
      · subst hl; simp
      · have hl2 : (0 : Nat) ≠ l := fun e => hl e.symm
        simp [hl, hl2]
    · simp only [List.map_cons, pending_after, ih.2]

/-- The unseparated reads of the group reduction of one inner product, whatever is pending
before it: the reads of cell 0 by the lanes other than 0. -/
theorem unseparated_reads_group_reduction (L : Nat) (p : Nat → Option Nat) :
    unseparated_reads_from p (group_reduction_events L)
      = ((List.range L).filter (fun l => l ≠ 0)).map (fun l => (l, 0)) := by
  unfold group_reduction_events
  rw [unseparated_reads_from_append, unseparated_reads_loop, List.nil_append]
  by_cases hL : 0 < L
  · exact (final_reads_spec _ _ (pending_after_loop L hL p)).1
  · have h0 : L = 0 := by omega
    subst h0
    rfl

/-- The final reduction of one inner product has no unseparated read, whatever is pending
before it, and nothing is pending after it. -/
theorem unseparated_reads_final_reduction (L : Nat) (p : Nat → Option Nat) :
    unseparated_reads_from p (final_reduction_events L) = []
    ∧ pending_after p (final_reduction_events L) = fun _ => none := by
  unfold final_reduction_events
  have hb : ∀ (q : Nat → Option Nat) (xs : List local_memory_event),
      pending_after q (xs ++ [local_memory_event.barrier]) = fun _ => none := by
    intro q xs
    rw [pending_after_append]
    rfl
  refine ⟨?_, hb _ _⟩
  rw [unseparated_reads_from_append, unseparated_reads_from_append, unseparated_reads_loop,
    List.nil_append]
  by_cases hL : 0 < L
  · have hf : (List.range L).filter (fun l => decide (l = 0)) = [0] := by
      obtain ⟨n, rfl⟩ : ∃ n, L = n + 1 := ⟨L - 1, by omega⟩
      clear hL
      induction n with
      | zero => rfl
      | succ m ih => rw [List.range_succ, List.filter_append, ih]; simp
    rw [hf]
    simp [unseparated_reads_from, pending_after_loop L hL p]
  · have h0 : L = 0 := by omega
    subst h0
    rfl

/-- The unseparated reads of the group reductions of several inner products, one after the
other. -/
theorem unseparated_reads_reduction (L n : Nat) : ∀ p : Nat → Option Nat,
    unseparated_reads_from p (reduction_events L n)
      = (List.replicate n
          (((List.range L).filter (fun l => l ≠ 0)).map (fun l => (l, 0)))).flatten := by
  induction n with
  | zero => intro p; rfl
  | succ m ih =>
    intro p
    unfold reduction_events at ih ⊢
    rw [List.replicate_succ, List.flatten_cons, unseparated_reads_from_append,
      unseparated_reads_group_reduction, ih, List.replicate_succ, List.flatten_cons]

/-- The final reductions of several inner products, one after the other, have no
unseparated read. -/
theorem unseparated_reads_final_reductions (L n : Nat) : ∀ p : Nat → Option Nat,
    unseparated_reads_from p (final_reductions_events L n) = [] := by
  induction n with
  | zero => intro p; rfl
  | succ m ih =>
    intro p
    unfold final_reductions_events at ih ⊢
    rw [List.replicate_succ, List.flatten_cons, unseparated_reads_from_append,
      (unseparated_reads_final_reduction L p).1, ih, List.nil_append]

/-- C21, evaluation of the code: in the group reduction emitted by
`make_code<InProdToken<T,1>>::reduction`, run by a work-group of `L` lanes, the reads of
cell `lane + stride` in the steps of the loop are separated by a barrier from the writes of
the other lanes, but the read of `shared_memory_ptr[0]` from which the partial result of
the group is written is not: every lane other than lane 0 reads cell 0, which lane 0 wrote
last, with no barrier between the write and the read, for every local size and for each of
`n` inner products; for four lanes and one inner product these are the reads of the lanes
1, 2 and 3.  The final reduction emitted by `make_code<InProdToken<T,0>>::value`, in which
only lane 0 reads cell 0 and a barrier follows, has no such read. -/
theorem group_reduction_final_read_unseparated (L n : Nat) :
    unseparated_reads (reduction_events L n)
      = (List.replicate n
          (((List.range L).filter (fun l => l ≠ 0)).map (fun l => (l, 0)))).flatten
    ∧ unseparated_reads (store_events L ++ loop_events L) = []
    ∧ unseparated_reads (reduction_events 4 1) = [(1, 0), (2, 0), (3, 0)]
    ∧ unseparated_reads (final_reductions_events L n) = [] :=
  ⟨unseparated_reads_reduction L n _, unseparated_reads_loop L _, by decide,
   unseparated_reads_final_reductions L n _⟩

end viennacl

/-! ## The matrix-matrix kernel: store, staging indices, loop over the reduction dimension -/

namespace viennacl.generator

set_option maxRecDepth 16000

/-- C23: for every matrix-matrix token the body of the store loop, which runs for
`i = 0, ..., 15`, is the store `<C>[c]<OP>cv[i];` when the right-hand side has no scalar
factor and `<C>[c]<OP><scalar expression>* cv[i];` when it has one, `<OP>` being the
expression string of the combining operator and `<C>` the name of the assigned matrix,
followed by the increment of `c`, which depends on the layout of the assigned matrix only
and is the same with and without scalar factor. -/
theorem gemm_store_statement (to_string : Nat → String) (token : MatMatToken) :
    make_code.MatMatToken.store token
      = "    "
        ++ spec_store_statement token.Assigned.name token.OP_expression_string
            (if is_null_type token.SCALAR_EXPR then none
              else some (make_expression_code token.SCALAR_EXPR ""))
        ++ " \n"
        ++ (if token.Assigned.is_row_major then
              "      c += " ++ token.Assigned.internal_size2_name ++ " * "
                ++ token.Assigned.row_inc_name ++ "; \n"
            else "      c += " ++ token.Assigned.row_inc_name ++ "; \n")
    ∧ (∃ before, make_code.MatMatToken.value to_string token
        = VIENNACL_STATIC_ASSERT (token.Alignment == 1)
            (before ++ ("  for(size_t i = 0; i < " ++ to_string block_size ++ "; i++) \x7b \n")
              ++ make_code.MatMatToken.store token ++ "  \x7d \n" ++ "\x7d \n"))
    ∧ block_size = 16 := by
  refine ⟨?_, ⟨_, rfl⟩, rfl⟩
  unfold make_code.MatMatToken.store spec_store_statement
  cases token.Assigned.is_row_major <;> cases is_null_type token.SCALAR_EXPR <;>
    simp only [if_true, if_false, Bool.false_eq_true] <;>
    apply String.ext <;> simp [String.data_append]

/-- C25: `make_expression_code` renders an inner-product node as its `local_value()` and a
matrix-product node as `dp` followed by its name, for every loop accessor and whatever the
operands of the node are; any other binary node renders its two operands around the text
of the operator, between ` ( ` and ` ) `. -/
theorem product_nodes_render_as_accumulators (LHS RHS LHS2 RHS2 : expression)
    (names : compound_names) (loop_accessor loop_accessor2 expression_string : String)
    (T : inner_prod_node) (U : prod_node) :
    (make_expression_code (.compound_node LHS .inner_prod_type RHS names) loop_accessor
        = names.local_value
      ∧ make_expression_code (.compound_node LHS .inner_prod_type RHS names) loop_accessor
        = make_expression_code (.compound_node LHS2 .inner_prod_type RHS2 names)
            loop_accessor2
      ∧ make_expression_code T.node loop_accessor = T.local_value)
    ∧ (make_expression_code (.compound_node LHS .prod_type RHS names) loop_accessor
        = "dp" ++ names.name
      ∧ make_expression_code (.compound_node LHS .prod_type RHS names) loop_accessor
        = make_expression_code (.compound_node LHS2 .prod_type RHS2 names) loop_accessor2
      ∧ make_expression_code U.node loop_accessor = "dp" ++ U.name)
    ∧ make_expression_code (.compound_node LHS (.other expression_string) RHS names)
        loop_accessor
      = " ( " ++ make_expression_code LHS loop_accessor ++ expression_string
          ++ make_expression_code RHS loop_accessor ++ " ) " :=
  ⟨⟨rfl, rfl, rfl⟩, ⟨rfl, rfl, rfl⟩, rfl⟩

/-- C28: the array `As` has `block_size * block_size = 256` cells, and the index
`(4*i + row_thread_id) + 16*col_thread_id` of the staging statement, for `i < 4`,
`row_thread_id < 4` and `col_thread_id < 16`, is a bijection onto the indices below 256:
every index of a triple is below 256, different triples have different indices, and every
index below 256 is the index of a triple. -/
theorem gemm_staging_indices (n : Nat) :
    block_size * block_size = 256
    ∧ vector_size = 4
    ∧ (∀ i row_thread_id col_thread_id, i < 4 → row_thread_id < 4 → col_thread_id < 16 →
        As_index i row_thread_id col_thread_id
            = (4 * i + row_thread_id) + 16 * col_thread_id
          ∧ As_index i row_thread_id col_thread_id < 256)
    ∧ (∀ i row_thread_id col_thread_id i2 row_thread_id2 col_thread_id2,
        i < 4 → row_thread_id < 4 → col_thread_id < 16 →
        i2 < 4 → row_thread_id2 < 4 → col_thread_id2 < 16 →
        As_index i row_thread_id col_thread_id = As_index i2 row_thread_id2 col_thread_id2 →
        i = i2 ∧ row_thread_id = row_thread_id2 ∧ col_thread_id = col_thread_id2)
    ∧ (n < 256 ↔ ∃ i row_thread_id col_thread_id,
        i < 4 ∧ row_thread_id < 4 ∧ col_thread_id < 16
          ∧ As_index i row_thread_id col_thread_id = n) := by
  refine ⟨by decide, rfl, ?_, ?_, ?_⟩
  · intro i rt ct h1 h2 h3
    simp only [As_index, block_size, vector_size]
    omega
  · intro i rt ct i2 rt2 ct2 h1 h2 h3 h4 h5 h6 h
    simp only [As_index, block_size, vector_size] at h
    omega
  · constructor
    · intro h
      refine ⟨n % 16 / 4, n % 4, n / 16, ?_, ?_, ?_, ?_⟩
      · omega
      · omega
      · omega
      · simp only [As_index, block_size, vector_size]; omega
    · rintro ⟨i, rt, ct, h1, h2, h3, h⟩
      simp only [As_index, block_size, vector_size] at h
      omega

/-- Witness for C28: the triple `i = 3`, `row_thread_id = 3`, `col_thread_id = 15`, whose
index is the last cell of `As`. -/
theorem gemm_staging_indices_witness :
    As_index 3 3 15 = (4 * 3 + 3) + 16 * 15 ∧ As_index 3 3 15 < 256 :=
  (gemm_staging_indices 0).2.2.1 3 3 15 (by decide) (by decide) (by decide)

end viennacl.generator

/-! ## Parenthesised rendering, the kernels of a program, the precision check -/

namespace viennacl.generator

/-- The parentheses open behind two lists of characters. -/
theorem paren_depth_append (xs ys : List Char) : ∀ depth,
    paren_depth depth (xs ++ ys) = (paren_depth depth xs).bind (fun d => paren_depth d ys) := by
  induction xs with
  | nil => intro depth; rfl
  | cons c cs ih =>
    intro depth
    simp only [List.cons_append, paren_depth]
    by_cases h1 : c = '('
    · simp only [h1, if_true]
      exact ih _
    · by_cases h2 : c = ')'
      · simp only [h1, h2, if_true, if_false]
        cases depth with
        | zero => rfl
        | succ d => exact ih d
      · simp only [h1, h2, if_false]
        exact ih _

/-- A text without parentheses leaves the open parentheses as they are and counts for
nothing. -/
theorem paren_free_spec (s : String) (h : paren_free s = true) (depth : Nat) :
    paren_depth depth s.toList = some depth
    ∧ s.toList.count '(' = 0 ∧ s.toList.count ')' = 0 := by
  unfold paren_free at h
  simp only [Bool.and_eq_true, Bool.not_eq_true', List.contains_eq_any_beq, List.any_eq_false,
    beq_iff_eq] at h
  obtain ⟨h1, h2⟩ := h
  refine ⟨?_, ?_, ?_⟩
  · generalize s.toList = l at h1 h2
    induction l with
    | nil => rfl
    | cons c cs ih =>
      have hc1 : ¬ c = '(' := fun e => h1 c (List.mem_cons_self _ _) e.symm
      have hc2 : ¬ c = ')' := fun e => h2 c (List.mem_cons_self _ _) e.symm
      simp only [paren_depth, hc1, hc2, if_false]
      exact ih (fun x hx => h1 x (List.mem_cons_of_mem _ hx))
        (fun x hx => h2 x (List.mem_cons_of_mem _ hx))
  · rw [List.count_eq_zero]
    intro hm
    exact h1 _ hm rfl
  · rw [List.count_eq_zero]
    intro hm
    exact h2 _ hm rfl

/-- C29: for every tree built from leaves and binary nodes whose operator is neither the
inner product nor the matrix product, `make_expression_code` returns at a binary node
` ( `, the text of the left operand, the text of the operator, the text of the right
operand and ` ) `, and the empty text for `NullType`; when the texts of the leaves and of
the operators have no parenthesis, the parentheses of the returned text are balanced,
there are as many opening and as many closing parentheses as the tree has binary nodes,
and the texts of the leaves stand in the returned text in the order of the tree, from left
to right. -/
theorem parenthesised_infix_rendering (T : expression) (loop_accessor : String)
    (h : ordinary T = true) (hp : texts_paren_free T loop_accessor = true) :
    (∀ (LHS RHS : expression) (expression_string : String) (names : compound_names),
        make_expression_code (.compound_node LHS (.other expression_string) RHS names)
            loop_accessor
          = " ( " ++ make_expression_code LHS loop_accessor ++ expression_string
              ++ make_expression_code RHS loop_accessor ++ " ) ")
    ∧ make_expression_code .NullType loop_accessor = ""
    ∧ (∀ depth, paren_depth depth (make_expression_code T loop_accessor).toList = some depth)
    ∧ (make_expression_code T loop_accessor).toList.count '(' = binary_nodes T
    ∧ (make_expression_code T loop_accessor).toList.count ')' = binary_nodes T
    ∧ List.Sublist ((leaf_texts T loop_accessor).map String.toList).flatten
        (make_expression_code T loop_accessor).toList := by
  refine ⟨fun _ _ _ _ => rfl, rfl, ?_⟩
  have leaf : ∀ T : expression, paren_free (make_expression_code T loop_accessor) = true →
      binary_nodes T = 0 → leaf_texts T loop_accessor = [make_expression_code T loop_accessor] →
      (∀ depth, paren_depth depth (make_expression_code T loop_accessor).toList = some depth)
      ∧ (make_expression_code T loop_accessor).toList.count '(' = binary_nodes T
      ∧ (make_expression_code T loop_accessor).toList.count ')' = binary_nodes T
      ∧ List.Sublist ((leaf_texts T loop_accessor).map String.toList).flatten
          (make_expression_code T loop_accessor).toList := by
    intro T hfree hb hl
    refine ⟨fun depth => (paren_free_spec _ hfree depth).1, ?_, ?_, ?_⟩
    · rw [hb]; exact (paren_free_spec _ hfree 0).2.1
    · rw [hb]; exact (paren_free_spec _ hfree 0).2.2
    · rw [hl]; simp
  induction T with
  | NullType => exact leaf _ hp rfl rfl
  | symbolic S => exact leaf _ hp rfl rfl
  | cpu_symbolic_scalar name => exact leaf _ hp rfl rfl
  | gpu_symbolic_scalar name => exact leaf _ hp rfl rfl
  | inner_prod_impl_t S _ => simp [ordinary] at h
  | elementwise_modifier_impl S modify _ => simp [ordinary] at h
  | compound_node LHS OP RHS names ihL ihR =>
    cases OP with
    | inner_prod_type => simp [ordinary] at h
    | prod_type => simp [ordinary] at h
    | other expression_string =>
      simp only [ordinary, Bool.and_eq_true] at h
      simp only [texts_paren_free, Bool.and_eq_true] at hp
      obtain ⟨dL, cL1, cL2, sL⟩ := ihL h.1 hp.1.1
      obtain ⟨dR, cR1, cR2, sR⟩ := ihR h.2 hp.2
      obtain ⟨dO, cO1, cO2⟩ :=
        (⟨fun depth => (paren_free_spec _ hp.1.2 depth).1, (paren_free_spec _ hp.1.2 0).2.1,
          (paren_free_spec _ hp.1.2 0).2.2⟩ :
          (∀ depth, paren_depth depth expression_string.toList = some depth)
          ∧ expression_string.toList.count '(' = 0 ∧ expression_string.toList.count ')' = 0)
      have e : (make_expression_code
            (.compound_node LHS (.other expression_string) RHS names) loop_accessor).toList
          = [' ', '(', ' '] ++ ((make_expression_code LHS loop_accessor).toList
              ++ (expression_string.toList ++ ((make_expression_code RHS loop_accessor).toList
                ++ [' ', ')', ' ']))) := by
        simp [make_expression_code, String.toList, String.data_append]
      rw [e]
      refine ⟨?_, ?_, ?_, ?_⟩
      · intro depth
        rw [paren_depth_append]
        have h1 : paren_depth depth [' ', '(', ' '] = some (depth + 1) := by
          simp [paren_depth]
        rw [h1, Option.some_bind, paren_depth_append, dL, Option.some_bind,
          paren_depth_append, dO, Option.some_bind, paren_depth_append, dR,
          Option.some_bind]
        simp [paren_depth]
      · simp only [List.count_append, cL1, cR1, cO1, binary_nodes]
        have h1 : List.count '(' [' ', '(', ' '] = 1 := by decide
        have h2 : List.count '(' [' ', ')', ' '] = 0 := by decide
        omega
      · simp only [List.count_append, cL2, cR2, cO2, binary_nodes]
        have h1 : List.count ')' [' ', '(', ' '] = 0 := by decide
        have h2 : List.count ')' [' ', ')', ' '] = 1 := by decide
        omega
      · simp only [leaf_texts, List.map_append, List.flatten_append]
        apply List.Sublist.trans _ (List.sublist_append_right _ _)
        apply List.Sublist.append sL
        apply List.Sublist.trans _ (List.sublist_append_right _ _)
        exact List.Sublist.trans sR (List.sublist_append_left _ _)

/-- Witness for C29: the tree `(x + y) * a` with the loop accessor `i`, rendered as
` (  ( x[i] + y[i] )  * a ) `. -/
theorem parenthesised_infix_rendering_witness :
    ordinary example_tree = true ∧ texts_paren_free example_tree "i" = true
    ∧ make_expression_code example_tree "i" = " (  ( x[i] + y[i] )  * a ) "
    ∧ (∀ depth, paren_depth depth (make_expression_code example_tree "i").toList = some depth)
    ∧ (make_expression_code example_tree "i").toList.count '(' = binary_nodes example_tree :=
  ⟨by decide, by decide, by decide,
   (parenthesised_infix_rendering example_tree "i" (by decide) (by decide)).2.2.1,
   (parenthesised_infix_rendering example_tree "i" (by decide) (by decide)).2.2.2.1⟩

end viennacl.generator

namespace viennacl.ocl

/-- C26: `DOUBLE_PRECISION_CHECKER<ScalarType>::apply(ctx)` throws
`double_precision_not_provided_error` if and only if `ScalarType` is `double` and the
current device of `ctx` reports no double support; in every other case it returns. -/
theorem double_precision_check (ScalarType : String) (ctx : context) :
    (DOUBLE_PRECISION_CHECKER.apply ScalarType ctx
        = .error .double_precision_not_provided_error
      ↔ (ScalarType = "double" ∧ ctx.current_device.double_support = false))
    ∧ (DOUBLE_PRECISION_CHECKER.apply ScalarType ctx = .ok ()
      ↔ ¬ (ScalarType = "double" ∧ ctx.current_device.double_support = false))
    ∧ DOUBLE_PRECISION_CHECKER.apply "double" ⟨⟨false⟩⟩
        = .error .double_precision_not_provided_error
    ∧ DOUBLE_PRECISION_CHECKER.apply "double" ⟨⟨true⟩⟩ = .ok ()
    ∧ DOUBLE_PRECISION_CHECKER.apply "float" ⟨⟨false⟩⟩ = .ok () := by
  refine ⟨?_, ?_, rfl, rfl, rfl⟩
  · unfold DOUBLE_PRECISION_CHECKER.apply
    by_cases h : ScalarType = "double"
    · cases hd : ctx.current_device.double_support <;> simp [h, hd]
    · simp [h]
  · unfold DOUBLE_PRECISION_CHECKER.apply
    by_cases h : ScalarType = "double"
    · cases hd : ctx.current_device.double_support <;> simp [h, hd]
    · simp [h]

end viennacl.ocl

/-! ## The mapping of a statement in `core` -/

namespace viennacl.device_specific

end viennacl.device_specific

/-! ## The substitution of the right operand's name -/

namespace viennacl.generator

theorem starts_with_iff (pattern : List Char) :
    ∀ l : List Char, starts_with pattern l = true ↔ ∃ rest, l = pattern ++ rest := by
  induction pattern with
  | nil => intro l; simp [starts_with]
  | cons a as ih =>
    intro l
    cases l with
    | nil => simp [starts_with]
    | cons b bs =>
      simp only [starts_with, Bool.and_eq_true, beq_iff_eq, ih bs, List.cons_append,
        List.cons.injEq]
      constructor
      · rintro ⟨rfl, rest, rfl⟩
        exact ⟨rest, rfl, rfl⟩
      · rintro ⟨rest, rfl, rfl⟩
        exact ⟨rfl, rest, rfl⟩

theorem starts_with_append (pattern rest : List Char) :
    starts_with pattern (pattern ++ rest) = true :=
  (starts_with_iff pattern _).mpr ⟨rest, rfl⟩

theorem replace_first_of_starts_with (from_ to_ s : List Char)
    (h : starts_with from_ s = true) :
    replace_first from_ to_ s = some (to_ ++ s.drop from_.length) := by
  cases s with
  | nil =>
    cases from_ with
    | nil => simp [replace_first, starts_with]
    | cons a as => simp [starts_with] at h
  | cons c cs => simp [replace_first, h]

/-- Either the pattern occurs nowhere and `replace_first` gives `none`, or it gives the
text with the occurrence at the first position where the pattern occurs exchanged. -/
theorem replace_first_spec (from_ to_ : List Char) :
    ∀ s : List Char,
      (replace_first from_ to_ s = none
        ∧ ∀ p, p ≤ s.length → starts_with from_ (s.drop p) = false)
      ∨ (∃ p, p ≤ s.length ∧ starts_with from_ (s.drop p) = true
          ∧ (∀ q, q < p → starts_with from_ (s.drop q) = false)
          ∧ replace_first from_ to_ s
              = some (s.take p ++ to_ ++ s.drop (p + from_.length))) := by
  intro s
  induction s with
  | nil =>
    by_cases h : starts_with from_ [] = true
    · right
      refine ⟨0, le_refl _, by simpa using h, fun q hq => absurd hq (Nat.not_lt_zero q), ?_⟩
      rw [replace_first_of_starts_with _ _ _ h]
      simp
    · left
      refine ⟨by simp [replace_first, h], ?_⟩
      intro p _
      simpa using h
  | cons c cs ih =>
    by_cases h : starts_with from_ (c :: cs) = true
    · right
      refine ⟨0, Nat.zero_le _, by simpa using h, fun q hq => absurd hq (Nat.not_lt_zero q), ?_⟩
      rw [replace_first_of_starts_with _ _ _ h]
      simp
    · have hfalse : starts_with from_ (c :: cs) = false := by simpa using h
      rcases ih with ⟨hnone, hno⟩ | ⟨p, hp, hocc, hfirst, hres⟩
      · left
        refine ⟨by simp [replace_first, hfalse, hnone], ?_⟩
        intro p hp
        cases p with
        | zero => simpa using hfalse
        | succ q =>
          simp only [List.drop_succ_cons]
          exact hno q (by simpa using hp)
      · right
        refine ⟨p + 1, by simpa using hp, by simpa using hocc, ?_, ?_⟩
        · intro q hq
          cases q with
          | zero => simpa using hfalse
          | succ r =>
            simp only [List.drop_succ_cons]
            exact hfirst r (by omega)
        · have e : p + 1 + from_.length = (p + from_.length) + 1 := by omega
          simp [replace_first, hfalse, hres, e]

/-- The result of `replace_first` when the first occurrence is at the position `p`. -/
theorem replace_first_at (from_ to_ s : List Char) (p : Nat) (hp : p ≤ s.length)
    (hocc : starts_with from_ (s.drop p) = true)
    (hfirst : ∀ q, q < p → starts_with from_ (s.drop q) = false) :
    replace_first from_ to_ s = some (s.take p ++ to_ ++ s.drop (p + from_.length)) := by
  rcases replace_first_spec from_ to_ s with ⟨_, hno⟩ | ⟨p0, hp0, hocc0, hfirst0, hres⟩
  · rw [hno p hp] at hocc
    exact absurd hocc (by decide)
  · have e : p0 = p := by
      rcases Nat.lt_trichotomy p0 p with hlt | heq | hgt
      · rw [hfirst p0 hlt] at hocc0
        exact absurd hocc0 (by decide)
      · exact heq
      · rw [hfirst0 p hgt] at hocc
        exact absurd hocc (by decide)
    rw [← e]
    exact hres

theorem replace_first_none (from_ to_ s : List Char)
    (hno : ∀ p, p ≤ s.length → starts_with from_ (s.drop p) = false) :
    replace_first from_ to_ s = none := by
  rcases replace_first_spec from_ to_ s with ⟨hnone, _⟩ | ⟨p0, hp0, hocc0, _, _⟩
  · exact hnone
  · rw [hno p0 hp0] at hocc0
    exact absurd hocc0 (by decide)

/-- The text of an operand's element has the name of the operand exchanged at its
start. -/
theorem replace_name (name index : String) :
    (make_code.MatMatToken.replace (name ++ "[" ++ index ++ "]") name "bp").2
      = "bp[" ++ index ++ "]" := by
  unfold make_code.MatMatToken.replace
  have hs : (name ++ "[" ++ index ++ "]").toList
      = name.toList ++ ("[".toList ++ index.toList ++ "]".toList) := by
    simp [String.toList, String.data_append]
  rw [hs, replace_first_of_starts_with _ _ _ (starts_with_append _ _)]
  apply String.ext
  simp [String.data_append, String.toList]

theorem rhs_expr_eq (RHS : symbolic_operand) :
    make_code.MatMatToken.rhs_expr RHS
      = "bp[" ++ (if RHS.is_row_major && RHS.is_transposed then "i"
                  else if RHS.is_row_major && !RHS.is_transposed then
                    "i * " ++ RHS.internal_size2_name
                  else if !RHS.is_row_major && RHS.is_transposed then
                    "i * " ++ RHS.internal_size1_name
                  else "i") ++ "]" := by
  have h1 : ("i" : String) ≠ "gid" := by decide
  have h2 : ∀ x : String, "i * " ++ x ≠ "gid" := by
    intro x
    have := accessor_ne_gid "i * " x "" (by decide)
    simpa using this
  unfold make_code.MatMatToken.rhs_expr
  cases hrm : RHS.is_row_major <;> cases htr : RHS.is_transposed <;>
    simp only [Bool.and_true, Bool.and_false, Bool.true_and, Bool.false_and, Bool.not_true,
      Bool.not_false, if_true, if_false, Bool.false_eq_true, make_expression_code, if_neg h1,
      if_neg (h2 _), reduceIte] <;>
    exact replace_name _ _

/-- C33: `replace` returns `false` and the unchanged text when `from` occurs at no
position of `str`; when `p` is the first position where `from` occurs it returns `true`
and the text before `p`, then `to`, then the text after the occurrence, and an occurrence
is what the text `from` followed by a rest says; the load of the right operand is
`bp[index]` with the index text of the layout, also in the example, where the index
`i * B_internal_size2` contains the name `B` of the operand. -/
theorem replace_first_occurrence (str from_ to_ : String) (RHS : symbolic_operand) :
    ((∀ p, p ≤ str.length → starts_with from_.toList (str.toList.drop p) = false) →
        make_code.MatMatToken.replace str from_ to_ = (false, str))
    ∧ (∀ p, p ≤ str.length → starts_with from_.toList (str.toList.drop p) = true →
        (∀ q, q < p → starts_with from_.toList (str.toList.drop q) = false) →
        make_code.MatMatToken.replace str from_ to_
          = (true, String.mk (str.toList.take p ++ to_.toList
              ++ str.toList.drop (p + from_.length))))
    ∧ ((∃ p, p ≤ str.length ∧ starts_with from_.toList (str.toList.drop p) = true) →
        ∃ p, p ≤ str.length ∧ starts_with from_.toList (str.toList.drop p) = true
          ∧ (∀ q, q < p → starts_with from_.toList (str.toList.drop q) = false)
          ∧ (make_code.MatMatToken.replace str from_ to_).1 = true)
    ∧ (∀ l : List Char, starts_with from_.toList l = true ↔ ∃ rest, l = from_.toList ++ rest)
    ∧ make_code.MatMatToken.rhs_expr RHS
        = "bp[" ++ (if RHS.is_row_major && RHS.is_transposed then "i"
                    else if RHS.is_row_major && !RHS.is_transposed then
                      "i * " ++ RHS.internal_size2_name
                    else if !RHS.is_row_major && RHS.is_transposed then
                      "i * " ++ RHS.internal_size1_name
                    else "i") ++ "]"
    ∧ make_code.MatMatToken.rhs_expr (example_operand "B" true false)
        = "bp[i * B_internal_size2]"
    ∧ make_code.MatMatToken.replace "B[i * B_internal_size2]" "B" "bp"
        = (true, "bp[i * B_internal_size2]")
    ∧ make_code.MatMatToken.replace "B[i]" "C" "bp" = (false, "B[i]") := by
  refine ⟨?_, ?_, ?_, starts_with_iff _, rhs_expr_eq RHS, by decide, by decide, by decide⟩
  · intro hno
    unfold make_code.MatMatToken.replace
    rw [replace_first_none from_.toList to_.toList str.toList hno]
  · intro p hp hocc hfirst
    unfold make_code.MatMatToken.replace
    rw [replace_first_at from_.toList to_.toList str.toList p hp hocc hfirst]
    rfl
  · rintro ⟨p, hp, hocc⟩
    rcases replace_first_spec from_.toList to_.toList str.toList with
      ⟨_, hno⟩ | ⟨p0, hp0, hocc0, hfirst0, hres⟩
    · rw [hno p hp] at hocc
      exact absurd hocc (by decide)
    · refine ⟨p0, hp0, hocc0, hfirst0, ?_⟩
      unfold make_code.MatMatToken.replace
      rw [hres]

end viennacl.generator

/-! ## The scalar type of the operands in the emitted text -/

namespace viennacl.generator

set_option maxRecDepth 16000

theorem make_expression_code_without_scalar_type (e : expression) :
    ∀ loop_accessor : String,
      make_expression_code e.without_scalar_type loop_accessor
        = make_expression_code e loop_accessor := by
  induction e with
  | NullType => intro a; rfl
  | symbolic T => intro a; rfl
  | cpu_symbolic_scalar name => intro a; rfl
  | gpu_symbolic_scalar val_name => intro a; rfl
  | inner_prod_impl_t T _ => intro a; rfl
  | elementwise_modifier_impl T modify ih =>
    intro a
    simp only [expression.without_scalar_type, make_expression_code, ih]
  | compound_node LHS OP RHS names ihl ihr =>
    intro a
    cases OP with
    | inner_prod_type => rfl
    | prod_type => rfl
    | other s => simp only [expression.without_scalar_type, make_expression_code, ihl, ihr]

theorem is_null_type_without_scalar_type (e : expression) :
    is_null_type e.without_scalar_type = is_null_type e := by
  cases e <;> rfl

theorem dot_product_without_scalar_type (LHS RHS : expression) (Alignment : Nat)
    (a b : String) :
    dot_product LHS.without_scalar_type RHS.without_scalar_type Alignment a b
      = dot_product LHS RHS Alignment a b := by
  simp only [dot_product, dot_product_impl, make_expression_code_without_scalar_type]

theorem store_without_scalar_type (token : MatMatToken) :
    make_code.MatMatToken.store token.without_scalar_type
      = make_code.MatMatToken.store token := by
  unfold make_code.MatMatToken.store
  simp only [MatMatToken.without_scalar_type, is_null_type_without_scalar_type,
    make_expression_code_without_scalar_type]
  rfl

theorem MatMatToken_value_without_scalar_type (to_string : Nat → String)
    (token : MatMatToken) :
    make_code.MatMatToken.value to_string token.without_scalar_type
      = make_code.MatMatToken.value to_string token := by
  unfold make_code.MatMatToken.value
  rw [store_without_scalar_type]
  rfl

theorem foldl_without_scalar_type (f : inner_prod_node → String → String)
    (hf : ∀ U res, f U.without_scalar_type res = f U res) (T : List inner_prod_node) :
    ∀ res : String,
      (T.map inner_prod_node.without_scalar_type).foldl (fun res U => f U res) res
        = T.foldl (fun res U => f U res) res := by
  induction T with
  | nil => intro res; rfl
  | cons U rest ih =>
    intro res
    simp only [List.map_cons, List.foldl_cons, hf, ih]

theorem InProdToken_0_value_without_scalar_type (T : List inner_prod_node) :
    make_code.InProdToken_0.value (T.map inner_prod_node.without_scalar_type)
      = make_code.InProdToken_0.value T :=
  foldl_without_scalar_type make_code.InProdToken_0.generate_code (fun _ _ => rfl) T ""

theorem InProdToken_1_reduction_without_scalar_type (T : List inner_prod_node) :
    make_code.InProdToken_1.reduction (T.map inner_prod_node.without_scalar_type)
      = make_code.InProdToken_1.reduction T :=
  foldl_without_scalar_type make_code.InProdToken_1.generate_code_reduction
    (fun _ _ => rfl) T ""

theorem InProdToken_1_sum_without_scalar_type (T : List inner_prod_node) :
    make_code.InProdToken_1.sum (T.map inner_prod_node.without_scalar_type)
      = make_code.InProdToken_1.sum T := by
  refine foldl_without_scalar_type make_code.InProdToken_1.generate_code_sum ?_ T ""
  intro U res
  simp only [make_code.InProdToken_1.generate_code_sum, inner_prod_node.without_scalar_type,
    dot_product_without_scalar_type]
  rfl

theorem has_substring_append_left (pattern : List Char) :
    ∀ s t : List Char, has_substring pattern s = true → has_substring pattern (s ++ t) = true := by
  intro s
  induction s with
  | nil =>
    intro t h
    have hp : pattern = [] := by
      cases pattern with
      | nil => rfl
      | cons a as => simp [has_substring, starts_with] at h
    subst hp
    cases t <;> simp [has_substring, starts_with]
  | cons c cs ih =>
    intro t h
    simp only [has_substring, Bool.or_eq_true] at h
    simp only [List.cons_append, has_substring, Bool.or_eq_true]
    rcases h with h | h
    · left
      obtain ⟨rest, e⟩ := (starts_with_iff pattern _).mp h
      refine (starts_with_iff pattern _).mpr ⟨rest ++ t, ?_⟩
      show (c :: cs) ++ t = pattern ++ (rest ++ t)
      rw [e, List.append_assoc]
    · right
      exact ih t h

theorem has_substring_append_right (pattern : List Char) :
    ∀ s t : List Char, has_substring pattern t = true → has_substring pattern (s ++ t) = true := by
  intro s
  induction s with
  | nil => intro t h; simpa using h
  | cons c cs ih =>
    intro t h
    simp only [List.cons_append, has_substring, Bool.or_eq_true]
    right
    exact ih t h

/-- A text that occurs in `s` occurs in `s ++ t`. -/
theorem occurs_append_left (pattern s t : String)
    (h : has_substring pattern.toList s.toList = true) :
    has_substring pattern.toList (s ++ t).toList = true := by
  have e : (s ++ t).toList = s.toList ++ t.toList := by
    simp [String.toList, String.data_append]
  rw [e]
  exact has_substring_append_left _ _ _ h

theorem occurs_append_right (pattern s t : String)
    (h : has_substring pattern.toList t.toList = true) :
    has_substring pattern.toList (s ++ t).toList = true := by
  have e : (s ++ t).toList = s.toList ++ t.toList := by
    simp [String.toList, String.data_append]
  rw [e]
  exact has_substring_append_right _ _ _ h

theorem occurs_foldl_zeros (pattern : String) (l : List Nat) :
    ∀ res : String, has_substring pattern.toList res.toList = true →
      has_substring pattern.toList (l.foldl (fun res _ => res ++ "0,") res).toList = true := by
  induction l with
  | nil => intro res h; exact h
  | cons a rest ih =>
    intro res h
    exact ih _ (occurs_append_left _ _ _ h)

theorem occurs_declarations_As (to_string : Nat → String) :
    has_substring "__local float As[".toList
      (make_code.MatMatToken.declarations to_string).toList = true := by
  unfold make_code.MatMatToken.declarations
  apply occurs_append_left
  apply occurs_foldl_zeros
  apply occurs_append_left
  apply occurs_append_right
  apply occurs_append_left
  apply occurs_append_left
  decide

theorem occurs_declarations_cv (to_string : Nat → String) :
    has_substring "float cv[".toList
      (make_code.MatMatToken.declarations to_string).toList = true := by
  unfold make_code.MatMatToken.declarations
  apply occurs_append_left
  apply occurs_foldl_zeros
  apply occurs_append_right
  apply occurs_append_left
  apply occurs_append_left
  decide

theorem occurs_bp_declaration (to_string : Nat → String) (RHS : symbolic_operand) :
    has_substring "__global float *bp = ".toList
      (make_code.MatMatToken.bp_declaration to_string RHS).toList = true := by
  unfold make_code.MatMatToken.bp_declaration
  cases RHS.is_row_major <;> cases RHS.is_transposed <;>
    simp only [Bool.and_true, Bool.and_false, Bool.true_and, Bool.false_and, Bool.not_true,
      Bool.not_false, if_true, if_false, Bool.false_eq_true, reduceIte] <;>
    repeat (first | decide | apply occurs_append_left)

/-- The text of the matrix-matrix product without the assertion on the alignment. -/
theorem MatMatToken_value_text (to_string : Nat → String) (token : MatMatToken)
    (text : String) (h : make_code.MatMatToken.value to_string token = .ok text) :
    has_substring "__local float As[".toList text.toList = true
    ∧ has_substring "float cv[".toList text.toList = true
    ∧ has_substring "float bv = ".toList text.toList = true
    ∧ has_substring "__global float *bp = ".toList text.toList = true := by
  unfold make_code.MatMatToken.value VIENNACL_STATIC_ASSERT at h
  split at h
  · injection h with h
    subst h
    refine ⟨?_, ?_, ?_, ?_⟩
    · iterate 27 apply occurs_append_left
      exact occurs_declarations_As to_string
    · iterate 27 apply occurs_append_left
      exact occurs_declarations_cv to_string
    · iterate 14 apply occurs_append_left
      apply occurs_append_right
      apply occurs_append_left
      apply occurs_append_left
      decide
    · iterate 17 apply occurs_append_left
      apply occurs_append_right
      exact occurs_bp_declaration to_string token.RHS
  · cases h

theorem occurs_foldl_generate_code (pattern : String) (T : List inner_prod_node) :
    ∀ res : String, has_substring pattern.toList res.toList = true →
      has_substring pattern.toList
        (T.foldl (fun res U => make_code.InProdToken_0.generate_code U res) res).toList
        = true := by
  induction T with
  | nil => intro res h; exact h
  | cons U rest ih =>
    intro res h
    exact ih _ (occurs_append_left _ _ _ h)

theorem occurs_InProdToken_0_value (T : List inner_prod_node) (h : T ≠ []) :
    has_substring "float sum = 0;".toList (make_code.InProdToken_0.value T).toList = true := by
  cases T with
  | nil => exact absurd rfl h
  | cons U rest =>
    unfold make_code.InProdToken_0.value
    rw [List.foldl_cons]
    apply occurs_foldl_generate_code
    unfold make_code.InProdToken_0.generate_code
    apply occurs_append_right
    iterate 4 apply occurs_append_left
    decide

/-- C32: two matrix-matrix tokens, and two lists of inner products, that are the same once
the scalar types of their operands are left out give the same text of
`make_code<MatMatToken>::value`, of `make_code<InProdToken<T,0> >::value`, of
`make_code<InProdToken<T,1> >::reduction` and of `sum`; the local-memory parameter that
ends the kernel header is the fixed text `,__local float* shared_memory_ptr`; the text of
the product declares `As`, `cv`, `bv` and `bp` as `float` and the text of the final
reduction declares `sum` as `float`; `inner_prod_impl_t::declarations` prints the scalar
type of its inner product, and gives different texts for `float` and `double`. -/
theorem scalar_type_not_emitted (to_string : Nat → String)
    (print_type : String → Nat → String) (t1 t2 : MatMatToken)
    (T1 T2 : List inner_prod_node)
    (h : t1.without_scalar_type = t2.without_scalar_type)
    (hT : T1.map inner_prod_node.without_scalar_type
      = T2.map inner_prod_node.without_scalar_type) :
    make_code.MatMatToken.value to_string t1 = make_code.MatMatToken.value to_string t2
    ∧ make_code.InProdToken_0.value T1 = make_code.InProdToken_0.value T2
    ∧ make_code.InProdToken_1.reduction T1 = make_code.InProdToken_1.reduction T2
    ∧ make_code.InProdToken_1.sum T1 = make_code.InProdToken_1.sum T2
    ∧ (∀ (Operations : Type) (mt : meta_tools Operations) (ops TList : Operations)
        (name : String), mt.count_if_is_inner_product_leaf TList ≠ 0 →
        header_code_value mt ops TList name
          = (header_for_each (Arguments mt ops) ("__kernel void " ++ name ++ "(\n") true).1
            ++ ",__local float* shared_memory_ptr\n" ++ ")\n")
    ∧ (∀ text, make_code.MatMatToken.value to_string t1 = .ok text →
        has_substring "__local float As[".toList text.toList = true
        ∧ has_substring "float cv[".toList text.toList = true
        ∧ has_substring "float bv = ".toList text.toList = true
        ∧ has_substring "__global float *bp = ".toList text.toList = true)
    ∧ (T1 ≠ [] →
        has_substring "float sum = 0;".toList (make_code.InProdToken_0.value T1).toList = true)
    ∧ (∀ U : inner_prod_node, inner_prod_impl_t.declarations print_type U
        = print_type U.ScalarType 1 ++ " " ++ ("private_" ++ U.name) ++ "=0;\n")
    ∧ inner_prod_impl_t.declarations (fun s _ => s) example_inner_prod
        ≠ inner_prod_impl_t.declarations (fun s _ => s) example_double_inner_prod := by
  refine ⟨?_, ?_, ?_, ?_, ?_, ?_, ?_, fun _ => rfl, by decide⟩
  · rw [← MatMatToken_value_without_scalar_type to_string t1, h,
      MatMatToken_value_without_scalar_type]
  · rw [← InProdToken_0_value_without_scalar_type T1, hT,
      InProdToken_0_value_without_scalar_type]
  · rw [← InProdToken_1_reduction_without_scalar_type T1, hT,
      InProdToken_1_reduction_without_scalar_type]
  · rw [← InProdToken_1_sum_without_scalar_type T1, hT,
      InProdToken_1_sum_without_scalar_type]
  · intro Operations mt ops TList name hcount
    unfold header_code_value
    rw [if_pos hcount, String.empty_append]
  · intro text htext
    exact MatMatToken_value_text to_string t1 text htext
  · exact occurs_InProdToken_0_value T1

/-- Witness for C32: the product `C = A * B` and the inner product of `x` and `y`, once
with the scalar type `float` and once with `double`. -/
theorem scalar_type_not_emitted_witness :
    example_token.without_scalar_type = example_double_token.without_scalar_type
    ∧ [example_inner_prod].map inner_prod_node.without_scalar_type
        = [example_double_inner_prod].map inner_prod_node.without_scalar_type
    ∧ make_code.MatMatToken.value (fun n => toString n) example_token
        = make_code.MatMatToken.value (fun n => toString n) example_double_token
    ∧ make_code.InProdToken_0.value [example_inner_prod]
        = make_code.InProdToken_0.value [example_double_inner_prod] :=
  ⟨rfl, rfl,
   (scalar_type_not_emitted (fun n => toString n) (fun s _ => s) example_token
      example_double_token [example_inner_prod] [example_double_inner_prod] rfl rfl).1,
   (scalar_type_not_emitted (fun n => toString n) (fun s _ => s) example_token
      example_double_token [example_inner_prod] [example_double_inner_prod] rfl rfl).2.1⟩

end viennacl.generator
